import Mathlib

/-!
Verification development for the `iglo` chess engine.

This file gives a shallow embedding, in Lean 4, of the parts of the engine
that the checked claims are about: the Zobrist hash tables and toggles
(`src/chess/zobrist_hash.rs`), the board state, FEN parsing/serialisation,
castling-rights revocation and move execution (`src/chess/board.rs`), the move
encoding (`src/chess/chess_move.rs`), the transposition table
(`src/engine/transposition_table.rs`), move ordering
(`src/engine/move_ordering.rs`) and the searcher (`src/engine/search.rs`).

Modelling conventions:
* Machine integers are `Nat` (or `Int` for scores) with explicit `% 2 ^ w`
  masking where the Rust code can overflow; shift amounts are masked by 64 as
  in release builds.
* Rust panics (array index out of bounds, `unwrap` on `None`, failed
  `assert!`) are modelled explicitly: parsing returns a three-valued result
  (`ok` / `err` / `panic`), move execution and search return `Option` values
  where `none` means the Rust code panics.
* The legal move generator, the attack map and the square-name helpers live in
  `src/chess/move_generator.rs` and `src/chess/square.rs`, which are declared
  by `src/chess/mod.rs` but are not present in the source tree (only an older
  generation of the engine module is).  They are modelled from the spec as
  oracles / spec-modelled definitions, each marked `Modelled from the spec:`.
* Wall-clock time and the atomic stop flag are modelled as a boolean state
  field plus an oracle predicate on the node counter, since real time is not
  statable in a pure embedding.
-/

namespace Iglo

/-! ## Zobrist hash tables (`src/chess/zobrist_hash.rs`)

The constant tables are copied verbatim from the source. -/

def ZHASH_TABLE : List Nat := [
  0x149e345028558a4f, 0x44755cbfee0f8572, 0x731eca45667cd26a, 0xcb2e1b5403fc5d50, 0xaacb0ce08fdfdce4, 0x3266bd39d53d8707, 0xaa309a613c6df786, 0x97d99fa45b4595b8,
  0x8f5bef933b997d7b, 0xaba040d44a1528af, 0x929f71caa2596cbb, 0x21e24c60298629e2, 0xcc12914660ad8ffe, 0xcafe38c1c44a9c26, 0x90ed5193991ce49c, 0xfa73ddd2f4ab1e93,
  0xa22110133ed11761, 0xc64e2192785c9b89, 0x22ec218391b4fb14, 0xd8d1b88f85cd065c, 0x90b8779f8c6d736d, 0x2ad03bea2a1714f9, 0xd669325edef08e98, 0x3b7aa5580fef3b05,
  0xacab8c6f427908f5, 0x5f171173fa11de25, 0x00b4faf8b3e46af8, 0x0c2158d16ed39913, 0xacb09ba3c34fe394, 0x2f55ec504ce6b601, 0x2218083c175d244f, 0x3deee78fcfaa0d20,
  0x9383ddd1b3f65d8d, 0xf5b7e27f0cc51d3b, 0xbc7b622248ce5626, 0x7a6fff82a258da2c, 0x1ac7957ded7feb24, 0x89e758333a360cce, 0xcd9107a75cea9bc1, 0x171367d8c900c8a2,
  0x2a746103e7878e48, 0x7d9e749c7469aa37, 0x95debbeb97541608, 0x4f38a1e45d8fa2be, 0x57b9be2e84ab5920, 0xe9b6b0d045140c11, 0x0a437f84e0868010, 0xf5028a9cdf23d9fb,
  0xd5e3369e616254fc, 0x7fc3ab20ff8eddf1, 0x96e98f6ce7d3d6ce, 0x264fd2e317c97af6, 0xab772c11632dbd9f, 0x7872f6cedfc514e3, 0x887dbc2eba6a5f11, 0x187df065e27fc377,
  0x17719ae8f23c2caf, 0x1e15e23279e02c0c, 0x133975f36119bb81, 0x8c0c153aca06cfa6, 0x9b733c77bbdc47b5, 0xec5047d35e5d803c, 0x8ec60d3bf664c7dc, 0x9b6c53b8b082e856,
  0x871d06fec7fc4c21, 0x7db625d4354ee0fb, 0x024c8fc8ba113a7d, 0xc0a86ad21f9f5a88, 0xdce8eb36e870e30a, 0x7a072c940c310d2e, 0x0a4bc9533e16ebb0, 0xde0dfeb187b42eac,
  0x417657fb6a68d308, 0x54e46811eedeab8b, 0x73f8295d1968072c, 0xdebcff2088434806, 0xe63f1bd418b02809, 0xc762529c45bf8f6a, 0xf29ca48f9b789307, 0x81241b3ff8fddf99,
  0xda582bdd76b55b1d, 0x60d5f6a1227546cc, 0xf214ae04baf2e0ff, 0x2b9bd56ec9d7dab8, 0xbcba851a3312aa0f, 0xb928b4ed99034f51, 0xc6773ea873096cbc, 0x0a65b9e8fe52796a,
  0x7b6908fd9ac8d254, 0x88e39f3c2e0d721d, 0x610eea669fa18068, 0x9fc996c7534ad354, 0x18ecd089954993dc, 0x5be304e142f0702b, 0xaed5c5fe6c30ba9a, 0xb7defd0b386b47e2,
  0xb0de077a3295c180, 0x2b6e3963f7e7bae6, 0xeba4c5b480d17a22, 0xc3006e316dd26c3c, 0x641485f4923127f5, 0x22b6a87986f7c7bb, 0x73b1e547bb670cee, 0xe4665d3db102ddd6,
  0x7c1e9c0b9d9a6ea2, 0x533a2a990c342f15, 0x730af351bd8454e7, 0x597c736fc047d018, 0xb9e63f928d838f48, 0x11731795da69e08b, 0x9f9b4c5021161687, 0xaa8d8e05630d69ad,
  0xf0d3616c86c28388, 0x1843830dceb5cdd6, 0xb15c55d6d3705529, 0x70c4cedfc72f34aa, 0xb66773366f7ee064, 0x134c7f2a3f0a03c5, 0x51b7cf4a0b843078, 0x643c4773dffacb76,
  0x6ec7b0a55a1d4e27, 0xa1e4454e646af0b8, 0x73a03a3261ac65c3, 0x4c453d409a6fe240, 0x221b4e1561b0fbcf, 0x6a99afa0956f77bf, 0x2bf907ffa0d0c438, 0x0ed900bc13a8e193,
  0x9ead926493335f9d, 0x4b3cdac310c84ed2, 0xb83268fee19f9e84, 0x06bb78bf2575c272, 0xe1fef6df53f21db5, 0x061d7d12fcfccdfa, 0x5c0d6c1c571f5b95, 0x208354d07c758b3a,
  0xce38fbbd411295a1, 0xe65cc6ffdf00117b, 0x8b0533c693cf36ca, 0x70acfbebb05430da, 0xbf5b62b2f2c321b0, 0x28565ac765b5ea00, 0x3b3c1517c3965e90, 0xfd6be76daf51f90f,
  0xeaa5b84413392179, 0xb9b4afd2f8b75839, 0xd36ab433f87124ba, 0x09fbb04c17b094d1, 0x91935d7b602104cd, 0x21f70bebeb98cdcb, 0xbe8174a0043b8532, 0xc602180299efb908,
  0x2f4b0394f8264ad0, 0x8bd07da8350fbf3b, 0x4c63c8a95766fd15, 0x21ece7365c9f1637, 0x45480a0c9ec42700, 0x969377c12c357dd7, 0x6267a1eab3759331, 0x1cfbaaf038c9cd03,
  0xac0907e08d0e714e, 0x5350bbb145ff9d1d, 0x6661be3586f9230c, 0xe1dc0f23f9b97911, 0xc6f8cba17cddeec2, 0x9a8571f971e64790, 0x7c8f98c1b77cbe46, 0x0661c1e2cf56a7f2,
  0xc755404fa9281490, 0x7bf784879545c2c2, 0xeda443cfc8b216c3, 0x191a2cc9b58bae1c, 0xa90c7bec6fa90710, 0x6c0259f52c608c95, 0x8c93eaf8f41035bc, 0x6b4cde809275e56e,
  0xda9a0a6a15c02c71, 0xff0776922cc09df2, 0x21cfb8c14a0b91f8, 0x9350cf3fbecd181d, 0x3d45a5086a9b0af1, 0x64146efa592f7e8b, 0xec14b41557841e3e, 0x8d68c73dbdaede1a,
  0x30f18b820e521716, 0x01616595b8dccadb, 0x38761fc75f53127f, 0xe0d139de062db813, 0x027df4877ef3b1c6, 0x5c016e613f6b59fe, 0x9cf2082c3afc6713, 0xaf2a220696d933d3,
  0xfa69edee2686dac0, 0x4f072eacbe7d937d, 0xb9a35ed5855ad91b, 0xf241f250b4ed79ce, 0xe926fd0246bfe1ab, 0x37d51733c9761128, 0x959ee96c6c43cbcb, 0xce03c93f25c1998a,
  0x96f5e945453979be, 0x8f190ab628519b37, 0x71f6ab970c13f62a, 0x59183fdb9c549427, 0x0c1b9ce808b1fdff, 0xad930b8b9376af8d, 0xdf1d7c2eccec7399, 0x02e512dff01a5c10,
  0x77a4017837d5ab80, 0xd52f1ec63b8858bb, 0x9a55289f6c1accfa, 0xe629c87cc0a21772, 0xd8faca9cb4c40dab, 0x91d9effc43817301, 0xfcf53c7b34a3c902, 0x760b66855efd4566,
  0x48ecea44436e28f1, 0x85c16e8524411040, 0x9ccead927c221f4e, 0x7923b496b5b8a57e, 0x91d906e8c25279e4, 0x240831f9cacc2a04, 0xb016e47bd6936426, 0xde49924ee10c247c,
  0x42b3c3ed5f105560, 0x304a94677f8dc462, 0xd3ac11019e60038e, 0xd0de8a634aed23b1, 0xfac6a5e7f338843b, 0x0715dceda15d7d4c, 0xbf12c0d7a824bd8f, 0xccbe480176697742,
  0x3f0bb754b0fd5e3e, 0x57035377096fd111, 0xe2e9e8571eeae060, 0x52543c7283acebb5, 0xd3343e8bad8de483, 0x6e7a242cbbb9f98d, 0x44c06f0a99577aef, 0xc35e8171cc7df635,
  0x384967a1cd45c7ba, 0x57c6a21831e8d227, 0x4b35fabc2854467d, 0x9904361e62a7debd, 0xe973ea05994b4391, 0xf7b836c3126f5e8d, 0x0a33bf459305be43, 0x9617a35f6b0eb247,
  0xc1e30f0c26a781ab, 0x1e60e8427743189f, 0xb4d5433bc4d80d11, 0xfb80ca2608b1663b, 0x2bb35a6d00797966, 0xab2ff4303f48960d, 0x9116e7b4195e7782, 0x0be736651e8ba4de,
  0xa67a1ae29c165376, 0xebee8ac37d3fc224, 0x3c2dc67651059dd8, 0xeb304fafe16ddb15, 0x85727e29500a8354, 0x26a5859a39747cc1, 0x031c20938bd5e073, 0xad2d893f2ea4357a,
  0xb52a6bfd706a84dc, 0xa43d61a1f8dd3d3f, 0x350160e030927798, 0xb8832b85c150c524, 0xa3387519f9c6ee45, 0x56ef23c52bab7c5e, 0x676ef2c22a76947b, 0xda644f689e26d5ee,
  0xc9de8ce394f5cba3, 0x79c30df9b8692ca6, 0x86c98789a941e161, 0xa562baf608e9c80c, 0xa792c82b428f73eb, 0xe6e619f038c539ef, 0xbeb78d34dcaccc14, 0x32bc684840c46de1,
  0x9d151dc62ea57043, 0x22a5554734837b19, 0xcc958f40b16b00ee, 0xcaa1d64bd4d7980f, 0x2c1c79a80002a0e0, 0xbfd0d1bd017e59d8, 0x5d2cfe385bafbf30, 0x41bcfae9c365b7e7,
  0x590c290b024a8ebd, 0xc770a1696553e202, 0x57225be4fb511a8b, 0xa1dbba2375303713, 0xd6e0967b504b265e, 0x0749ba3a9c2ca8a4, 0x93aba8edb406519d, 0xf54468531f3589ba,
  0x1cac68aa07078793, 0x209a5413a2321a8c, 0x241eb0557fea0ba1, 0xe671b6ae258cced3, 0xe452e5ddddfbbb8c, 0x7054836d840bcebe, 0x164de5d9244b6083, 0x8d4ecc6c1fe61b23,
  0x2d43f62ff76d65bf, 0x8173c6f1e2f2de99, 0x780489d38adc09f7, 0x2ebb5c0b0b17d30f, 0x9eff4699819cea70, 0x76469358c00ba179, 0xe1a3304d584364d8, 0xc4fe831409ee993b,
  0xe0be898d73113d89, 0xbe43a87fe7518e7d, 0x1f9a0d367597ad2f, 0x67838dcb830ec7ef, 0x92417b7e4804ae8f, 0xaf0b2c8f5cd2e57d, 0x4b38660e548b330f, 0xd1f254e1c55f85ce,
  0x1def3555ed9bb75b, 0xcaf4b76ba65acaa3, 0xe8fa91d0f08f473a, 0xcf1234dd56919fc0, 0xf5a65d6800da0365, 0x27a8d86d5990ee5e, 0x571e492362504d53, 0xbcc5314e4df3c020,
  0xd02593710df19e3f, 0xe4366265b66e9587, 0xb34a46842237b86b, 0x28cbc60e635b8946, 0x3df17590cd06f17c, 0xb6a2d6544c115490, 0x36887a496a6d15ce, 0x135019427c91a445,
  0xb034991b02211b5e, 0xbdf9a8580604310e, 0x4e474638b624a083, 0x481adb74061bd75f, 0xccff9f7802991e8a, 0x62433f41334cafa8, 0xe06b8739222f7dfa, 0xc2ffeb235625dda6,
  0x5e3f353a85721851, 0xe555355c2d9d1ae6, 0x50dcd86f16e15ad1, 0x66e35f187448ad54, 0xeef3e542ddbeeab5, 0x36e9980e31570da0, 0xfae14194843bfe05, 0x9d3a05b52b8d3082,
  0x5a65892d1bb4207e, 0xe0421eec218f43f5, 0x9996d4e367a79d65, 0xecb62a49d7d27b47, 0x30ac54056ba95d5c, 0xe814763e7c4f831d, 0x7edd1851cf9f5f70, 0xd12249d9fa17d23d,
  0x32a5420f33d6fb64, 0xed8b50011d54016d, 0x1e98d690538641d0, 0xa1f09ce577ffda41, 0x7be87173df908a1c, 0x7ad7091fa19cb42c, 0x19973f1ad771ff88, 0x520ab5cebd5241df,
  0x01e7343064e6e3c6, 0xaed095c8cb3fc0cd, 0x1ac7e75aa9d70a80, 0x41580efc76feba66, 0xc15475430c0a5ca5, 0xb967b6ee97b1cdf0, 0x82a18ae280ddc873, 0x14e8c750bb325dc2,
  0x6ae5559a977aa4e2, 0x8575109d9efa91b7, 0x828ba1ffd067c80c, 0xf8835137dbd93f02, 0xa18314ab87116a37, 0xd8854707639420ce, 0x0902398069d297d9, 0x159d325822ad5709,
  0xb09eb5870da422a2, 0x070d32b4e5f0f109, 0xb496365cda9db7bb, 0xd85a00c57d887c9e, 0xc8811ebd1751e7fe, 0x0eea6d9e8bb4fa3a, 0x54cd5c60507dbe9e, 0x1e024a147f02fd1d,
  0xee6f406313e0906a, 0xc1e9dc701d6ff649, 0xeb70486f79f44892, 0x5b0182f3653fb238, 0xef4b403e6a4d0f2a, 0xdb4ae02ac60dd851, 0x83b917f33f0fb531, 0xba40532723fd404b,
  0x6abf7b69a21a053d, 0x6a7125d46020179e, 0x4a9a2ccd56f72ca3, 0xbe4cca22ab42bc33, 0xdf9cd945de98382c, 0xeabbc0202934ae1d, 0xfe59786acbda8807, 0xf61e7b8531a9bd9c,
  0xb8237b6fc48131f4, 0x3b87d221d02bfc61, 0xba366ed23ac8d3b7, 0x6f4865c3e117ed34, 0x0e0d57be1d488ee5, 0xe47446bcf9b724e9, 0x7a222e325271f2bd, 0xf3b3086e1b0a0ae1,
  0x274a9ba6f6e68737, 0xe53bcde61479426d, 0x8504488828d0febf, 0x718af685e74a1f1a, 0xbe198b98c9b8e734, 0xb94ff28f323a707a, 0xf0172d8e9d1f0b37, 0x6fa3665947005c31,
  0xef0468fcb1dc99d3, 0x66f7807a0f0e868d, 0x01cc6cc1703643cd, 0x4dae3b6936f9cc26, 0x2580ae63eb47edb8, 0x4cdae47b84238ecb, 0x78f54ac5b8568560, 0x9aae282279d70edc,
  0xabc0f10f7608cbb9, 0xeb9d45e59c665810, 0xe3f19ebc71f02d46, 0xd708bce7c0caabda, 0x47a3e459ed5bda54, 0x58f26b81ed893314, 0x2dbb4c56d74c21b3, 0x35ce85093edcff2b,
  0xfaca5baac06127fe, 0x024ad9ce4bf5d3f5, 0x84399268041e850a, 0x3ab9a5cbf9725f82, 0x9474c50719d106f0, 0x69536b4a705d8ee4, 0xf143a37f72dce09b, 0xf2357d388d09802a,
  0xab0cadf0d5bffe63, 0xee6073c585a00cbc, 0x2741e27431b9ab1b, 0xba4c6dff6f61eb52, 0xcf3e58b187014f91, 0xfc0a1af9442169ed, 0x03632a5fd89650eb, 0x52b536bf60f1508b,
  0xaaecfee8f3719c48, 0xc79b13f84d9837fc, 0xec49092962ea54f1, 0x86bb48696d97f0dd, 0x9760a1fc0142b560, 0x93fd23fd2e07a6db, 0xef00b8a1fb44a46f, 0xba38663a1c3d23da,
  0xc0a5f24d23859d8d, 0x8a858b002b7346b5, 0x8506ba6d30fdb3a0, 0xc9b00fec6398e026, 0x4b363755b6e06a27, 0x85603f935ed3e865, 0x67ef520cccf41dc0, 0xd506a62f332a20f5,
  0x0c7961caa7ed7f82, 0x883a4e55bd97cb41, 0xd318948ee8dfb461, 0xe78b2e387513d4de, 0x68454135e953758f, 0xb0498827ecbe7104, 0x4dd9b6fed05b2862, 0xe13443eb2ce36925,
  0x6bc20aa9c3d8625e, 0x9791714866a6a75e, 0x6df8303cfdad5f50, 0xca44c923326a23f7, 0xb503681d1acfda10, 0xb564e70142489288, 0xddcdcfbeb37cc428, 0x7d205c9eccab449a,
  0xd865922a34fa51d2, 0x159fdf6529084fd8, 0x318e259c067acd15, 0xeeb7fe85345da377, 0xcb77f53b6caaa6ae, 0x1e7d4c8039b7591d, 0x9802a3c41c5e4c31, 0x55f4bf0c8b12fe64,
  0x0ac32b778b4d584b, 0xbd6c043b3bc3d1b5, 0x8a3331624585db04, 0x58b4505b7df8207e, 0x8878b4c44abd8d01, 0xa3083b5712253f33, 0xd99615ffdb228157, 0xfa447076d902f9c8,
  0xf1227734c19ddbe1, 0x2814032b03a06bbc, 0x7361c46a423b9317, 0x3e6ab6cff7b7d264, 0x299802dd302cdcdc, 0xff85f8e95b1cd170, 0x620efe2163fa485f, 0x7743bbcc3673cc07,
  0x4bfaf451540d4b69, 0x591de20508e9455c, 0xa5452bc155fc2c8e, 0x40d106aaf9cea61d, 0x54cb40f8bf5b92ba, 0x3fca4f37972338d0, 0xc9f28126599f07d9, 0x647e5f6dce529860,
  0xae16d093f7e828d4, 0xf5611f22152d54ba, 0xacd63670088faaf4, 0x5667a6a907ee5df3, 0x437f5a4f07e5d537, 0x52901b8644e1de56, 0x3c80de4356b025b8, 0x205d0ebaf40d634a,
  0x0f3ea1209b37f2d9, 0xfc2581825af035c7, 0xb7346693442b7c44, 0x3c6549b81439a00f, 0xf9a7ed0da3ed027e, 0xb7755a6e70edb49d, 0x5c3a3c97cd70aed6, 0x02e69f701d2a1d65,
  0x62ba16cc7cc53719, 0xf567e072e2675ce8, 0x717d057431b28168, 0x71a2b5631d65da08, 0x5d061d5133fe48e8, 0xf7604436990a92e6, 0x121738b4dc8eb099, 0x7e24ac98636c196b,
  0x84219ad271e94dbd, 0x188daad4e07cbdba, 0x06f05f57bf45e1e7, 0x1817212fac8000ed, 0x68343ddcfc4c3afe, 0x728289edc60718d7, 0xd5ab74438acccdd9, 0x3fe658f1aca905ce,
  0x6e35856beafe1e4f, 0x640c53429a319234, 0x707d26948889305e, 0x65bef5f088034bfd, 0xbeb5fbcea73f4472, 0x3ff03aee82fdb024, 0x549b3c19450cb249, 0x80c4f0e6370f47c8,
  0x2dcd66f4e00cab84, 0xc21e8fd195bc14c5, 0xaa5cc737c0355135, 0xdc6a96d1855c2f03, 0x91b656ab5ff34e0b, 0x849d8075609b55bd, 0x19db83dc4a293cfb, 0x8825c352a59a3f32,
  0x98f80a9de140e3dd, 0xa3c7e03ea88abed7, 0x1a071e191dfe020e, 0xd35c634ca27b8c6e, 0x52013293538062ac, 0x05d957d50f99690a, 0x5acf2f8f42d9de41, 0x23c6009d925f7a6b,
  0xa770110c52f53637, 0x6f9cc6d9f16f52fd, 0x954e2e603da06c13, 0x70bdba9ca246506b, 0x31a29b039dfb0d38, 0x927272338748d837, 0xe20776c21154d880, 0x307406a889f3ea45,
  0x89f5bcbfcad11726, 0x6c8efebd25b96d3e, 0x680e85f86b959691, 0x545975f53f1e2a27, 0x14548a5533c9478e, 0x9a0d42926f0f9759, 0x9680968aa1855c8d, 0x10d3dcaf6eaaf996,
  0x785c748d8ead2a93, 0x1187497019a4cb5c, 0x050c460b32cf5332, 0xf0468742f41ccfdf, 0x0dfbac38bd0a2bce, 0xb11d4d0942f73ea6, 0xa490c752afabce95, 0x12b3548806613ac3,
  0x14f5b65881ca02f5, 0xa431eb588fb6f036, 0x5e31223ca0de804e, 0xfeeb40f04e5a344c, 0x137c5310c5737af8, 0x81fd6f3b516d2c91, 0x4a0495e9f2ba6313, 0x153573253fdabfa1,
  0x5aec020396030e67, 0xc18c7068512538d0, 0x299bb21b4346d63f, 0x6d924a115a122aaa, 0xc1492f5c65ec6556, 0x212b1dd1dd0845df, 0xe829f17d694b10d3, 0x9a1abf52debdb57d,
  0xf140b58c6279a9b5, 0xbeb510c54582bcc3, 0x0c2d5c5a58f0a584, 0x045e68678d1f14b6, 0xa3fcce87aee0990e, 0xfb78fd19da5c3030, 0x5203af37b7d8ad0b, 0x32f9b8a3f9c8500b,
  0x1bfebf170accb249, 0x3bc4610bd12ec90f, 0x4508e9bd4b9e6b9e, 0xd085f291737a2804, 0x387acb9a4b0e002a, 0x00512b051243b7f6, 0x408238bb0c7d1ee1, 0x71855c2ad2c342ff,
  0xfe90fd2d52a6ad21, 0x9548e39069cb0fd0, 0x7d918e5e5ac2c9dd, 0x8776e91008e668f6, 0x5f6206b284da7edd, 0xaf8be7c5e15549c6, 0x659ad7cf66fae245, 0x1182091495efb7fb,
  0xd376884f33149973, 0x41a82b8ba09e023e, 0xc99eae34b7a5d624, 0xb1fc8deee51063e2, 0x786a27ad08e0541d, 0x772e8236ba2c839e, 0x2ea9492df6b4fbe3, 0x41defb9065f3461e,
  0xdac701685eade548, 0x2d4642381cc599e6, 0xa206a248d4c7ad4d, 0x8eb82b7171e1f9a5, 0x53a88d96602ea9bf, 0x9aff521e26cd0218, 0x731bf45abff32ff5, 0x8598401b25ba17e2,
  0x99727d3383f112af, 0x543206c1513ab5a9, 0xdf629fad7615aaac, 0x122ce3946db532e4, 0xb6909dd675ee03c7, 0x021597c3841867d9, 0xedc0af49c768f441, 0x7f3d1a71f356ccfa,
  0x4867c50b5c8e95c5, 0xac78a5803d19d6b9, 0x01ebdd799010f26b, 0x485d9e355558f630, 0x611f993cb0a6381a, 0xf47c274fe310a915, 0xe78d06cd42b37d03, 0x00e7bf40a98116fa,
  0x2544c00efa3f1c55, 0x02ffb7b6d29a8f3c, 0xa7ab7acd8ab38269, 0x2d94e3db5bfff5d0, 0x113e727f183db65f, 0x0ef62626db24f59e, 0x567c798e475a9f44, 0xeb4e9956607c2a04,
  0x887c82b9dace7235, 0x00cb3aa74598818c, 0x1065882ea570c028, 0xf30896f7a7c6c8e9, 0x04e421d4ce0ce336, 0x2249dc5bc84689ed, 0x287b72e9fa22dacf, 0x5fbde72e644f69cd,
  0x5963f1a92e9084f7, 0xfe5597bb7ff54e45, 0xf99376e2bf05eedf, 0x228a72eb99dbb184, 0xedd83d2c17a2c296, 0x0ba6b2ffa53db5e1, 0xe0de9ef296a035f0, 0x0bb836fb3e1076ee,
  0x99b346df3847c827, 0x903e2fbb569e197a, 0xf14953a0e47db122, 0x42abb498f498cb1b, 0x0cc6481caad5cc0b, 0x2298554ef202c7ca, 0x2759f4ae8a5733ff, 0x38846a77c723d2dd,
  0xfd716fbe04b1bff2, 0xda99f2304329f3a7, 0x1499bd131dbf6517, 0x48e44d0e95be4001, 0x012786918190d412, 0x984ce654220ed362, 0x0334c355f12ecc33, 0x1ac56ac9f0dbe9b4,
  0xafc363c9b4fb02aa, 0x571e5ccbaea5066a, 0xb65e209c89322980, 0xd69f9e72a8b40dff, 0x35a7be897387bc90, 0x3f804cf7d0346f50, 0xb0c26049a656f6f0, 0x817fe6646e5db25a,
  0x4b34d5d1c570b8a3, 0x36ca654c5adf1d93, 0x6bd8cbcc9c87e59f, 0x4c14021f01269d1e, 0x26a36502e30cca9e, 0xdf38ee56be84b59a, 0x0d718bff42010f89, 0x8558795a13c5213c,
  0x17e32b959d82bd74, 0x6a1e5d5b05fba733, 0x5a6739731689dd5d, 0xc1130d355ea376e3, 0x1fdea019b6c3ed43, 0xbd1c1b696c72b25b, 0x23ca36439c61f454, 0xf29223b64ea13a28,
  0x8388a066b46a866f, 0x16100f85209dd6ba, 0x755cee5d1c152f7f, 0x6cca7af31b285d46, 0x8d4df754d4b33610, 0x9a55d66e9c3bd495, 0xc2df633f43776973, 0x19454d83793c92d4,
  0x8aa05fd4cc6a1aca, 0x71acc4f0a260c400, 0xd0fadbc52a7b0e3f, 0xd028fbc98f2b9941, 0xc2b0c2909b76859b, 0xb5f9eccb3b4b78d6, 0xc36547dae87d1af0, 0x7c7060dd729b7072,
  0xcbab95b6b1742525, 0x1361f8547a5e1b4e, 0x44164736bb0691b2, 0x9655ce51a6bf85d3, 0xa9d987840c74ef4c, 0x8e1cf2eacd53a68d, 0x45c0989ceb8067db, 0x10bf0343695e7a88,
  0xc03787dd382b6c2c, 0x91f7b572549c46cb, 0x0be9e1a6bf7782a7, 0x9909967bd79e3f93, 0x18dd500956d2795e, 0x863b678e47d9603a, 0xfa9a5a174e54c598, 0xc2fc220af930af68]

def EN_PASSANT_TABLE : List Nat := [
  0xd3581c32769ac1ce, 0xdb3c6ef2ab045e6f, 0xdd97d3c2af5ebf19, 0x25249302971c6e3d, 0xf2e9b7b9b11abf73, 0x09cbbc8e59394dcf, 0x1a39ae1d396dc08c, 0x5618d1ee28191bfd,
  0x0a2bc485303e3f42, 0x526cbe945e1a5ef7, 0x6d347aae372dc90c, 0x50e7a32d4cd637b9, 0x4253dd046597562b, 0xfdbc73d9f60571b6, 0x1923cd65c44cbc54, 0x8e9c9f1fa6306742,
  0x11bd2ce88eab7496, 0x5c220a13edba582f, 0x32d6fad7445ebbcd, 0x795ecb68f0302f54, 0x64f2f11c161a3763, 0x7ff30469cc29f480, 0x992927e2121dcb92, 0x471f9329c69331b6,
  0xa6f90c87b94c695d, 0xc898dba7e265105c, 0x9d5ff40cb374a03d, 0xd1c8ab7d4d4d81dd, 0x1c71251690593287, 0x0a66de8cbb9cb9c0, 0xe4efe83f55999066, 0x8f26e71485649158,
  0xb6535e720bf7dedd, 0xb0384b11055745e3, 0xb2f365562f7bb153, 0x7e639b96c12b751e, 0x8cf8de1f85cdac3a, 0x6ead6aaca8ae7a6f, 0x7335280276058355, 0x199659360dd81648,
  0x4f3e19170a322516, 0xa5829877d96057be, 0x7b50f9cb0c9c4984, 0x5f31e6c9c2a6d2cc, 0x7ca6ddf94beac5db, 0x5407b7479889abff, 0x7a5d233feacced4d, 0xb6f10bed554b21e5,
  0xb9c021c97f3628f1, 0x1d1f50c4911691e1, 0x487c4ad095e790c3, 0x77cd934aa2747b48, 0x4088a00ade404335, 0x00cc3cd582516054, 0xb2d66a313cf4a505, 0xcee95b2187f4700f,
  0x8b1302c6e6a5373d, 0x773f784c96fa6156, 0x77e81a84b839c0b9, 0xccf0b80c26c4da5a, 0x2882340c882b3c95, 0xd68488c8a6aba401, 0xcc19d60724c2afe5, 0x4dff6125f154ff81]

def CASTLING_HASHES : List Nat := [
  0x40dd164d9f66630d, 0xfac1287c93bbf3a2, 0x90f82b552ceb4228, 0x90b4ab38d2525f0c, 0xc2d64cf87e7d2315, 0xa19ac9598af08005, 0xe1e6b41d0922e27a, 0x655705c7c59174e2,
  0x9069ee5b9429b677, 0xc1ed9fa40654c770, 0x20c5b7125571630d, 0xb7c391f853d76cc7, 0x1ac5899e7b6f95ab, 0x6d9ecbb55392b170, 0xde0ba771a93d5864, 0x053f15838ec330c5]

def SIDE_HASH : Nat := 0xe48fe3e0fb244264

/-! ## Core types (`src/chess/board.rs`, `src/chess/chess_move.rs`) -/

/-- Outcome of a fallible Rust computation: `ok`, a recoverable `Err(())`, or a
panic (array index out of bounds, failed `unwrap`/`assert!`). -/
inductive PResult (A : Type) where
  | ok (a : A)
  | err
  | panic
deriving DecidableEq, Repr

instance : Monad PResult where
  pure := .ok
  bind := fun r f =>
    match r with
    | .ok a => f a
    | .err => .err
    | .panic => .panic

/-- Piece kinds, discriminants 0..5 as in the Rust enum. -/
inductive ChessPiece where
  | Pawn
  | Knight
  | Bishop
  | Rook
  | Queen
  | King
deriving DecidableEq, Repr

/-- The numeric discriminant (`piece as usize`). -/
def ChessPiece.toNat : ChessPiece → Nat
  | .Pawn => 0
  | .Knight => 1
  | .Bishop => 2
  | .Rook => 3
  | .Queen => 4
  | .King => 5

inductive PieceColor where
  | White
  | Black
deriving DecidableEq, Repr

/-- The numeric discriminant (`color as usize`). -/
def PieceColor.toNat : PieceColor → Nat
  | .White => 0
  | .Black => 1

/-- The `Not` impl on `PieceColor`. -/
def PieceColor.opposite : PieceColor → PieceColor
  | .White => .Black
  | .Black => .White

/-- CastlingRights is a `u8` bit field: bit 0 = white queen side, bit 1 =
white king side, bit 2 = black queen side, bit 3 = black king side. -/
structure CastlingRights where
  val : Nat
deriving DecidableEq, Repr

def CastlingRights.white_queen_side (r : CastlingRights) : Bool := r.val &&& 1 != 0
def CastlingRights.white_king_side (r : CastlingRights) : Bool := r.val &&& 2 != 0
def CastlingRights.black_queen_side (r : CastlingRights) : Bool := r.val &&& 4 != 0
def CastlingRights.black_king_side (r : CastlingRights) : Bool := r.val &&& 8 != 0

/-- Rust `!1u8` is `254`, and similarly for the other masks. -/
def CastlingRights.set_white_queen_side (r : CastlingRights) (v : Bool) : CastlingRights :=
  if v then ⟨r.val ||| 1⟩ else ⟨r.val &&& 254⟩

def CastlingRights.set_white_king_side (r : CastlingRights) (v : Bool) : CastlingRights :=
  if v then ⟨r.val ||| 2⟩ else ⟨r.val &&& 253⟩

def CastlingRights.set_black_queen_side (r : CastlingRights) (v : Bool) : CastlingRights :=
  if v then ⟨r.val ||| 4⟩ else ⟨r.val &&& 251⟩

def CastlingRights.set_black_king_side (r : CastlingRights) (v : Bool) : CastlingRights :=
  if v then ⟨r.val ||| 8⟩ else ⟨r.val &&& 247⟩

/-- Modelled from the spec: `CastlingRights::index` is not present under
`src/` (the file that defines it is missing); per the spec the castling hash
table has "16 entries for castling state", indexed by the 4-bit encoding, so
the index is the raw field value. -/
def CastlingRights.index (r : CastlingRights) : Nat := r.val

/-- A move is a packed 16-bit word: bits 0..5 source square, 6..11 destination
square, 12..15 kind tag. -/
structure Move where
  word : Nat
deriving DecidableEq, Repr

/-- Move kind tags (the Rust `MoveType` enum discriminants). Tags 6 and 7 are
not valid discriminants (the Rust `transmute` on them is undefined); the
theorems below never rely on their behaviour. -/
def MoveType.Silent : Nat := 0
def MoveType.DoublePush : Nat := 1
def MoveType.CastleKingSide : Nat := 2
def MoveType.CastleQueenSide : Nat := 3
def MoveType.Capture : Nat := 4
def MoveType.EnPassant : Nat := 5

def Move.new (src dst ty : Nat) : Move :=
  ⟨(src ||| (dst <<< 6) ||| (ty <<< 12)) % 65536⟩

def Move.NULL_MOVE : Move := ⟨0⟩

def Move.get_src (m : Move) : Nat := m.word &&& 0x003F

def Move.get_dst (m : Move) : Nat := (m.word &&& 0x0FC0) >>> 6

/-- The kind tag (`get_type` in the source returns the transmuted enum; we
work with the raw tag). -/
def Move.get_type (m : Move) : Nat := (m.word &&& 0xF000) >>> 12

def Move.is_capture (m : Move) : Bool := ((m.word &&& 0xF000) >>> 12) &&& 0b0100 != 0

def Move.is_silent (m : Move) : Bool := m.get_type == MoveType.Silent

def Move.is_double_push (m : Move) : Bool := m.get_type == MoveType.DoublePush

def Move.is_en_passant (m : Move) : Bool := m.get_type == MoveType.EnPassant

def Move.is_promotion (m : Move) : Bool := (m.word >>> 12) &&& 0b1000 != 0

def Move.promotion_target (m : Move) : ChessPiece :=
  match (m.word >>> 12) &&& 0b11 with
  | 0 => ChessPiece.Knight
  | 1 => ChessPiece.Bishop
  | 2 => ChessPiece.Rook
  | _ => ChessPiece.Queen

/-! ## Bitboards (`src/engine/bitboard.rs`)

A bitboard is a `u64`; left shifts are masked to 64 bits (release-build
semantics), and shift amounts are masked by 64. -/

def U64_MASK : Nat := 0xFFFFFFFFFFFFFFFF

def BitBoard.NOT_A_FILE : Nat := 0xfefefefefefefefe
def BitBoard.NOT_H_FILE : Nat := 0x7f7f7f7f7f7f7f7f

def BitBoard.get_bit (b : Nat) (pos : Nat) : Bool := b &&& (1 <<< (pos % 64)) != 0

def BitBoard.set_bit (b : Nat) (pos : Nat) : Nat := b ||| (1 <<< (pos % 64))

def BitBoard.clear_bit (b : Nat) (pos : Nat) : Nat := b &&& (U64_MASK ^^^ (1 <<< (pos % 64)))

def BitBoard.s_no_we (b : Nat) : Nat := (b &&& BitBoard.NOT_A_FILE) >>> 9
def BitBoard.s_no (b : Nat) : Nat := b >>> 8
def BitBoard.s_no_ea (b : Nat) : Nat := (b &&& BitBoard.NOT_H_FILE) >>> 7
def BitBoard.s_we (b : Nat) : Nat := (b &&& BitBoard.NOT_A_FILE) >>> 1
def BitBoard.s_ea (b : Nat) : Nat := ((b &&& BitBoard.NOT_H_FILE) <<< 1) &&& U64_MASK
def BitBoard.s_so_we (b : Nat) : Nat := ((b &&& BitBoard.NOT_A_FILE) <<< 7) &&& U64_MASK
def BitBoard.s_so (b : Nat) : Nat := (b <<< 8) &&& U64_MASK
def BitBoard.s_so_ea (b : Nat) : Nat := ((b &&& BitBoard.NOT_H_FILE) <<< 9) &&& U64_MASK

/-! ## Zobrist hashing (`src/chess/zobrist_hash.rs`) -/

/-- The hash-position formula of `ZHash::toggle_piece_at_pos`:
`piece as usize * color as usize + pos`. -/
def ZHash.hash_pos (piece : ChessPiece) (color : PieceColor) (pos : Nat) : Nat :=
  piece.toNat * color.toNat + pos

/-- For any `pos < 64` the index stays below 69, so the Rust indexing into the
768-entry table cannot panic; we use `getD`. -/
def ZHash.toggle_piece_at_pos (h : Nat) (piece : ChessPiece) (color : PieceColor)
    (pos : Nat) : Nat :=
  h ^^^ ZHASH_TABLE.getD (ZHash.hash_pos piece color pos) 0

/-- `EN_PASSANT_TABLE[pos]` panics when `pos ≥ 64`; modelled as `none`. -/
def ZHash.toggle_enpassant (h : Nat) (pos : Nat) : Option Nat :=
  if pos < 64 then some (h ^^^ EN_PASSANT_TABLE.getD pos 0) else none

/-- `CASTLING_HASHES[index]` panics when the index is 16 or more. -/
def ZHash.swap_castling_rights (h : Nat) (old new : CastlingRights) : Option Nat :=
  if old.index < 16 && new.index < 16 then
    some (h ^^^ CASTLING_HASHES.getD old.index 0 ^^^ CASTLING_HASHES.getD new.index 0)
  else none

def ZHash.toggle_side (h : Nat) : Nat := h ^^^ SIDE_HASH


/-! ## The board (`src/chess/board.rs`) -/

/-- Twelve piece bitboards, two aggregate bitboards, and the 64-entry
square-to-piece mailbox (`piece_board`). -/
structure ChessBoard where
  white_pieces : List Nat
  black_pieces : List Nat
  all_white_pieces : Nat
  all_black_pieces : Nat
  piece_board : List (Option (ChessPiece × PieceColor))
deriving DecidableEq, Repr

def ChessBoard.default : ChessBoard :=
  { white_pieces := List.replicate 6 0
    black_pieces := List.replicate 6 0
    all_white_pieces := 0
    all_black_pieces := 0
    piece_board := List.replicate 64 none }

/-- `piece_board[index]`; the only call sites that can reach an out-of-range
index treat `None` as a panic as well, so `getD _ none` is faithful there. -/
def ChessBoard.get_piece_at_pos (b : ChessBoard) (index : Nat) :
    Option (ChessPiece × PieceColor) :=
  b.piece_board.getD index none

/-- Writing `piece_board[index_to_set]` panics when the index is 64 or more
(modelled as `none`); the bitboard updates use masked shifts. -/
def ChessBoard.place_piece_of_color (b : ChessBoard) (piece : ChessPiece)
    (col : PieceColor) (index_to_set : Nat) (zhash : Nat) :
    Option (ChessBoard × Nat) :=
  if index_to_set < 64 then
    let b1 :=
      if col = PieceColor.White then
        { b with
          all_white_pieces := BitBoard.set_bit b.all_white_pieces index_to_set
          white_pieces := b.white_pieces.set piece.toNat
            (BitBoard.set_bit (b.white_pieces.getD piece.toNat 0) index_to_set) }
      else
        { b with
          all_black_pieces := BitBoard.set_bit b.all_black_pieces index_to_set
          black_pieces := b.black_pieces.set piece.toNat
            (BitBoard.set_bit (b.black_pieces.getD piece.toNat 0) index_to_set) }
    let b2 := { b1 with piece_board := b1.piece_board.set index_to_set (some (piece, col)) }
    some (b2, ZHash.toggle_piece_at_pos zhash piece col index_to_set)
  else none

def ChessBoard.remove_piece_at_pos (b : ChessBoard) (piece : ChessPiece)
    (col : PieceColor) (index : Nat) (zhash : Nat) :
    Option (ChessBoard × Nat) :=
  if index < 64 then
    let b1 :=
      if col = PieceColor.White then
        { b with
          all_white_pieces := BitBoard.clear_bit b.all_white_pieces index
          white_pieces := b.white_pieces.set piece.toNat
            (BitBoard.clear_bit (b.white_pieces.getD piece.toNat 0) index) }
      else
        { b with
          all_black_pieces := BitBoard.clear_bit b.all_black_pieces index
          black_pieces := b.black_pieces.set piece.toNat
            (BitBoard.clear_bit (b.black_pieces.getD piece.toNat 0) index) }
    let b2 := { b1 with piece_board := b1.piece_board.set index none }
    some (b2, ZHash.toggle_piece_at_pos zhash piece col index)
  else none

/-- From `src/engine/move_generator.rs` (`pawns_able_to_enpassant`): the pawns
of `color` that could capture on the en-passant target square. -/
def ChessBoard.pawns_able_to_enpassant (b : ChessBoard) (color : PieceColor)
    (en_passant_target : Nat) : Nat :=
  let target_bb := BitBoard.set_bit 0 en_passant_target
  if color = PieceColor.White then
    (BitBoard.s_so_ea target_bb ||| BitBoard.s_so_we target_bb) &&& b.white_pieces.getD 0 0
  else
    (BitBoard.s_no_ea target_bb ||| BitBoard.s_no_we target_bb) &&& b.black_pieces.getD 0 0

/-- The full position: board, side to move, castling rights, en-passant
target, half/full-move clocks (`u8`), Zobrist hash. -/
structure ChessBoardState where
  board : ChessBoard
  side : PieceColor
  castling_rights : CastlingRights
  en_passant_target : Option Nat
  half_moves : Nat
  full_moves : Nat
  zhash : Nat
deriving DecidableEq, Repr

/-- Toggles the en-passant hash contribution only when some pawn of
`current_side` attacks the target square. -/
def ChessBoardState.update_enpassant_hash (s : ChessBoardState)
    (current_side : PieceColor) (ep_target : Option Nat) : Option ChessBoardState :=
  match ep_target with
  | none => some s
  | some t =>
    let enpassant_attackers := s.board.pawns_able_to_enpassant current_side t
    if enpassant_attackers ≠ 0 then
      match ZHash.toggle_enpassant s.zhash t with
      | none => none
      | some h => some { s with zhash := h }
    else some s

/-! ## FEN parsing (`ChessBoard::from_fen_notation`, `ChessBoardState::from_fen`) -/

/-- The piece letter of the placement field: uppercase is White, the
lower-cased letter selects the piece kind. -/
def charToPiece (c : Char) : Option (ChessPiece × PieceColor) :=
  let col := if c.isUpper then PieceColor.White else PieceColor.Black
  match c.toLower with
  | 'p' => some (ChessPiece.Pawn, col)
  | 'n' => some (ChessPiece.Knight, col)
  | 'b' => some (ChessPiece.Bishop, col)
  | 'r' => some (ChessPiece.Rook, col)
  | 'q' => some (ChessPiece.Queen, col)
  | 'k' => some (ChessPiece.King, col)
  | _ => none

/-- The character fold of `ChessBoard::from_fen_notation`: digits advance
`cur_index`, `/` is skipped, letters place a piece (panicking past square 63),
anything else is `Err(())`. -/
def from_fen_notation_aux : List Char → ChessBoard → Nat → Nat →
    PResult (ChessBoard × Nat × Nat)
  | [], b, zh, cur => .ok (b, zh, cur)
  | c :: rest, b, zh, cur =>
    if c.isDigit then
      from_fen_notation_aux rest b zh (cur + (c.toNat - 48))
    else if c = '/' then
      from_fen_notation_aux rest b zh cur
    else
      match charToPiece c with
      | none => .err
      | some (p, col) =>
        match b.place_piece_of_color p col cur zh with
        | none => .panic
        | some (b2, zh2) => from_fen_notation_aux rest b2 zh2 (cur + 1)

def ChessBoard.from_fen_notation (fen : List Char) (zhash : Nat) :
    PResult (ChessBoard × Nat) :=
  match from_fen_notation_aux fen ChessBoard.default zhash 0 with
  | .ok (b, zh, _) => .ok (b, zh)
  | .err => .err
  | .panic => .panic

/-- The `TryFrom<&str>` impl for `PieceColor`. -/
def PieceColor.try_from (cs : List Char) : PResult PieceColor :=
  match cs with
  | ['w'] => .ok PieceColor.White
  | ['b'] => .ok PieceColor.Black
  | _ => .err

/-- The character fold of `TryFrom<&str> for CastlingRights`. -/
def castling_try_from_aux : List Char → CastlingRights → PResult CastlingRights
  | [], r => .ok r
  | c :: rest, r =>
    match c with
    | 'Q' => castling_try_from_aux rest (r.set_white_queen_side true)
    | 'q' => castling_try_from_aux rest (r.set_black_queen_side true)
    | 'K' => castling_try_from_aux rest (r.set_white_king_side true)
    | 'k' => castling_try_from_aux rest (r.set_black_king_side true)
    | _ => .err

def CastlingRights.try_from (cs : List Char) : PResult CastlingRights :=
  if cs = ['-'] then .ok ⟨0⟩ else castling_try_from_aux cs ⟨0⟩

/-- Modelled from the spec: `Square::from_square_name` lives in
`src/chess/square.rs`, which is declared by `src/chess/mod.rs` but missing
from the tree.  Per §6.1 the en-passant field is "algebraic square or `-`",
parsed strictly: `-` is no target, a file letter `a`..`h` followed by a rank
digit `1`..`8` is the square (index 0 = a8, 63 = h1), anything else is an
error. -/
def Square.from_square_name (cs : List Char) : PResult (Option Nat) :=
  match cs with
  | ['-'] => .ok none
  | [f, r] =>
    if 97 ≤ f.toNat ∧ f.toNat ≤ 104 ∧ 49 ≤ r.toNat ∧ r.toNat ≤ 56 then
      .ok (some ((8 - (r.toNat - 48)) * 8 + (f.toNat - 97)))
    else .err
  | _ => .err

/-- Modelled from the spec: `Square::to_square_name`, the inverse direction of
the algebraic square notation (lowercase file letter then rank digit, `-` for
no square). -/
def Square.to_square_name (sq : Option Nat) : List Char :=
  match sq with
  | none => ['-']
  | some idx => [Char.ofNat (97 + idx % 8), Char.ofNat (48 + (8 - idx / 8))]

/-- Decimal value of a digit string. -/
def digitsVal (cs : List Char) : Nat :=
  cs.foldl (fun a c => a * 10 + (c.toNat - 48)) 0

/-- Rust `str::parse::<u8>`: an optional leading `+`, then one or more
digits, value at most 255. -/
def parse_u8 (cs : List Char) : PResult Nat :=
  let cs2 := match cs with
    | '+' :: rest => rest
    | _ => cs
  if cs2 = [] then .err
  else if ¬ cs2.all Char.isDigit then .err
  else if digitsVal cs2 > 255 then .err
  else .ok (digitsVal cs2)

/-- Rust `str::trim`: strip whitespace from both ends. -/
def rustTrim (cs : List Char) : List Char :=
  ((cs.dropWhile Char.isWhitespace).reverse.dropWhile Char.isWhitespace).reverse

/-- Rust `str::split(" ")`: split on single spaces, keeping empty pieces. -/
def splitSpaces : List Char → List (List Char)
  | [] => [[]]
  | c :: rest =>
    match splitSpaces rest with
    | [] => [[]]
    | f :: parts => if c = ' ' then [] :: f :: parts else (c :: f) :: parts

/-- `ChessBoardState::from_fen`: trim, split on spaces, require exactly six
fields, then parse each field in order and apply the Zobrist adjustments for
side, castling rights and en-passant. -/
def ChessBoardState.from_fen (text : List Char) : PResult ChessBoardState :=
  let fen_parts := splitSpaces (rustTrim text)
  if fen_parts.length ≠ 6 then .err
  else do
    let (bd, zh) ← ChessBoard.from_fen_notation (fen_parts.getD 0 []) 0
    let side ← PieceColor.try_from (fen_parts.getD 1 [])
    let rights ← CastlingRights.try_from (fen_parts.getD 2 [])
    let ep ← Square.from_square_name (fen_parts.getD 3 [])
    let hm ← parse_u8 (fen_parts.getD 4 [])
    let fm ← parse_u8 (fen_parts.getD 5 [])
    let zh1 := if side = PieceColor.White then ZHash.toggle_side zh else zh
    let zh2 ←
      match ZHash.swap_castling_rights zh1 ⟨0⟩ rights with
      | none => PResult.panic
      | some h => PResult.ok h
    let st : ChessBoardState :=
      { board := bd, side := side, castling_rights := rights,
        en_passant_target := ep, half_moves := hm, full_moves := fm, zhash := zh2 }
    match st.update_enpassant_hash side ep with
    | none => PResult.panic
    | some st2 => PResult.ok st2

/-! ## FEN serialisation (`ChessBoardState::to_fen`) -/

def ChessBoardState.piece_to_fen_notation (piece : ChessPiece) (color : PieceColor) : Char :=
  match piece, color with
  | ChessPiece.Pawn, PieceColor.Black => 'p'
  | ChessPiece.Knight, PieceColor.Black => 'n'
  | ChessPiece.Bishop, PieceColor.Black => 'b'
  | ChessPiece.Rook, PieceColor.Black => 'r'
  | ChessPiece.Queen, PieceColor.Black => 'q'
  | ChessPiece.King, PieceColor.Black => 'k'
  | ChessPiece.Pawn, PieceColor.White => 'P'
  | ChessPiece.Knight, PieceColor.White => 'N'
  | ChessPiece.Bishop, PieceColor.White => 'B'
  | ChessPiece.Rook, PieceColor.White => 'R'
  | ChessPiece.Queen, PieceColor.White => 'Q'
  | ChessPiece.King, PieceColor.White => 'K'

/-- Decimal numeral of a natural number (`u8::to_string`). -/
def natToChars (n : Nat) : List Char := Nat.toDigits 10 n

/-- The inner x-loop of `to_fen` for one rank: run-length encode the empties
with a pending counter. -/
def encodeRankAux : List (Option (ChessPiece × PieceColor)) → Nat → List Char
  | [], cnt => if cnt ≠ 0 then natToChars cnt else []
  | some (p, c) :: rest, cnt =>
    (if cnt ≠ 0 then natToChars cnt else []) ++
      ChessBoardState.piece_to_fen_notation p c :: encodeRankAux rest 0
  | none :: rest, cnt => encodeRankAux rest (cnt + 1)

/-- The eight mailbox entries of rank row `y` (`pos = x + 8 * y`). -/
def ChessBoard.rankSquares (b : ChessBoard) (y : Nat) :
    List (Option (ChessPiece × PieceColor)) :=
  (List.range 8).map fun x => b.piece_board.getD (x + 8 * y) none

/-- The y-loop of `to_fen`: each rank is encoded and a `/` is pushed after
every rank but the last. -/
def toFenRanks (b : ChessBoard) : List Char :=
  List.intercalate ['/'] ((List.range 8).map fun y => encodeRankAux (b.rankSquares y) 0)

/-- The `ToString` impl for `CastlingRights` (canonical `KQkq` order, `-` when
empty). -/
def CastlingRights.toChars (r : CastlingRights) : List Char :=
  let text :=
    (if r.white_king_side then ['K'] else []) ++
    (if r.white_queen_side then ['Q'] else []) ++
    (if r.black_king_side then ['k'] else []) ++
    (if r.black_queen_side then ['q'] else [])
  if text = [] then ['-'] else text

def PieceColor.toChars (c : PieceColor) : List Char :=
  match c with
  | PieceColor.White => ['w']
  | PieceColor.Black => ['b']

def ChessBoardState.to_fen (s : ChessBoardState) : List Char :=
  toFenRanks s.board ++ ' ' :: s.side.toChars ++ ' ' :: s.castling_rights.toChars ++
    ' ' :: Square.to_square_name s.en_passant_target ++ ' ' :: natToChars s.half_moves ++
    ' ' :: natToChars s.full_moves


/-! ## Castling-rights revocation and move execution (`src/chess/board.rs`) -/

/-- The "King has moved" block of `revoke_castling_rights`. -/
def revokeKingStage (src_piece : ChessPiece) (src_color : PieceColor)
    (r0 : CastlingRights) : CastlingRights :=
  if src_piece = ChessPiece.King then
    if src_color = PieceColor.White then
      (r0.set_white_king_side false).set_white_queen_side false
    else
      (r0.set_black_king_side false).set_black_queen_side false
  else r0

/-- The "Rook has moved" block: the loop over the constant `combinations`
array (`(White, queen-side, A1=56)`, `(White, king-side, H1=63)`,
`(Black, queen-side, A8=0)`, `(Black, king-side, H8=7)`) unrolled in array
order. -/
def revokeRookStage (src_piece : ChessPiece) (src_color : PieceColor) (mv : Move)
    (r1 : CastlingRights) : CastlingRights :=
  if src_piece = ChessPiece.Rook then
    let a := if src_color = PieceColor.White ∧ r1.white_queen_side ∧ mv.get_src = 56 then
      r1.set_white_queen_side false else r1
    let b := if src_color = PieceColor.White ∧ a.white_king_side ∧ mv.get_src = 63 then
      a.set_white_king_side false else a
    let c := if src_color = PieceColor.Black ∧ b.black_queen_side ∧ mv.get_src = 0 then
      b.set_black_queen_side false else b
    if src_color = PieceColor.Black ∧ c.black_king_side ∧ mv.get_src = 7 then
      c.set_black_king_side false else c
  else r1

/-- The "Rook was captured" block; `none` models the source's
`panic!("No piece to capture")` on a non-en-passant capture with an empty
destination. -/
def revokeCaptureStage (dst : Option (ChessPiece × PieceColor)) (mv : Move)
    (r2 : CastlingRights) : Option CastlingRights :=
  if mv.is_capture ∧ ¬ mv.is_en_passant then
    match dst with
    | none => none
    | some (dst_piece, dst_color) =>
      if dst_piece = ChessPiece.Rook then
        let a := if PieceColor.White = dst_color ∧ r2.white_queen_side ∧ mv.get_dst = 56 then
          r2.set_white_queen_side false else r2
        let b := if PieceColor.White = dst_color ∧ a.white_king_side ∧ mv.get_dst = 63 then
          a.set_white_king_side false else a
        let c := if PieceColor.Black = dst_color ∧ b.black_queen_side ∧ mv.get_dst = 0 then
          b.set_black_queen_side false else b
        some (if PieceColor.Black = dst_color ∧ c.black_king_side ∧ mv.get_dst = 7 then
          c.set_black_king_side false else c)
      else some r2
  else some r2

/-- `ChessBoardState::revoke_castling_rights` as a pure function of the old
rights: the king block, then the rook-move block, then the rook-capture
block. -/
def revoke_castling_rights (src_piece : ChessPiece) (src_color : PieceColor)
    (dst : Option (ChessPiece × PieceColor)) (mv : Move) (r0 : CastlingRights) :
    Option CastlingRights :=
  revokeCaptureStage dst mv (revokeRookStage src_piece src_color mv
    (revokeKingStage src_piece src_color r0))

/-- The move-kind dispatch of `exec_move` (the if/else-if chain that moves
pieces and sets the new en-passant target), acting on the state after the old
en-passant contribution has been cleared.  `u8`/`u16` wrap-arounds in the
`dst ± 8` arithmetic follow release semantics. -/
def exec_move_kind (new0 : ChessBoardState) (s : ChessBoardState)
    (src_piece : ChessPiece) (src_color : PieceColor)
    (dst_piece_col : Option (ChessPiece × PieceColor)) (mv : Move) :
    Option ChessBoardState := do
  if mv.is_capture ∧ ¬ mv.is_en_passant then do
    let (dst_piece, dst_color) ← dst_piece_col
    if dst_color = src_color then none
    else do
      let (b1, z1) ← new0.board.remove_piece_at_pos dst_piece dst_color mv.get_dst new0.zhash
      let (b2, z2) ← b1.remove_piece_at_pos src_piece src_color mv.get_src z1
      let new_piece := if mv.is_promotion then mv.promotion_target else src_piece
      let (b3, z3) ← b2.place_piece_of_color new_piece src_color mv.get_dst z2
      some { new0 with board := b3, zhash := z3 }
  else if mv.is_promotion ∧ ¬ mv.is_capture then do
    let (b1, z1) ← new0.board.remove_piece_at_pos src_piece src_color mv.get_src new0.zhash
    let (b2, z2) ← b1.place_piece_of_color mv.promotion_target src_color mv.get_dst z1
    some { new0 with board := b2, zhash := z2 }
  else if mv.is_silent then do
    let (b1, z1) ← new0.board.remove_piece_at_pos src_piece src_color mv.get_src new0.zhash
    let (b2, z2) ← b1.place_piece_of_color src_piece src_color mv.get_dst z1
    some { new0 with board := b2, zhash := z2 }
  else if mv.is_double_push then do
    let (b1, z1) ← new0.board.remove_piece_at_pos src_piece src_color mv.get_src new0.zhash
    let (b2, z2) ← b1.place_piece_of_color src_piece src_color mv.get_dst z1
    let new_ep_target : Option Nat :=
      if src_color = PieceColor.White then some ((mv.get_dst + 8) % 256)
      else some ((mv.get_dst + 256 - 8) % 256)
    let mid := { new0 with board := b2, zhash := z2 }
    let mid2 ← mid.update_enpassant_hash new0.side.opposite new_ep_target
    some { mid2 with en_passant_target := new_ep_target }
  else if mv.is_en_passant then do
    let dst := if src_color = PieceColor.White then (mv.get_dst + 8) % 65536
      else (mv.get_dst + 65536 - 8) % 65536
    let (dst_piece, dst_color) ← s.board.get_piece_at_pos dst
    let (b1, z1) ← new0.board.remove_piece_at_pos dst_piece dst_color dst new0.zhash
    let (b2, z2) ← b1.remove_piece_at_pos src_piece src_color mv.get_src z1
    let (b3, z3) ← b2.place_piece_of_color src_piece src_color mv.get_dst z2
    some { new0 with board := b3, zhash := z3 }
  else if mv.get_type = MoveType.CastleKingSide then do
    if src_piece ≠ ChessPiece.King then none
    else do
      let (b1, z1) ← new0.board.remove_piece_at_pos src_piece src_color mv.get_src new0.zhash
      let (b2, z2) ← b1.place_piece_of_color src_piece src_color mv.get_dst z1
      if src_color = PieceColor.White then do
        let (b3, z3) ← b2.remove_piece_at_pos ChessPiece.Rook src_color 63 z2
        let (b4, z4) ← b3.place_piece_of_color ChessPiece.Rook src_color 61 z3
        some { new0 with board := b4, zhash := z4 }
      else do
        let (b3, z3) ← b2.remove_piece_at_pos ChessPiece.Rook src_color 7 z2
        let (b4, z4) ← b3.place_piece_of_color ChessPiece.Rook src_color 5 z3
        some { new0 with board := b4, zhash := z4 }
  else if mv.get_type = MoveType.CastleQueenSide then do
    if src_piece ≠ ChessPiece.King then none
    else do
      let (b1, z1) ← new0.board.remove_piece_at_pos src_piece src_color mv.get_src new0.zhash
      let (b2, z2) ← b1.place_piece_of_color src_piece src_color mv.get_dst z1
      if src_color = PieceColor.White then do
        let (b3, z3) ← b2.remove_piece_at_pos ChessPiece.Rook src_color 56 z2
        let (b4, z4) ← b3.place_piece_of_color ChessPiece.Rook src_color 59 z3
        some { new0 with board := b4, zhash := z4 }
      else do
        let (b3, z3) ← b2.remove_piece_at_pos ChessPiece.Rook src_color 0 z2
        let (b4, z4) ← b3.place_piece_of_color ChessPiece.Rook src_color 3 z3
        some { new0 with board := b4, zhash := z4 }
  else
    -- every kind tag 0..15 is matched by one of the branches above
    none

/-- `ChessBoardState::exec_move`.  `none` models a Rust panic (missing source
piece, wrong side to move, capturing an own piece, out-of-range table
index, …). -/
def ChessBoardState.exec_move (s : ChessBoardState) (mv : Move) :
    Option ChessBoardState := do
  let zh0 ←
    match s.en_passant_target with
    | some ep_target => ZHash.toggle_enpassant s.zhash ep_target
    | none => some s.zhash
  let new0 := { s with zhash := zh0, en_passant_target := none }
  let (src_piece, src_color) ← s.board.get_piece_at_pos mv.get_src
  let dst_piece_col := s.board.get_piece_at_pos mv.get_dst
  if src_color ≠ s.side then none
  else do
    let new1 ← exec_move_kind new0 s src_piece src_color dst_piece_col mv
    let rights ← revoke_castling_rights src_piece src_color dst_piece_col mv s.castling_rights
    let zh1 ← ZHash.swap_castling_rights new1.zhash s.castling_rights rights
    let half_moves :=
      if mv.is_capture ∨ src_piece = ChessPiece.Pawn then 0 else (s.half_moves + 1) % 256
    some { new1 with
      castling_rights := rights
      zhash := ZHash.toggle_side zh1
      half_moves := half_moves
      full_moves := (s.full_moves + 1) % 256
      side := s.side.opposite }

/-! ## Transposition table (`src/engine/transposition_table.rs`) -/

inductive NodeType where
  | Exact
  | LowerBound
  | UpperBound
deriving DecidableEq, Repr

/-- A table entry; `Default` zero-initialises everything (`node_type` defaults
to `Exact`). -/
structure TranspositionEntry where
  zhash : Nat
  eval : Int
  depth : Nat
  node_type : NodeType
  age : Nat
deriving DecidableEq, Repr

def TranspositionEntry.default : TranspositionEntry :=
  { zhash := 0, eval := 0, depth := 0, node_type := NodeType.Exact, age := 0 }

/-- The table: a fixed array of `T = entries.length` slots plus the occupancy
counter and the current age.  The capacity is a positive compile-time
constant in the source; the `% T` index is only used with nonempty tables in
the theorems below. -/
structure TranspositionTable where
  entries : List TranspositionEntry
  occupancy : Nat
  age : Nat
deriving DecidableEq, Repr

def TranspositionTable.empty (T : Nat) : TranspositionTable :=
  { entries := List.replicate T TranspositionEntry.default, occupancy := 0, age := 0 }

/-- `MATE_DISTANCE = CHECKMATE - MAX_PLY = 49000 - 128`. -/
def CHECKMATE : Int := 49000
def MAX_PLY : Nat := 128
def MATE_DISTANCE : Int := CHECKMATE - (MAX_PLY : Int)

def TranspositionTable.correct_eval_for_storage (eval : Int) (ply_from_root : Nat) : Int :=
  if eval ≥ MATE_DISTANCE then eval + (ply_from_root : Int)
  else if eval ≤ -MATE_DISTANCE then eval - (ply_from_root : Int)
  else eval

def TranspositionTable.correct_fetched_score (eval : Int) (ply_from_root : Nat) : Int :=
  if eval ≥ MATE_DISTANCE then eval - (ply_from_root : Int)
  else if eval ≤ -MATE_DISTANCE then eval + (ply_from_root : Int)
  else eval

/-- `TranspositionTable::lookup`.  Note that the `UpperBound`/`LowerBound`
comparisons use the raw stored `entry.eval`, not the mate-adjusted value. -/
def TranspositionTable.lookup (t : TranspositionTable) (hash : Nat) (depth : Nat)
    (ply_from_root : Nat) (alpha beta : Int) : Option Int :=
  let entry := t.entries.getD (hash % t.entries.length) TranspositionEntry.default
  if entry.zhash = hash ∧ entry.depth ≥ depth then
    let eval := TranspositionTable.correct_fetched_score entry.eval ply_from_root
    if entry.node_type = NodeType.Exact then some eval
    else if entry.node_type = NodeType.UpperBound ∧ entry.eval ≤ alpha then some alpha
    else if entry.node_type = NodeType.LowerBound ∧ entry.eval ≥ beta then some beta
    else none
  else none

def TranspositionTable.clear (t : TranspositionTable) : TranspositionTable :=
  { t with
    entries := t.entries.map fun e => { e with zhash := 0, eval := 0 }
    occupancy := 0 }

def TranspositionTable.size (t : TranspositionTable) : Nat := t.occupancy

def TranspositionTable.hashfull (t : TranspositionTable) : Nat :=
  1000 * t.occupancy / t.entries.length

def TranspositionTable.increment_age (t : TranspositionTable) : TranspositionTable :=
  { t with age := (t.age + 1) % 256 }

/-- `TranspositionTable::add_entry`.  Only the position's Zobrist hash is read
from the board state; the early return on the stop flag is modelled by the
`stop : Bool` argument. -/
def TranspositionTable.add_entry (t : TranspositionTable) (zhash : Nat) (eval : Int)
    (depth : Nat) (ply_from_root : Nat) (node_type : NodeType) (stop : Bool) :
    TranspositionTable :=
  if stop then t
  else
    let idx := zhash % t.entries.length
    let entry := t.entries.getD idx TranspositionEntry.default
    let slot_is_empty := entry.zhash = 0
    let slot_matches := entry.zhash = zhash
    let slot_depth_smaller := entry.depth < depth
    let slot_has_different_age := entry.age ≠ t.age
    let written : TranspositionEntry :=
      { zhash := zhash
        eval := TranspositionTable.correct_eval_for_storage eval ply_from_root
        depth := depth
        node_type := node_type
        age := t.age }
    if slot_is_empty then
      { t with entries := t.entries.set idx written, occupancy := t.occupancy + 1 }
    else if slot_matches ∧ (slot_depth_smaller ∨ slot_has_different_age) then
      { t with entries := t.entries.set idx written }
    else t


/-! ## Search constants and state (`src/engine/search.rs`) -/

def INFINITY : Int := 50000
def MAX_EXTENSIONS : Nat := 3
def MAX_QUISCIENCE_DEPTH : Nat := 4
def MAX_KILLER_MOVES : Nat := 2

/-- The searcher bookkeeping; `search_start_time` (wall clock) is not
representable in the embedding and is folded into the stop oracle. -/
structure SearchInfo where
  nodes_searched : Nat
  sel_depth : Nat
  history : List Nat
  killer_moves : List (List Move)
  self_color : PieceColor
deriving DecidableEq, Repr

def SearchInfo.default : SearchInfo :=
  { nodes_searched := 0
    sel_depth := 0
    history := []
    killer_moves := List.replicate MAX_KILLER_MOVES (List.replicate MAX_PLY Move.NULL_MOVE)
    self_color := PieceColor.White }

def SearchInfo.reset (i : SearchInfo) : SearchInfo :=
  { i with
    nodes_searched := 0
    sel_depth := 0
    killer_moves := List.replicate MAX_KILLER_MOVES (List.replicate MAX_PLY Move.NULL_MOVE) }

/-- `SearchInfo::store_killer_move`: shift the primary killer of the ply to
the secondary slot and store the new move in the primary slot, unless the
primary slot already holds it.  Indexing `killer_moves[0][ply]` panics
(`none`) when `ply ≥ MAX_PLY`. -/
def SearchInfo.store_killer_move (i : SearchInfo) (current_move : Move)
    (ply_from_root : Nat) : Option SearchInfo :=
  if ply_from_root < MAX_PLY then
    let first_killer := (i.killer_moves.getD 0 []).getD ply_from_root Move.NULL_MOVE
    if first_killer ≠ current_move then
      let row1 := (i.killer_moves.getD 1 []).set ply_from_root first_killer
      let row0 := (i.killer_moves.getD 0 []).set ply_from_root current_move
      some { i with killer_moves := ((i.killer_moves.set 1 row1).set 0 row0) }
    else some i
  else none

/-- Time-control modes (`src/engine/time_control.rs`); the clock payload of
`Variable` only feeds the wall-clock stop decision, which the embedding
models through the stop oracle. -/
inductive TimeControl where
  | Infinite
  | FixedDepth (d : Nat)
  | FixedNodes (n : Nat)
  | FixedTime (t : Nat)
  | Variable
deriving DecidableEq, Repr

/-- External collaborators of the searcher.  `genMoves` and `isInCheck` are
modelled from the spec: the legal move generator and the attack map live in
`src/chess/move_generator.rs`, which is declared by `src/chess/mod.rs` but
missing from the tree; per the spec the generator is a pure function of the
position parameterised by a captures-only flag.  `stopOracle` models the
wall-clock/node-budget decision of `should_stop` as a function of the node
counter. -/
structure SearchContext where
  genMoves : ChessBoardState → Bool → List Move
  evalFn : ChessBoardState → Int
  isInCheck : ChessBoardState → Bool
  stopOracle : Nat → Bool

/-- The mutable searcher: transposition table, bookkeeping, and the stop
flag (the atomic boolean, read and written only by this thread). -/
structure Searcher where
  transposition_table : TranspositionTable
  info : SearchInfo
  stop : Bool
deriving DecidableEq, Repr

/-- `Searcher::should_stop`: the stop flag short-circuits; otherwise the
time/node budget is only consulted every 4096 nodes, and a firing budget
latches the stop flag. -/
def Searcher.should_stop (cx : SearchContext) (s : Searcher) : Bool × Searcher :=
  if s.stop then (true, s)
  else if s.info.nodes_searched % 4096 ≠ 0 then (false, s)
  else
    let fired := cx.stopOracle s.info.nodes_searched
    (fired, if fired then { s with stop := true } else s)

/-- `Iterator::step_by(2)`: every second element, starting with the first. -/
def stepBy2 : List Nat → List Nat
  | [] => []
  | [a] => [a]
  | a :: _ :: rest => a :: stepBy2 rest

/-- `Searcher::is_repetition`: walk the history backwards, skip the
opponent's latest ply, then compare every second hash. -/
def Searcher.is_repetition (s : Searcher) (bs : ChessBoardState) (depth : Nat) : Bool :=
  let rollback := 1 + min depth bs.half_moves
  if rollback = 1 then false
  else (stepBy2 ((s.info.history.reverse.take rollback).drop 1)).any fun h => h == bs.zhash

def Searcher.is_draw (s : Searcher) (bs : ChessBoardState) (depth : Nat) : Bool :=
  bs.half_moves ≥ 100 || s.is_repetition bs depth

/-! ## Move ordering (`src/engine/move_ordering.rs`) -/

/-- `MVV_LVA[victim][attacker]`. -/
def MVV_LVA : List (List Nat) := [
  [15, 14, 13, 12, 11, 10, 0],
  [25, 24, 23, 22, 21, 20, 0],
  [35, 34, 33, 32, 31, 30, 0],
  [45, 44, 43, 42, 41, 40, 0],
  [55, 54, 53, 52, 51, 50, 0],
  [0, 0, 0, 0, 0, 0, 0],
  [0, 0, 0, 0, 0, 0, 0]]

/-- `u32::MAX - 256`. -/
def MVV_LVA_OFFSET : Nat := 4294967295 - 256
def KILLER_VALUE : Nat := 10

/-- Modelled from the spec: `Move::get_moved_piece` is part of the missing
`chess_move` generation of the module; per the MVV-LVA description the
attacker is the kind of the piece standing on the source square (`none`
models the panic when the square is empty). -/
def Move.get_moved_piece (mv : Move) (bs : ChessBoardState) : Option ChessPiece :=
  (bs.board.get_piece_at_pos mv.get_src).map Prod.fst

/-- Modelled from the spec: the MVV-LVA victim of a capture move — the piece
on the destination square (a pawn for en passant), nothing for quiet moves. -/
def Move.get_captured_piece (mv : Move) (bs : ChessBoardState) : Option ChessPiece :=
  if mv.is_capture then
    if mv.is_en_passant then some ChessPiece.Pawn
    else (bs.board.get_piece_at_pos mv.get_dst).map Prod.fst
  else none

/-- `move_order_eval`: MVV-LVA for captures, killer bonuses for quiet moves
that match a killer slot, 0 otherwise.  Reading `killers[ply]` with
`ply ≥ MAX_PLY` panics (`none`). -/
def move_order_eval (mv : Move) (bs : ChessBoardState) (info : SearchInfo)
    (ply : Nat) : Option Nat := do
  let src_piece ← mv.get_moved_piece bs
  match mv.get_captured_piece bs with
  | some captured_piece =>
    some (MVV_LVA_OFFSET + (MVV_LVA.getD captured_piece.toNat []).getD src_piece.toNat 0)
  | none =>
    if ply < MAX_PLY then
      if mv = (info.killer_moves.getD 0 []).getD ply Move.NULL_MOVE then
        some (MVV_LVA_OFFSET - 1 * KILLER_VALUE)
      else if mv = (info.killer_moves.getD 1 []).getD ply Move.NULL_MOVE then
        some (MVV_LVA_OFFSET - 2 * KILLER_VALUE)
      else some 0
    else none

/-- The `(move, score)` pass of `order_moves` (`moves.iter().map(...).collect()`
in the source; the `none` propagates the panics of `move_order_eval`). -/
def mapMoveEvals (bs : ChessBoardState) (info : SearchInfo) (ply : Nat) :
    List Move → Option (List (Move × Nat))
  | [] => some []
  | mv :: rest =>
    match move_order_eval mv bs info ply with
    | none => none
    | some e =>
      match mapMoveEvals bs info ply rest with
      | none => none
      | some l => some ((mv, e) :: l)

/-- `order_moves`: score each move, then sort by score descending.  The
source uses `sort_unstable_by`, whose result order on equal keys is
unspecified; the embedding uses a deterministic insertion sort with the same
descending key, realising one admissible ordering. -/
def order_moves (moves : List Move) (bs : ChessBoardState) (info : SearchInfo)
    (ply_from_root : Nat) : Option (List Move) := do
  let move_evals ← mapMoveEvals bs info ply_from_root moves
  let sorted := List.insertionSort (fun a b => b.2 ≤ a.2) move_evals
  some (sorted.map Prod.fst)


/-! ## Quiescence search (`Searcher::quiescience_search`)

The function returns the Rust result (`none` = panic) paired with an
instrumentation value: the depth of the deepest recursive call performed
(0 when the call returns without recursing).  The instrumentation does not
influence the computed result. -/

/-- The capture loop of quiescence search. -/
def quiescienceLoop
    (recur : ChessBoardState → Int → Int → Searcher → Option (Int × Searcher) × Nat)
    (cx : SearchContext) :
    List Move → ChessBoardState → Int → Int → Searcher → Nat →
    Option (Int × Searcher) × Nat
  | [], _, alpha, _, s, dmax => (some (alpha, s), dmax)
  | mv :: rest, bs, alpha, beta, s, dmax =>
    match bs.exec_move mv with
    | none => (none, dmax)
    | some new_board =>
      match recur new_board (-beta) (-alpha) s with
      | (none, d) => (none, max dmax (1 + d))
      | (some (sc0, s1), d) =>
        let score := -sc0
        let dmax2 := max dmax (1 + d)
        if score ≥ beta then (some (beta, s1), dmax2)
        else if score > alpha then quiescienceLoop recur cx rest bs score beta s1 dmax2
        else quiescienceLoop recur cx rest bs alpha beta s1 dmax2

def Searcher.quiescience_search (cx : SearchContext) :
    ChessBoardState → Nat → Nat → Int → Int → Searcher →
    Option (Int × Searcher) × Nat
  | bs, 0, ply_from_root, alpha, beta, s =>
    -- with `ply_remaining = 0` the source's termination test
    -- `ply_from_root >= MAX_PLY || ply_remaining == 0` holds and the call
    -- returns the static evaluation
    let (stop, s0) := s.should_stop cx
    if stop then (some (0, s0), 0)
    else
      let sf : Int := if bs.side = PieceColor.White then 1 else -1
      let s1 := { s0 with info := { s0.info with
        sel_depth := max s0.info.sel_depth ply_from_root
        nodes_searched := s0.info.nodes_searched + 1 } }
      (some (sf * cx.evalFn bs, s1), 0)
  | bs, Nat.succ r, ply_from_root, alpha, beta, s =>
    let (stop, s0) := s.should_stop cx
    if stop then (some (0, s0), 0)
    else
      let sf : Int := if bs.side = PieceColor.White then 1 else -1
      let s1 := { s0 with info := { s0.info with
        sel_depth := max s0.info.sel_depth ply_from_root
        nodes_searched := s0.info.nodes_searched + 1 } }
      if ply_from_root ≥ MAX_PLY then
        (some (sf * cx.evalFn bs, s1), 0)
      else if s1.is_draw bs ply_from_root then (some (0, s1), 0)
      else
        match s1.transposition_table.lookup bs.zhash (r + 1) ply_from_root alpha beta with
        | some score => (some (score, s1), 0)
        | none =>
          let score := sf * cx.evalFn bs
          if score ≥ beta then (some (beta, s1), 0)
          else
            let alpha2 := if alpha < score then score else alpha
            let moves := cx.genMoves bs true
            quiescienceLoop
              (fun nb a b st =>
                Searcher.quiescience_search cx nb r (ply_from_root + 1) a b st)
              cx moves bs alpha2 beta s1 0

/-! ## Negamax (`Searcher::minimax`) -/

/-- Outcome of the move loop: an early return (`ret`) or the final alpha and
node type (`done`). -/
inductive MMLoopOut where
  | ret (v : Int) (s : Searcher)
  | done (alpha : Int) (nt : NodeType) (s : Searcher)

/-- The move loop of `minimax`: recurse on the child, poll the stop flag,
cut off at beta (storing the move as a killer and the bound in the table),
otherwise raise alpha. -/
def minimaxLoop (recur : ChessBoardState → Int → Int → Searcher → Option (Int × Searcher))
    (cx : SearchContext) (bs : ChessBoardState) (ply_remaining ply_from_root : Nat)
    (beta : Int) :
    List Move → Int → NodeType → Searcher → Option MMLoopOut
  | [], alpha, nt, s => some (.done alpha nt s)
  | mv :: rest, alpha, nt, s =>
    match bs.exec_move mv with
    | none => none
    | some new_board =>
      match recur new_board (-beta) (-alpha) s with
      | none => none
      | some (sc0, s1) =>
        let score := -sc0
        let (stop, s2) := s1.should_stop cx
        if stop then some (.ret 0 s2)
        else if score ≥ beta then
          match s2.info.store_killer_move mv ply_from_root with
          | none => none
          | some info2 =>
            let s3 : Searcher := { s2 with info := info2 }
            let tt4 := s3.transposition_table.add_entry bs.zhash beta ply_remaining
              ply_from_root NodeType.LowerBound s3.stop
            some (.ret beta { s3 with transposition_table := tt4 })
        else if score > alpha then
          minimaxLoop recur cx bs ply_remaining ply_from_root beta rest score NodeType.Exact s2
        else
          minimaxLoop recur cx bs ply_remaining ply_from_root beta rest alpha nt s2

mutual

def Searcher.minimax (cx : SearchContext) (bs : ChessBoardState)
    (ply_remaining ply_from_root : Nat) (alpha beta : Int) (extensions : Nat)
    (s : Searcher) : Option (Int × Searcher) :=
  let (stop, s0) := s.should_stop cx
  if stop then some (0, s0)
  else
    match s0.transposition_table.lookup bs.zhash ply_remaining ply_from_root alpha beta with
    | some eval => some (eval, s0)
    | none =>
      let is_in_check := cx.isInCheck bs
      if hext : is_in_check ∧ extensions < MAX_EXTENSIONS then
        Searcher.minimaxCore cx bs (ply_remaining + 1) ply_from_root alpha beta
          (extensions + 1) s0 is_in_check
      else
        Searcher.minimaxCore cx bs ply_remaining ply_from_root alpha beta extensions s0
          is_in_check
termination_by 2 * ply_remaining + 2 * (MAX_EXTENSIONS - extensions) + 1
decreasing_by
  · have h := hext.2
    simp only [MAX_EXTENSIONS] at h ⊢
    omega
  · simp only [MAX_EXTENSIONS]
    omega

/-- The body of `minimax` after the check extension has been applied
(`ply_remaining` and `extensions` already incremented when extending). -/
def Searcher.minimaxCore (cx : SearchContext) (bs : ChessBoardState)
    (ply_remaining ply_from_root : Nat) (alpha beta : Int) (extensions : Nat)
    (s0 : Searcher) (is_in_check : Bool) : Option (Int × Searcher) :=
  if hply : ply_remaining = 0 then
    (s0.quiescience_search cx bs MAX_QUISCIENCE_DEPTH ply_from_root alpha beta).1
  else
    let s1 := { s0 with info := { s0.info with
      nodes_searched := s0.info.nodes_searched + 1
      sel_depth := max s0.info.sel_depth ply_from_root } }
    let moves := cx.genMoves bs false
    if moves.length = 0 then
      some ((if is_in_check then -CHECKMATE + (ply_from_root : Int) else 0), s1)
    else if s1.is_draw bs ply_remaining then
      let tt2 := s1.transposition_table.add_entry bs.zhash 0 ply_remaining ply_from_root
        NodeType.Exact s1.stop
      some (0, { s1 with transposition_table := tt2 })
    else
      match order_moves moves bs s1.info ply_from_root with
      | none => none
      | some sorted =>
        match minimaxLoop
            (fun nb a b st =>
              Searcher.minimax cx nb (ply_remaining - 1) (ply_from_root + 1) a b extensions st)
            cx bs ply_remaining ply_from_root beta sorted alpha NodeType.UpperBound s1 with
        | none => none
        | some (.ret v s2) => some (v, s2)
        | some (.done a nt s2) =>
          let tt3 := s2.transposition_table.add_entry bs.zhash a ply_remaining ply_from_root
            nt s2.stop
          some (a, { s2 with transposition_table := tt3 })
termination_by 2 * ply_remaining + 2 * (MAX_EXTENSIONS - extensions)
decreasing_by
  simp only [MAX_EXTENSIONS]
  omega

end

/-! ### Fuelled evaluation twins

`minimax` is defined by well-founded recursion, which the kernel cannot
evaluate on closed terms.  The following pair is the same function made
structural on an explicit fuel argument; `minimaxF_eq`
below shows the two agree whenever the fuel dominates the termination
measure, which lets concrete runs be computed by `decide`. -/

mutual

def Searcher.minimaxF : Nat → SearchContext → ChessBoardState → Nat → Nat → Int →
    Int → Nat → Searcher → Option (Int × Searcher)
  | 0, _, _, _, _, _, _, _, _ => none
  | Nat.succ fuel, cx, bs, ply_remaining, ply_from_root, alpha, beta, extensions, s =>
    let (stop, s0) := s.should_stop cx
    if stop then some (0, s0)
    else
      match s0.transposition_table.lookup bs.zhash ply_remaining ply_from_root alpha beta with
      | some eval => some (eval, s0)
      | none =>
        let is_in_check := cx.isInCheck bs
        if is_in_check ∧ extensions < MAX_EXTENSIONS then
          Searcher.minimaxCoreF fuel cx bs (ply_remaining + 1) ply_from_root alpha beta
            (extensions + 1) s0 is_in_check
        else
          Searcher.minimaxCoreF fuel cx bs ply_remaining ply_from_root alpha beta extensions
            s0 is_in_check
termination_by structural fuel => fuel

def Searcher.minimaxCoreF : Nat → SearchContext → ChessBoardState → Nat → Nat → Int →
    Int → Nat → Searcher → Bool → Option (Int × Searcher)
  | 0, _, _, _, _, _, _, _, _, _ => none
  | Nat.succ fuel, cx, bs, ply_remaining, ply_from_root, alpha, beta, extensions, s0,
      is_in_check =>
    if ply_remaining = 0 then
      (s0.quiescience_search cx bs MAX_QUISCIENCE_DEPTH ply_from_root alpha beta).1
    else
      let s1 := { s0 with info := { s0.info with
        nodes_searched := s0.info.nodes_searched + 1
        sel_depth := max s0.info.sel_depth ply_from_root } }
      let moves := cx.genMoves bs false
      if moves.length = 0 then
        some ((if is_in_check then -CHECKMATE + (ply_from_root : Int) else 0), s1)
      else if s1.is_draw bs ply_remaining then
        let tt2 := s1.transposition_table.add_entry bs.zhash 0 ply_remaining ply_from_root
          NodeType.Exact s1.stop
        some (0, { s1 with transposition_table := tt2 })
      else
        match order_moves moves bs s1.info ply_from_root with
        | none => none
        | some sorted =>
          match minimaxLoop
              (fun nb a b st =>
                Searcher.minimaxF fuel cx nb (ply_remaining - 1) (ply_from_root + 1) a b
                  extensions st)
              cx bs ply_remaining ply_from_root beta sorted alpha NodeType.UpperBound s1 with
          | none => none
          | some (.ret v s2) => some (v, s2)
          | some (.done a nt s2) =>
            let tt3 := s2.transposition_table.add_entry bs.zhash a ply_remaining
              ply_from_root nt s2.stop
            some (a, { s2 with transposition_table := tt3 })
termination_by structural fuel => fuel

end

/-! ## Root search (`Searcher::minimax_root`, `Searcher::search`) -/

/-- The rating pass of `minimax_root`: score every root move by negamax on
the child position. -/
def minimaxRootRatings (cx : SearchContext) (bs : ChessBoardState) (depth : Nat) :
    List Move → Searcher → Option (List Int × Searcher)
  | [], s => some ([], s)
  | mv :: rest, s =>
    match bs.exec_move mv with
    | none => none
    | some board_new =>
      match Searcher.minimax cx board_new depth 0 (-INFINITY) INFINITY 0 s with
      | none => none
      | some (v, s1) =>
        match minimaxRootRatings cx bs depth rest s1 with
        | none => none
        | some (ratings, s2) => some ((-v) :: ratings, s2)

/-- `Searcher::minimax_root`: rate all root moves, and unless the stop
condition fired re-sort them by rating, descending (`sort_unstable_by` is
modelled by a deterministic insertion sort with the same key).  The initial
`i32::MIN`/`i32::MAX` rating vector of the source is fully overwritten by the
rating loop, so it is not modelled. -/
def Searcher.minimax_root (cx : SearchContext) (bs : ChessBoardState)
    (moves : List Move) (depth : Nat) (s : Searcher) :
    Option (List Move × Searcher) :=
  match minimaxRootRatings cx bs depth moves s with
  | none => none
  | some (ratings, s1) =>
    let (stop, s2) := s1.should_stop cx
    if stop then some (moves, s2)
    else
      let zipped := List.insertionSort (fun a b => b.2 ≤ a.2) (moves.zip ratings)
      some (zipped.map Prod.fst, s2)

/-- `Searcher::depth_from_time_control` (the `u64 → u16` cast truncates). -/
def depth_from_time_control (tc : TimeControl) : Nat :=
  match tc with
  | .Infinite => MAX_PLY
  | .FixedDepth d => d % 65536
  | .FixedNodes _ => MAX_PLY
  | .FixedTime _ => MAX_PLY
  | .Variable => MAX_PLY

/-- The iterative deepening loop `for d in 1..=search_depth`. -/
def iterativeDeepening (cx : SearchContext) (bs : ChessBoardState) :
    List Nat → List Move → Searcher → Option (List Move × Searcher)
  | [], moves, s => some (moves, s)
  | d :: ds, moves, s =>
    match Searcher.minimax_root cx bs moves d s with
    | none => none
    | some (moves1, s1) => iterativeDeepening cx bs ds moves1 s1

/-- `Searcher::search`.  The `println!` of UCI info and the wall-clock/nps
bookkeeping have no observable effect on the returned state and are omitted;
the game-phase selection only feeds the stop oracle.  Note the source line
`board_state.exec_move(best_move);` whose returned position is discarded:
the embedding evaluates it (a panic there would abort) and drops the value,
and the hash pushed on the history is that of the *unchanged* `board_state`. -/
def Searcher.search (cx : SearchContext) (bs : ChessBoardState) (tc : TimeControl)
    (s : Searcher) : Option (Move × Searcher) :=
  let moves0 := cx.genMoves bs false
  match order_moves moves0 bs s.info 0 with
  | none => none
  | some moves =>
    let search_depth := depth_from_time_control tc
    let s0 : Searcher := { s with
      stop := false
      info := { s.info.reset with self_color := bs.side } }
    match iterativeDeepening cx bs (List.range' 1 search_depth) moves s0 with
    | none => none
    | some (moves1, s1) =>
      match moves1 with
      | [] => none
      | best_move :: _ =>
        match bs.exec_move best_move with
        | none => none
        | some _discarded_new_state =>
          some (best_move, { s1 with info := { s1.info with
            history := s1.info.history ++ [bs.zhash] } })

/-! ## Spec-side definitions and claim fixtures

Everything below is either a definition written from the specification's
words (for comparison against the source embedding) or a concrete input used
by a theorem. -/

/-- The `(piece, color, square)` index formula the spec prescribes for the
Zobrist table: `(color*6 + piece)*64 + square`. -/
def zobristSpecIndex (piece : ChessPiece) (color : PieceColor) (square : Nat) : Nat :=
  (color.toNat * 6 + piece.toNat) * 64 + square

/-- The killer-move cell at slot `i` and ply `ply`. -/
def killersAt (s : Searcher) (i ply : Nat) : Move :=
  (s.info.killer_moves.getD i []).getD ply Move.NULL_MOVE

/-- Shape of the Rust killer table type `[[Move; MAX_PLY]; MAX_KILLER_MOVES]`:
two rows of 128 cells.  The Rust type system guarantees this; the embedding
carries it as an invariant. -/
def killersWF (s : Searcher) : Prop :=
  s.info.killer_moves.length = MAX_KILLER_MOVES ∧
  (s.info.killer_moves.getD 0 []).length = MAX_PLY ∧
  (s.info.killer_moves.getD 1 []).length = MAX_PLY

/-- The per-corner castling-right revocation condition (the amended reading
of the spec): the right attached to `corner` (owned by `cornerColor`) is
revoked when its owner's king moves, when its owner's rook leaves the corner,
or when a non-en-passant capture takes a rook of that color on the corner. -/
def revokesRight (corner : Nat) (cornerColor : PieceColor) (sp : ChessPiece)
    (sc : PieceColor) (dst : Option (ChessPiece × PieceColor)) (mv : Move) : Bool :=
  (sp == ChessPiece.King && sc == cornerColor) ||
  (sp == ChessPiece.Rook && sc == cornerColor && mv.get_src == corner) ||
  (mv.is_capture && !mv.is_en_passant &&
    (match dst with
     | some (dp, dc) => dp == ChessPiece.Rook && dc == cornerColor && mv.get_dst == corner
     | none => false))

/-! ### The §6.1 FEN grammar -/

/-- The twelve piece letters of the placement field. -/
def isPieceChar (c : Char) : Bool :=
  c == 'p' || c == 'n' || c == 'b' || c == 'r' || c == 'q' || c == 'k' ||
  c == 'P' || c == 'N' || c == 'B' || c == 'R' || c == 'Q' || c == 'K'

/-- A digit `1`..`8`. -/
def isRankDigit (c : Char) : Bool := 49 ≤ c.toNat && c.toNat ≤ 56

/-- Grammar of one rank of the placement field: piece letters and digit runs
`1`..`8`, counting `rem` squares, with no two adjacent digits
(`lastDigit` tracks whether the previous item was a digit). -/
def validRankAux : List Char → Nat → Bool → Bool
  | [], rem, _ => rem == 0
  | c :: rest, rem, lastDigit =>
    if isPieceChar c then
      decide (1 ≤ rem) && validRankAux rest (rem - 1) false
    else if isRankDigit c then
      !lastDigit && decide (c.toNat - 48 ≤ rem) && validRankAux rest (rem - (c.toNat - 48)) true
    else false

def validRank (r : List Char) : Bool := validRankAux r 8 false

/-- The mailbox cells a rank string denotes, in file order. -/
def rankContent : List Char → List (Option (ChessPiece × PieceColor))
  | [] => []
  | c :: rest =>
    if isPieceChar c then charToPiece c :: rankContent rest
    else List.replicate (c.toNat - 48) none ++ rankContent rest

/-- A valid placement field: eight valid ranks joined by `/`. -/
def validPlacement (pl : List Char) : Prop :=
  ∃ rs : List (List Char), rs.length = 8 ∧ (∀ r ∈ rs, validRank r = true) ∧
    pl = List.intercalate ['/'] rs

/-- The sixteen §6.1 castling fields: subsets of `KQkq` in canonical order,
`-` when empty. -/
def castlingFieldStrings : List (List Char) :=
  [['-'], ['K'], ['Q'], ['k'], ['q'],
   ['K','Q'], ['K','k'], ['K','q'], ['Q','k'], ['Q','q'], ['k','q'],
   ['K','Q','k'], ['K','Q','q'], ['K','k','q'], ['Q','k','q'], ['K','Q','k','q']]

/-- The 64 algebraic square names. -/
def allSquareNames : List (List Char) :=
  (List.range 64).map fun i => Square.to_square_name (some i)

/-- The §6.1 en-passant field: a square name or `-`. -/
def validEp (cs : List Char) : Prop := cs = ['-'] ∨ cs ∈ allSquareNames

/-- A §6.1 clock field: the canonical decimal numeral of some value. -/
def validClock (cs : List Char) : Prop := ∃ n : Nat, cs = natToChars n

/-- A §6.1 clock field whose value fits the `u8` of the implementation. -/
def validClock255 (cs : List Char) : Prop := ∃ n : Nat, n ≤ 255 ∧ cs = natToChars n

/-- A valid FEN per §6.1: six fields joined by single spaces. -/
def validFen (text : List Char) : Prop :=
  ∃ pl sd ca ep hm fm : List Char,
    text = pl ++ ' ' :: (sd ++ ' ' :: (ca ++ ' ' :: (ep ++ ' ' :: (hm ++ ' ' :: fm)))) ∧
    validPlacement pl ∧ (sd = ['w'] ∨ sd = ['b']) ∧ ca ∈ castlingFieldStrings ∧
    validEp ep ∧ validClock hm ∧ validClock fm

/-- A valid FEN whose two clock fields are at most 255. -/
def validFen255 (text : List Char) : Prop :=
  ∃ pl sd ca ep hm fm : List Char,
    text = pl ++ ' ' :: (sd ++ ' ' :: (ca ++ ' ' :: (ep ++ ' ' :: (hm ++ ' ' :: fm)))) ∧
    validPlacement pl ∧ (sd = ['w'] ∨ sd = ['b']) ∧ ca ∈ castlingFieldStrings ∧
    validEp ep ∧ validClock255 hm ∧ validClock255 fm

/-- Sequential mailbox overlay: write the cells of `content` starting at
index `i`, skipping the `none` cells (a digit in the placement field skips
squares without writing them). -/
def applyRank (l : List (Option (ChessPiece × PieceColor))) (i : Nat) :
    List (Option (ChessPiece × PieceColor)) → List (Option (ChessPiece × PieceColor))
  | [] => l
  | none :: xs => applyRank l (i + 1) xs
  | some v :: xs => applyRank (l.set i (some v)) (i + 1) xs

/-- Decision procedure for the castling-field round trip (evaluated over the
sixteen field strings). -/
def castlingFieldRT (ca : List Char) : Bool :=
  match CastlingRights.try_from ca with
  | .ok r => r.toChars == ca && decide (r.val < 16)
  | _ => false

/-- Decision procedure for one clock-field round trip. -/
def clockFieldRT (n : Nat) : Bool :=
  match parse_u8 (natToChars n) with
  | .ok m => m == n
  | _ => false

/-- Decision procedure packaging the placement-letter facts used by the
round-trip proof: a piece letter parses, re-serialises to itself, and is
neither a digit, a slash nor whitespace. -/
def pieceCharRT (c : Char) : Bool :=
  match charToPiece c with
  | some (p, col) =>
    (ChessBoardState.piece_to_fen_notation p col == c) && !c.isDigit && (c != '/') &&
      !c.isWhitespace
  | none => false

/-- Decision procedure for the square-name round trip. -/
def squareNameRT (i : Nat) : Bool :=
  match Square.from_square_name (Square.to_square_name (some i)) with
  | .ok (some j) => j == i
  | _ => false

/-! ### Concrete inputs for the claims -/

/-- The fallback state used when a fixture FEN unexpectedly fails to parse
(each fixture theorem evaluates the parse concretely, so the fallback is
never reached). -/
def fallbackState : ChessBoardState :=
  { board := ChessBoard.default, side := PieceColor.White, castling_rights := ⟨0⟩,
    en_passant_target := none, half_moves := 0, full_moves := 0, zhash := 0 }

def stateOfFen (text : String) : ChessBoardState :=
  match ChessBoardState.from_fen text.data with
  | .ok s => s
  | _ => fallbackState

/-- C2: a §6.1-valid FEN whose full-move counter does not fit a `u8`. -/
def fenC2 : List Char := "8/8/8/8/8/8/8/8 w - - 0 256".data

/-- A concrete FEN exercising castling rights, an en-passant square and a
two-digit clock, used as the round-trip witness input. -/
def fenC2rt : List Char := "r3k2r/8/8/3pP3/8/8/8/R3K2R w KQkq d6 0 99".data

/-- C8: a malformed FEN whose placement field walks past square 63 and makes
`place_piece_of_color` index `piece_board[64]`. -/
def fenC8 : List Char := "8/8/8/8/8/8/8/8/p w - - 0 1".data

/-- C3: a table whose single slot holds an `UpperBound` entry with a score in
the mate range. -/
def tableC3 : TranspositionTable :=
  { entries := [{ zhash := 5, eval := 48872, depth := 3,
                  node_type := NodeType.UpperBound, age := 0 }]
    occupancy := 1, age := 0 }

/-- C4 and C10: a one-slot empty table. -/
def tableEmpty1 : TranspositionTable := TranspositionTable.empty 1

/-- C10: two stores of a position whose Zobrist hash is exactly 0. -/
def tableC10a : TranspositionTable :=
  tableEmpty1.add_entry 0 7 3 0 NodeType.Exact false
def tableC10b : TranspositionTable :=
  tableC10a.add_entry 0 9 5 0 NodeType.Exact false

/-- C5: White rook d1, Black pawn d2; the rook capture d1xd2 refutes
everything at the root. -/
def stateC5 : ChessBoardState := stateOfFen "4k3/8/8/8/8/8/3p4/3RK3 w - - 0 1"

def mvC5 : Move := Move.new 59 51 MoveType.Capture

/-- C5: the move-generator oracle hands the rook capture to White and nothing
to Black; the evaluation strongly favours White so that the capture's score
reaches beta at the root. -/
def cxC5 : SearchContext :=
  { genMoves := fun bs _ => if bs.side = PieceColor.White then [mvC5] else []
    evalFn := fun _ => 1000
    isInCheck := fun _ => false
    stopOracle := fun _ => false }

/-- A fresh searcher over a one-slot table. -/
def searcherInit : Searcher :=
  { transposition_table := TranspositionTable.empty 1
    info := SearchInfo.default
    stop := false }

/-- The searcher state produced by the C5 run, extracted through the fuelled
twin so that it is a closed computable term. -/
def sC5out : Searcher :=
  ((Searcher.minimaxF 30 cxC5 stateC5 1 0 (-100) 100 0 searcherInit).getD
    (0, searcherInit)).2

/-- C6: a Black rook stands on the White corner A1 while White still holds
the queen-side right. -/
def stateC6 : ChessBoardState := stateOfFen "4k3/8/8/8/8/8/8/r3K2R b Q - 0 1"

def mvC6 : Move := Move.new 56 48 MoveType.Silent

/-- The position after the black rook leaves A1. -/
def stateC6after : ChessBoardState := (stateC6.exec_move mvC6).getD fallbackState

/-- C7: a bare-kings position; the oracle offers the single quiet king move
e1e2 for White and nothing for Black. -/
def stateC7 : ChessBoardState := stateOfFen "4k3/8/8/8/8/8/8/4K3 w - - 0 1"

def mvC7 : Move := Move.new 60 52 MoveType.Silent

def cxC7 : SearchContext :=
  { genMoves := fun bs _ => if bs.side = PieceColor.White then [mvC7] else []
    evalFn := fun _ => 0
    isInCheck := fun _ => false
    stopOracle := fun _ => false }

/-- The position after the engine move e1e2 of the C7 run. -/
def childC7 : ChessBoardState := (stateC7.exec_move mvC7).getD fallbackState

/-- The searcher state `search` builds before iterative deepening. -/
def s0C7 : Searcher :=
  { searcherInit with
    stop := false
    info := { searcherInit.info.reset with self_color := stateC7.side } }

/-- The searcher state after the single root negamax call of the C7 run,
extracted through the fuelled twin so that it is a closed computable term. -/
def sAC7 : Searcher :=
  ((Searcher.minimaxF 30 cxC7 childC7 1 0 (-INFINITY) INFINITY 0 s0C7).getD
    (0, s0C7)).2

/-- The number of occupied slots (nonzero stored key). -/
def countNonzero (l : List TranspositionEntry) : Nat :=
  (l.filter fun e => e.zhash != 0).length

/-- The C10 invariant: the occupancy counter equals the number of slots whose
stored key is nonzero. -/
def ttInvariant (t : TranspositionTable) : Prop :=
  t.occupancy = countNonzero t.entries


/-! # Theorems -/

/-! ## Shared helper lemmas -/

theorem countNonzero_cons (a : TranspositionEntry) (t : List TranspositionEntry) :
    countNonzero (a :: t) = (if a.zhash = 0 then 0 else 1) + countNonzero t := by
  by_cases h : a.zhash = 0 <;> simp [countNonzero, List.filter_cons, h] <;> omega

theorem countNonzero_replicate (T : Nat) :
    countNonzero (List.replicate T TranspositionEntry.default) = 0 := by
  induction T with
  | zero => rfl
  | succ n ih =>
    rw [List.replicate_succ, countNonzero_cons, ih]
    simp [TranspositionEntry.default]

theorem countNonzero_le_length (l : List TranspositionEntry) :
    countNonzero l ≤ l.length := by
  simpa [countNonzero] using List.length_filter_le _ l

theorem countNonzero_set_of_zero (l : List TranspositionEntry) (i : Nat)
    (e : TranspositionEntry) (hi : i < l.length)
    (h0 : (l.getD i TranspositionEntry.default).zhash = 0) (he : e.zhash ≠ 0) :
    countNonzero (l.set i e) = countNonzero l + 1 := by
  induction l generalizing i with
  | nil => simp at hi
  | cons a t ih =>
    cases i with
    | zero =>
      simp only [List.getD_cons_zero] at h0
      rw [List.set_cons_zero, countNonzero_cons, countNonzero_cons, if_neg he, if_pos h0]
      omega
    | succ j =>
      simp only [List.getD_cons_succ] at h0
      have hj : j < t.length := by simpa using hi
      rw [List.set_cons_succ, countNonzero_cons, countNonzero_cons, ih j hj h0]
      omega

theorem countNonzero_set_of_same (l : List TranspositionEntry) (i : Nat)
    (e : TranspositionEntry)
    (h0 : (l.getD i TranspositionEntry.default).zhash ≠ 0) (he : e.zhash ≠ 0) :
    countNonzero (l.set i e) = countNonzero l := by
  induction l generalizing i with
  | nil => rfl
  | cons a t ih =>
    cases i with
    | zero =>
      simp only [List.getD_cons_zero] at h0
      rw [List.set_cons_zero, countNonzero_cons, countNonzero_cons, if_neg he, if_neg h0]
    | succ j =>
      simp only [List.getD_cons_succ] at h0
      rw [List.set_cons_succ, countNonzero_cons, countNonzero_cons, ih j h0]

theorem countNonzero_clear (l : List TranspositionEntry) :
    countNonzero (l.map fun e => { e with zhash := 0, eval := 0 }) = 0 := by
  induction l with
  | nil => rfl
  | cons a t ih =>
    rw [List.map_cons, countNonzero_cons, ih]
    simp

/-! ## C1: the Zobrist piece-toggle index formula -/

/-- C1: the claim says `toggle_piece_at_pos` indexes the table at
`(color*6 + piece)*64 + square`, so distinct `(piece, color, square)` triples
toggle distinct entries.  The code computes `piece * color + square` instead:
for White (`color = 0`) every piece kind on the same square collides — the
white pawn and the white knight on square 0 toggle the same table entry,
while the spec formula assigns them the distinct indexes 0 and 64. -/
theorem c1_zobrist_index_collision :
    (∀ h : Nat, ZHash.toggle_piece_at_pos h ChessPiece.Pawn PieceColor.White 0 =
      ZHash.toggle_piece_at_pos h ChessPiece.Knight PieceColor.White 0) ∧
    ZHash.hash_pos ChessPiece.Pawn PieceColor.White 0 =
      ZHash.hash_pos ChessPiece.Knight PieceColor.White 0 ∧
    zobristSpecIndex ChessPiece.Pawn PieceColor.White 0 ≠
      zobristSpecIndex ChessPiece.Knight PieceColor.White 0 :=
  ⟨fun _ => rfl, by decide, by decide⟩

/-! ## C8: `from_fen` panics on an over-long placement field -/

/-- C8: the claim says `from_fen` returns `Err` on any malformed FEN without
panicking.  On `"8/8/8/8/8/8/8/8/p w - - 0 1"` the placement fold walks past
square 63 and `place_piece_of_color` indexes `piece_board[64]`, which panics
in Rust; the embedding evaluates the parse to the panic outcome. -/
theorem c8_from_fen_panics : ChessBoardState.from_fen fenC8 = PResult.panic := by
  decide

/-! ## C3: transposition-table lookup -/

/-- C3 counterexample: the slot matches the probe key at sufficient depth
with an `UpperBound` entry whose stored score 48872 is in the mate range;
at `ply_from_root = 10` the mate-adjusted score is 48862 ≤ α = 48865, so the
claim requires `some α`, but the code compares the raw stored score
(48872 > 48865) and returns `none`. -/
theorem c3_lookup_raw_counterexample :
    TranspositionTable.correct_fetched_score 48872 10 = 48862 ∧
    ((48862 : Int) ≤ 48865) ∧
    tableC3.lookup 5 3 10 48865 49000 = none := by
  refine ⟨by decide, by decide, by decide⟩

/-- C3 amended: on a key/depth hit, `lookup` returns the mate-adjusted score
for an `Exact` bound, `α` for an `UpperBound` whose *stored (unadjusted)*
score is ≤ α, `β` for a `LowerBound` whose stored score is ≥ β, and `none`
in every other case (including all misses). -/
theorem c3_lookup_amended (t : TranspositionTable) (hash depth ply : Nat)
    (alpha beta : Int) (entry : TranspositionEntry)
    (he : t.entries.getD (hash % t.entries.length) TranspositionEntry.default = entry) :
    (¬ (entry.zhash = hash ∧ entry.depth ≥ depth) →
      t.lookup hash depth ply alpha beta = none) ∧
    (entry.zhash = hash → entry.depth ≥ depth →
      (entry.node_type = NodeType.Exact →
        t.lookup hash depth ply alpha beta = some
          (if entry.eval ≥ CHECKMATE - 128 then entry.eval - (ply : Int)
           else if entry.eval ≤ -(CHECKMATE - 128) then entry.eval + (ply : Int)
           else entry.eval)) ∧
      (entry.node_type = NodeType.UpperBound →
        (entry.eval ≤ alpha → t.lookup hash depth ply alpha beta = some alpha) ∧
        (¬ entry.eval ≤ alpha → t.lookup hash depth ply alpha beta = none)) ∧
      (entry.node_type = NodeType.LowerBound →
        (entry.eval ≥ beta → t.lookup hash depth ply alpha beta = some beta) ∧
        (¬ entry.eval ≥ beta → t.lookup hash depth ply alpha beta = none))) := by
  unfold TranspositionTable.lookup
  rw [he]
  constructor
  · intro hmiss
    rw [if_neg hmiss]
  · intro hk hd
    refine ⟨?_, ?_, ?_⟩
    · intro hex
      rw [if_pos ⟨hk, hd⟩, if_pos hex]
      simp [TranspositionTable.correct_fetched_score, MATE_DISTANCE, CHECKMATE, MAX_PLY]
    · intro hub
      have hne : ¬ entry.node_type = NodeType.Exact := by
        rw [hub]; intro hc; cases hc
      constructor
      · intro hle
        rw [if_pos ⟨hk, hd⟩, if_neg hne, if_pos ⟨hub, hle⟩]
      · intro hgt
        rw [if_pos ⟨hk, hd⟩, if_neg hne]
        rw [if_neg (by intro hc; exact hgt hc.2)]
        rw [if_neg (by intro hc; rw [hub] at hc; cases hc.1)]
    · intro hlb
      have hne : ¬ entry.node_type = NodeType.Exact := by
        rw [hlb]; intro hc; cases hc
      have hnu : ¬ (entry.node_type = NodeType.UpperBound ∧ entry.eval ≤ alpha) := by
        intro hc; rw [hlb] at hc; cases hc.1
      constructor
      · intro hge
        rw [if_pos ⟨hk, hd⟩, if_neg hne, if_neg hnu, if_pos ⟨hlb, hge⟩]
      · intro hlt
        rw [if_pos ⟨hk, hd⟩, if_neg hne, if_neg hnu, if_neg (by intro hc; exact hlt hc.2)]

/-- C3 witness: the amended theorem applied to the concrete table of the
counterexample, hitting the `UpperBound`-miss case. -/
theorem c3_lookup_amended_witness :
    tableC3.lookup 5 3 10 48900 49000 = some 48900 ∧
    tableC3.lookup 5 3 10 48865 49000 = none :=
  ⟨((c3_lookup_amended tableC3 5 3 10 48900 49000 _ rfl).2 (by decide) (by decide)).2.1
      (by decide) |>.1 (by decide),
   ((c3_lookup_amended tableC3 5 3 10 48865 49000 _ rfl).2 (by decide) (by decide)).2.1
      (by decide) |>.2 (by decide)⟩

/-! ## C4: `add_entry` replacement policy -/

/-- C4 counterexample: when the atomic stop flag is set, `add_entry` returns
early — the slot is empty, yet nothing is written and the occupancy counter
does not move, contradicting the claim's unconditional "writes the entry and
increments occupancy when the indexed slot is empty". -/
theorem c4_add_entry_stop_counterexample :
    (tableEmpty1.entries.getD 0 TranspositionEntry.default).zhash = 0 ∧
    tableEmpty1.add_entry 5 7 3 0 NodeType.Exact true = tableEmpty1 := by
  refine ⟨by decide, by decide⟩

/-- C4 amended: provided the stop flag is clear, `add_entry` writes the entry
and increments occupancy when the indexed slot is empty (stored key 0),
overwrites the slot without touching occupancy when the slot holds the same
key and either its depth is smaller than the new depth or its age differs
from the table age, and otherwise leaves the table completely unchanged;
when the stop flag is set the table is always left unchanged. -/
theorem c4_add_entry_amended (t : TranspositionTable) (zhash : Nat) (eval : Int)
    (depth ply : Nat) (nt : NodeType) (idx : Nat) (entry written : TranspositionEntry)
    (hidx : idx = zhash % t.entries.length)
    (hentry : t.entries.getD idx TranspositionEntry.default = entry)
    (hwritten : written = TranspositionEntry.mk zhash
      (TranspositionTable.correct_eval_for_storage eval ply) depth nt t.age) :
    (t.add_entry zhash eval depth ply nt true = t) ∧
    (entry.zhash = 0 →
      t.add_entry zhash eval depth ply nt false =
        { t with entries := t.entries.set idx written, occupancy := t.occupancy + 1 }) ∧
    (entry.zhash ≠ 0 → entry.zhash = zhash →
      (entry.depth < depth ∨ entry.age ≠ t.age) →
      t.add_entry zhash eval depth ply nt false =
        { t with entries := t.entries.set idx written }) ∧
    (entry.zhash ≠ 0 → (entry.zhash ≠ zhash ∨ (depth ≤ entry.depth ∧ entry.age = t.age)) →
      t.add_entry zhash eval depth ply nt false = t) := by
  subst hidx
  subst hwritten
  subst hentry
  refine ⟨rfl, ?_, ?_, ?_⟩
  · intro h0
    simp only [TranspositionTable.add_entry, Bool.false_eq_true, if_false, if_pos h0]
  · intro hnz hk hrep
    simp only [TranspositionTable.add_entry, Bool.false_eq_true, if_false, if_neg hnz]
    rw [if_pos ⟨hk, hrep⟩]
  · intro hnz hkeep
    simp only [TranspositionTable.add_entry, Bool.false_eq_true, if_false, if_neg hnz]
    rw [if_neg (by
      intro hc
      rcases hkeep with h | h
      · exact h hc.1
      · rcases hc.2 with hd | ha
        · omega
        · exact ha h.2)]

/-- C4 witness: the amended theorem applied to the empty one-slot table. -/
theorem c4_add_entry_amended_witness :
    tableEmpty1.add_entry 5 7 3 0 NodeType.Exact true = tableEmpty1 ∧
    tableEmpty1.add_entry 5 7 3 0 NodeType.Exact false =
      { tableEmpty1 with
        entries := tableEmpty1.entries.set 0
          (TranspositionEntry.mk 5 (TranspositionTable.correct_eval_for_storage 7 0) 3
            NodeType.Exact tableEmpty1.age)
        occupancy := tableEmpty1.occupancy + 1 } :=
  ⟨(c4_add_entry_amended tableEmpty1 5 7 3 0 NodeType.Exact 0
      (tableEmpty1.entries.getD 0 TranspositionEntry.default)
      (TranspositionEntry.mk 5 (TranspositionTable.correct_eval_for_storage 7 0) 3
        NodeType.Exact tableEmpty1.age) rfl rfl rfl).1,
   (c4_add_entry_amended tableEmpty1 5 7 3 0 NodeType.Exact 0
      (tableEmpty1.entries.getD 0 TranspositionEntry.default)
      (TranspositionEntry.mk 5 (TranspositionTable.correct_eval_for_storage 7 0) 3
        NodeType.Exact tableEmpty1.age) rfl rfl rfl).2.1 (by decide)⟩

/-! ## C10: the occupancy invariant -/

/-- C10: the invariant "occupancy = number of slots with a nonzero stored
key" holds for the fresh table, is preserved by `clear`, and is preserved by
`add_entry` on nonempty tables whenever the stored hash is nonzero; it bounds
occupancy by the capacity and `hashfull` by 1000.  `add_entry` decides
emptiness solely by `entry.zhash == 0`, so storing a position whose hash is
exactly 0 twice increments occupancy twice without ever filling a slot:
on a one-slot table the occupancy reaches 2 and `hashfull` reports 2000. -/
theorem c10_occupancy_invariant :
    (∀ T : Nat, ttInvariant (TranspositionTable.empty T)) ∧
    (∀ t : TranspositionTable, ∀ zhash : Nat, ∀ eval : Int, ∀ depth ply : Nat,
      ∀ nt : NodeType, ∀ stop : Bool, 0 < t.entries.length → ttInvariant t → zhash ≠ 0 →
      ttInvariant (t.add_entry zhash eval depth ply nt stop)) ∧
    (∀ t : TranspositionTable, ttInvariant t.clear) ∧
    (∀ t : TranspositionTable, ttInvariant t → t.occupancy ≤ t.entries.length) ∧
    (∀ t : TranspositionTable, ttInvariant t → 0 < t.entries.length →
      t.hashfull ≤ 1000) ∧
    (tableC10b.occupancy = 2 ∧ tableC10b.entries.length = 1 ∧
      tableC10b.hashfull = 2000 ∧ ¬ ttInvariant tableC10b) := by
  refine ⟨?_, ?_, ?_, ?_, ?_, ?_⟩
  · intro T
    unfold ttInvariant TranspositionTable.empty
    simpa using (countNonzero_replicate T).symm
  · intro t zhash eval depth ply nt stop hlen hinv hz
    unfold TranspositionTable.add_entry
    cases stop with
    | true => simpa using hinv
    | false =>
      simp only [Bool.false_eq_true, if_false]
      by_cases h0 : (t.entries.getD (zhash % t.entries.length)
          TranspositionEntry.default).zhash = 0
      · rw [if_pos h0]
        unfold ttInvariant at hinv ⊢
        simp only []
        rw [countNonzero_set_of_zero _ _ _ (Nat.mod_lt _ hlen) h0 hz]
        omega
      · rw [if_neg h0]
        by_cases hrep : (t.entries.getD (zhash % t.entries.length)
            TranspositionEntry.default).zhash = zhash ∧
            ((t.entries.getD (zhash % t.entries.length)
              TranspositionEntry.default).depth < depth ∨
             (t.entries.getD (zhash % t.entries.length)
              TranspositionEntry.default).age ≠ t.age)
        · rw [if_pos hrep]
          unfold ttInvariant at hinv ⊢
          simp only []
          rw [countNonzero_set_of_same _ _ _ h0 hz]
          exact hinv
        · rw [if_neg hrep]
          exact hinv
  · intro t
    unfold ttInvariant TranspositionTable.clear
    simpa using (countNonzero_clear t.entries).symm
  · intro t hinv
    rw [hinv]
    exact countNonzero_le_length t.entries
  · intro t hinv hlen
    have hocc : t.occupancy ≤ t.entries.length := by
      rw [hinv]; exact countNonzero_le_length t.entries
    unfold TranspositionTable.hashfull
    calc 1000 * t.occupancy / t.entries.length
        ≤ 1000 * t.entries.length / t.entries.length :=
          Nat.div_le_div_right (Nat.mul_le_mul_left _ hocc)
      _ = 1000 := Nat.mul_div_cancel _ hlen
  · refine ⟨by decide, by decide, by decide, by unfold ttInvariant; decide⟩

/-- C10 witness: the invariant parts applied at concrete tables. -/
theorem c10_occupancy_invariant_witness :
    ttInvariant (tableEmpty1.add_entry 5 7 3 0 NodeType.Exact false) ∧
    ttInvariant tableC3.clear ∧ tableC3.occupancy ≤ tableC3.entries.length :=
  ⟨c10_occupancy_invariant.2.1 tableEmpty1 5 7 3 0 NodeType.Exact false (by decide)
      (by unfold ttInvariant; decide) (by decide),
   c10_occupancy_invariant.2.2.1 tableC3,
   c10_occupancy_invariant.2.2.2.1 tableC3 (by unfold ttInvariant; decide)⟩

/-! ## C9: quiescence recursion depth -/

theorem quiescienceLoop_depth
    (recur : ChessBoardState → Int → Int → Searcher → Option (Int × Searcher) × Nat)
    (cx : SearchContext) (k : Nat)
    (hrec : ∀ nb a b st, (recur nb a b st).2 ≤ k) :
    ∀ (ms : List Move) (bs : ChessBoardState) (alpha beta : Int) (s : Searcher) (dm : Nat),
      (quiescienceLoop recur cx ms bs alpha beta s dm).2 ≤ max dm (k + 1) := by
  intro ms
  induction ms with
  | nil =>
    intro bs alpha beta s dm
    exact Nat.le_max_left _ _
  | cons mv rest ih =>
    intro bs alpha beta s dm
    simp only [quiescienceLoop]
    cases hex : bs.exec_move mv with
    | none => exact Nat.le_max_left _ _
    | some nb =>
      dsimp only
      rcases hr : recur nb (-beta) (-alpha) s with ⟨ores, d⟩
      have hd : d ≤ k := by
        have h := hrec nb (-beta) (-alpha) s
        rw [hr] at h
        exact h
      have hmax : max dm (1 + d) ≤ max dm (k + 1) := by
        refine Nat.max_le.mpr ⟨Nat.le_max_left _ _, ?_⟩
        refine le_trans ?_ (Nat.le_max_right dm (k + 1))
        omega
      cases ores with
      | none => exact hmax
      | some vs =>
        rcases vs with ⟨sc0, s1⟩
        dsimp only
        split
        · exact hmax
        · split
          · exact le_trans (ih bs (-sc0) beta s1 (max dm (1 + d)))
              (Nat.max_le.mpr ⟨hmax, Nat.le_max_right _ _⟩)
          · exact le_trans (ih bs alpha beta s1 (max dm (1 + d)))
              (Nat.max_le.mpr ⟨hmax, Nat.le_max_right _ _⟩)

/-- C9: quiescence search recurses only with `ply_remaining` decreased by
exactly 1 (the instrumented recursion depth is bounded by `ply_remaining`),
and it performs no recursive call at all when `ply_remaining = 0` or when
`ply_from_root` has reached `MAX_PLY`. -/
theorem c9_quiescience_depth_bound :
    ∀ (r : Nat) (cx : SearchContext) (bs : ChessBoardState) (p : Nat) (alpha beta : Int)
      (s : Searcher),
      (Searcher.quiescience_search cx bs r p alpha beta s).2 ≤ r ∧
      (r = 0 → (Searcher.quiescience_search cx bs r p alpha beta s).2 = 0) ∧
      (MAX_PLY ≤ p → (Searcher.quiescience_search cx bs r p alpha beta s).2 = 0) := by
  intro r
  induction r with
  | zero =>
    intro cx bs p alpha beta s
    have h0 : (Searcher.quiescience_search cx bs 0 p alpha beta s).2 = 0 := by
      simp only [Searcher.quiescience_search]
      rcases hss : s.should_stop cx with ⟨stop, s0⟩
      cases stop <;> simp
    exact ⟨le_of_eq h0, fun _ => h0, fun _ => h0⟩
  | succ n ih =>
    intro cx bs p alpha beta s
    have hbound : (Searcher.quiescience_search cx bs (n + 1) p alpha beta s).2 ≤ n + 1 := by
      simp only [Searcher.quiescience_search]
      rcases hss : s.should_stop cx with ⟨stop, s0⟩
      cases stop with
      | true => simp
      | false =>
        simp only [Bool.false_eq_true, if_false]
        by_cases hp : p ≥ MAX_PLY
        · rw [if_pos hp]
          simp
        · rw [if_neg hp]
          by_cases hdr : Searcher.is_draw
              { s0 with info := { s0.info with
                sel_depth := max s0.info.sel_depth p
                nodes_searched := s0.info.nodes_searched + 1 } } bs p
          · rw [if_pos hdr]
            simp
          · rw [if_neg hdr]
            cases hlk : TranspositionTable.lookup
                { s0 with info := { s0.info with
                  sel_depth := max s0.info.sel_depth p
                  nodes_searched := s0.info.nodes_searched + 1 } }.transposition_table
                bs.zhash (n + 1) p alpha beta with
            | some score => simp
            | none =>
              simp only []
              by_cases hsb : (if bs.side = PieceColor.White then (1 : Int) else -1) *
                  cx.evalFn bs ≥ beta
              · rw [if_pos hsb]
                simp
              · rw [if_neg hsb]
                have hloop := quiescienceLoop_depth
                  (fun nb a b st =>
                    Searcher.quiescience_search cx nb n (p + 1) a b st) cx n
                  (fun nb a b st => (ih cx nb (p + 1) a b st).1)
                refine le_trans (hloop _ bs _ beta _ 0) ?_
                simp
    have hply : MAX_PLY ≤ p →
        (Searcher.quiescience_search cx bs (n + 1) p alpha beta s).2 = 0 := by
      intro hp
      simp only [Searcher.quiescience_search]
      rcases hss : s.should_stop cx with ⟨stop, s0⟩
      cases stop with
      | true => simp
      | false =>
        simp only [Bool.false_eq_true, if_false]
        rw [if_pos hp]
    exact ⟨hbound, fun hc => absurd hc (by omega), hply⟩

/-- C9 witness: the depth bound applied at concrete inputs, discharging the
`ply_remaining = 0` and `MAX_PLY ≤ ply_from_root` hypotheses. -/
theorem c9_quiescience_depth_bound_witness :
    (Searcher.quiescience_search cxC7 stateC7 3 0 (-100) 100 searcherInit).2 ≤ 3 ∧
    (Searcher.quiescience_search cxC7 stateC7 0 5 (-100) 100 searcherInit).2 = 0 ∧
    (Searcher.quiescience_search cxC7 stateC7 2 130 (-100) 100 searcherInit).2 = 0 :=
  ⟨(c9_quiescience_depth_bound 3 cxC7 stateC7 0 (-100) 100 searcherInit).1,
   (c9_quiescience_depth_bound 0 cxC7 stateC7 5 (-100) 100 searcherInit).2.1 rfl,
   (c9_quiescience_depth_bound 2 cxC7 stateC7 130 (-100) 100 searcherInit).2.2 (by decide)⟩

/-! ## C6: castling-rights revocation -/

theorem clear_getter_other (r m g : Nat) (h : m &&& g = g) :
    ((r &&& m) &&& g != 0) = (r &&& g != 0) := by
  rw [Nat.land_assoc, h]

theorem clear_getter_same (r m g : Nat) (h : m &&& g = 0) :
    ((r &&& m) &&& g != 0) = false := by
  rw [Nat.land_assoc, h]
  simp [Nat.and_zero]

theorem wqs_clear_wqs (r : CastlingRights) :
    (r.set_white_queen_side false).white_queen_side = false := by
  simp only [CastlingRights.set_white_queen_side, Bool.false_eq_true, if_false,
    CastlingRights.white_queen_side]
  exact clear_getter_same _ _ _ (by decide)

theorem wks_clear_wks (r : CastlingRights) :
    (r.set_white_king_side false).white_king_side = false := by
  simp only [CastlingRights.set_white_king_side, Bool.false_eq_true, if_false,
    CastlingRights.white_king_side]
  exact clear_getter_same _ _ _ (by decide)

theorem bqs_clear_bqs (r : CastlingRights) :
    (r.set_black_queen_side false).black_queen_side = false := by
  simp only [CastlingRights.set_black_queen_side, Bool.false_eq_true, if_false,
    CastlingRights.black_queen_side]
  exact clear_getter_same _ _ _ (by decide)

theorem bks_clear_bks (r : CastlingRights) :
    (r.set_black_king_side false).black_king_side = false := by
  simp only [CastlingRights.set_black_king_side, Bool.false_eq_true, if_false,
    CastlingRights.black_king_side]
  exact clear_getter_same _ _ _ (by decide)

theorem wqs_clear_wks (r : CastlingRights) :
    (r.set_white_king_side false).white_queen_side = r.white_queen_side := by
  simp only [CastlingRights.set_white_king_side, Bool.false_eq_true, if_false,
    CastlingRights.white_queen_side]
  exact clear_getter_other _ _ _ (by decide)

theorem wqs_clear_bqs (r : CastlingRights) :
    (r.set_black_queen_side false).white_queen_side = r.white_queen_side := by
  simp only [CastlingRights.set_black_queen_side, Bool.false_eq_true, if_false,
    CastlingRights.white_queen_side]
  exact clear_getter_other _ _ _ (by decide)

theorem wqs_clear_bks (r : CastlingRights) :
    (r.set_black_king_side false).white_queen_side = r.white_queen_side := by
  simp only [CastlingRights.set_black_king_side, Bool.false_eq_true, if_false,
    CastlingRights.white_queen_side]
  exact clear_getter_other _ _ _ (by decide)

theorem wks_clear_wqs (r : CastlingRights) :
    (r.set_white_queen_side false).white_king_side = r.white_king_side := by
  simp only [CastlingRights.set_white_queen_side, Bool.false_eq_true, if_false,
    CastlingRights.white_king_side]
  exact clear_getter_other _ _ _ (by decide)

theorem wks_clear_bqs (r : CastlingRights) :
    (r.set_black_queen_side false).white_king_side = r.white_king_side := by
  simp only [CastlingRights.set_black_queen_side, Bool.false_eq_true, if_false,
    CastlingRights.white_king_side]
  exact clear_getter_other _ _ _ (by decide)

theorem wks_clear_bks (r : CastlingRights) :
    (r.set_black_king_side false).white_king_side = r.white_king_side := by
  simp only [CastlingRights.set_black_king_side, Bool.false_eq_true, if_false,
    CastlingRights.white_king_side]
  exact clear_getter_other _ _ _ (by decide)

theorem bqs_clear_wqs (r : CastlingRights) :
    (r.set_white_queen_side false).black_queen_side = r.black_queen_side := by
  simp only [CastlingRights.set_white_queen_side, Bool.false_eq_true, if_false,
    CastlingRights.black_queen_side]
  exact clear_getter_other _ _ _ (by decide)

theorem bqs_clear_wks (r : CastlingRights) :
    (r.set_white_king_side false).black_queen_side = r.black_queen_side := by
  simp only [CastlingRights.set_white_king_side, Bool.false_eq_true, if_false,
    CastlingRights.black_queen_side]
  exact clear_getter_other _ _ _ (by decide)

theorem bqs_clear_bks (r : CastlingRights) :
    (r.set_black_king_side false).black_queen_side = r.black_queen_side := by
  simp only [CastlingRights.set_black_king_side, Bool.false_eq_true, if_false,
    CastlingRights.black_queen_side]
  exact clear_getter_other _ _ _ (by decide)

theorem bks_clear_wqs (r : CastlingRights) :
    (r.set_white_queen_side false).black_king_side = r.black_king_side := by
  simp only [CastlingRights.set_white_queen_side, Bool.false_eq_true, if_false,
    CastlingRights.black_king_side]
  exact clear_getter_other _ _ _ (by decide)

theorem bks_clear_wks (r : CastlingRights) :
    (r.set_white_king_side false).black_king_side = r.black_king_side := by
  simp only [CastlingRights.set_white_king_side, Bool.false_eq_true, if_false,
    CastlingRights.black_king_side]
  exact clear_getter_other _ _ _ (by decide)

theorem bks_clear_bqs (r : CastlingRights) :
    (r.set_black_queen_side false).black_king_side = r.black_king_side := by
  simp only [CastlingRights.set_black_queen_side, Bool.false_eq_true, if_false,
    CastlingRights.black_king_side]
  exact clear_getter_other _ _ _ (by decide)

theorem revokeKingStage_eq (sp : ChessPiece) (sc : PieceColor) (r0 : CastlingRights) :
    (revokeKingStage sp sc r0).white_queen_side =
      (r0.white_queen_side && !(sp == ChessPiece.King && sc == PieceColor.White)) ∧
    (revokeKingStage sp sc r0).white_king_side =
      (r0.white_king_side && !(sp == ChessPiece.King && sc == PieceColor.White)) ∧
    (revokeKingStage sp sc r0).black_queen_side =
      (r0.black_queen_side && !(sp == ChessPiece.King && sc == PieceColor.Black)) ∧
    (revokeKingStage sp sc r0).black_king_side =
      (r0.black_king_side && !(sp == ChessPiece.King && sc == PieceColor.Black)) := by
  unfold revokeKingStage
  by_cases hk : sp = ChessPiece.King
  · subst hk
    cases sc <;>
      simp [wqs_clear_wqs, wqs_clear_wks, wqs_clear_bqs, wqs_clear_bks,
        wks_clear_wqs, wks_clear_wks, wks_clear_bqs, wks_clear_bks,
        bqs_clear_wqs, bqs_clear_wks, bqs_clear_bqs, bqs_clear_bks,
        bks_clear_wqs, bks_clear_wks, bks_clear_bqs, bks_clear_bks]
  · have hne : (sp == ChessPiece.King) = false := by
      simpa using hk
    simp [hk, hne]

theorem revokeRookStage_eq (sp : ChessPiece) (sc : PieceColor) (mv : Move)
    (r1 : CastlingRights) :
    (revokeRookStage sp sc mv r1).white_queen_side =
      (r1.white_queen_side &&
        !(sp == ChessPiece.Rook && sc == PieceColor.White && mv.get_src == 56)) ∧
    (revokeRookStage sp sc mv r1).white_king_side =
      (r1.white_king_side &&
        !(sp == ChessPiece.Rook && sc == PieceColor.White && mv.get_src == 63)) ∧
    (revokeRookStage sp sc mv r1).black_queen_side =
      (r1.black_queen_side &&
        !(sp == ChessPiece.Rook && sc == PieceColor.Black && mv.get_src == 0)) ∧
    (revokeRookStage sp sc mv r1).black_king_side =
      (r1.black_king_side &&
        !(sp == ChessPiece.Rook && sc == PieceColor.Black && mv.get_src == 7)) := by
  unfold revokeRookStage
  by_cases hr : sp = ChessPiece.Rook
  · subst hr
    simp only [if_pos rfl, beq_self_eq_true, Bool.true_and]
    cases sc <;>
      split_ifs <;>
      simp_all [wqs_clear_wqs, wqs_clear_wks, wqs_clear_bqs, wqs_clear_bks,
        wks_clear_wqs, wks_clear_wks, wks_clear_bqs, wks_clear_bks,
        bqs_clear_wqs, bqs_clear_wks, bqs_clear_bqs, bqs_clear_bks,
        bks_clear_wqs, bks_clear_wks, bks_clear_bqs, bks_clear_bks]
  · have hne : (sp == ChessPiece.Rook) = false := by
      simpa using hr
    simp [hr, hne]

theorem revokeCaptureStage_eq (dst : Option (ChessPiece × PieceColor)) (mv : Move)
    (r2 rf : CastlingRights) (h : revokeCaptureStage dst mv r2 = some rf) :
    rf.white_queen_side = (r2.white_queen_side &&
      !(mv.is_capture && !mv.is_en_passant &&
        (match dst with
         | some (dp, dc) => dp == ChessPiece.Rook && dc == PieceColor.White &&
             mv.get_dst == 56
         | none => false))) ∧
    rf.white_king_side = (r2.white_king_side &&
      !(mv.is_capture && !mv.is_en_passant &&
        (match dst with
         | some (dp, dc) => dp == ChessPiece.Rook && dc == PieceColor.White &&
             mv.get_dst == 63
         | none => false))) ∧
    rf.black_queen_side = (r2.black_queen_side &&
      !(mv.is_capture && !mv.is_en_passant &&
        (match dst with
         | some (dp, dc) => dp == ChessPiece.Rook && dc == PieceColor.Black &&
             mv.get_dst == 0
         | none => false))) ∧
    rf.black_king_side = (r2.black_king_side &&
      !(mv.is_capture && !mv.is_en_passant &&
        (match dst with
         | some (dp, dc) => dp == ChessPiece.Rook && dc == PieceColor.Black &&
             mv.get_dst == 7
         | none => false))) := by
  unfold revokeCaptureStage at h
  by_cases hcap : mv.is_capture ∧ ¬ mv.is_en_passant
  · rw [if_pos hcap] at h
    have hcap1 : mv.is_capture = true := hcap.1
    have hcap2 : mv.is_en_passant = false := by
      rcases hcap with ⟨_, h2⟩
      simpa using h2
    cases dst with
    | none => cases h
    | some pc =>
      rcases pc with ⟨dp, dc⟩
      dsimp only at h
      by_cases hdr : dp = ChessPiece.Rook
      · subst hdr
        rw [if_pos rfl] at h
        injection h with h
        subst h
        simp only [hcap1, hcap2, beq_self_eq_true, Bool.true_and, Bool.not_false,
          Bool.and_true]
        cases dc <;>
          split_ifs <;>
          simp_all [wqs_clear_wqs, wqs_clear_wks, wqs_clear_bqs, wqs_clear_bks,
            wks_clear_wqs, wks_clear_wks, wks_clear_bqs, wks_clear_bks,
            bqs_clear_wqs, bqs_clear_wks, bqs_clear_bqs, bqs_clear_bks,
            bks_clear_wqs, bks_clear_wks, bks_clear_bqs, bks_clear_bks]
      · rw [if_neg hdr] at h
        injection h with h
        subst h
        have hne : (dp == ChessPiece.Rook) = false := by
          simpa using hdr
        simp [hne]
  · rw [if_neg hcap] at h
    injection h with h
    subst h
    rcases Decidable.not_and_iff_or_not.mp hcap with h1 | h2
    · have : mv.is_capture = false := by simpa using h1
      simp [this]
    · have : mv.is_en_passant = true := by simpa using h2
      simp [this]

theorem bool_chain_not (w a b c : Bool) :
    (((w && !a) && !b) && !c) = (w && !(a || b || c)) := by
  cases w <;> cases a <;> cases b <;> cases c <;> rfl

theorem bool_chain_not2 (w a b : Bool) :
    (((w && !a) && !b)) = (w && !(a || b)) := by
  cases w <;> cases a <;> cases b <;> rfl

theorem revoke_rights_eq (sp : ChessPiece) (sc : PieceColor)
    (dst : Option (ChessPiece × PieceColor)) (mv : Move) (r0 rf : CastlingRights)
    (h : revoke_castling_rights sp sc dst mv r0 = some rf) :
    rf.white_queen_side =
      (r0.white_queen_side && !(revokesRight 56 PieceColor.White sp sc dst mv)) ∧
    rf.white_king_side =
      (r0.white_king_side && !(revokesRight 63 PieceColor.White sp sc dst mv)) ∧
    rf.black_queen_side =
      (r0.black_queen_side && !(revokesRight 0 PieceColor.Black sp sc dst mv)) ∧
    rf.black_king_side =
      (r0.black_king_side && !(revokesRight 7 PieceColor.Black sp sc dst mv)) := by
  unfold revoke_castling_rights at h
  have hK := revokeKingStage_eq sp sc r0
  have hR := revokeRookStage_eq sp sc mv (revokeKingStage sp sc r0)
  obtain ⟨hw, hx, hy, hz⟩ := revokeCaptureStage_eq dst mv _ rf h
  unfold revokesRight
  cases dst with
  | none =>
    dsimp only at hw hx hy hz ⊢
    refine ⟨?_, ?_, ?_, ?_⟩
    · rw [hw, hR.1, hK.1]
      simp only [Bool.and_false, Bool.not_false, Bool.and_true, Bool.or_false,
        bool_chain_not2]
    · rw [hx, hR.2.1, hK.2.1]
      simp only [Bool.and_false, Bool.not_false, Bool.and_true, Bool.or_false,
        bool_chain_not2]
    · rw [hy, hR.2.2.1, hK.2.2.1]
      simp only [Bool.and_false, Bool.not_false, Bool.and_true, Bool.or_false,
        bool_chain_not2]
    · rw [hz, hR.2.2.2, hK.2.2.2]
      simp only [Bool.and_false, Bool.not_false, Bool.and_true, Bool.or_false,
        bool_chain_not2]
  | some pc =>
    rcases pc with ⟨dp, dc⟩
    dsimp only at hw hx hy hz ⊢
    refine ⟨?_, ?_, ?_, ?_⟩
    · rw [hw, hR.1, hK.1, bool_chain_not]
    · rw [hx, hR.2.1, hK.2.1, bool_chain_not]
    · rw [hy, hR.2.2.1, hK.2.2.1, bool_chain_not]
    · rw [hz, hR.2.2.2, hK.2.2.2, bool_chain_not]

theorem exec_move_rights (s : ChessBoardState) (mv : Move) (s1 : ChessBoardState)
    (sp : ChessPiece) (sc : PieceColor)
    (hsrc : s.board.get_piece_at_pos mv.get_src = some (sp, sc))
    (h : s.exec_move mv = some s1) :
    ∃ rf, revoke_castling_rights sp sc (s.board.get_piece_at_pos mv.get_dst) mv
        s.castling_rights = some rf ∧ s1.castling_rights = rf := by
  unfold ChessBoardState.exec_move at h
  have hpeel : ∃ zh0 : Nat,
      ((s.board.get_piece_at_pos mv.get_src).bind fun a1 =>
        if a1.2 ≠ s.side then none
        else
          (exec_move_kind
              { board := s.board, side := s.side, castling_rights := s.castling_rights,
                en_passant_target := none, half_moves := s.half_moves,
                full_moves := s.full_moves, zhash := zh0 }
              s a1.1 a1.2 (s.board.get_piece_at_pos mv.get_dst) mv).bind fun new1 =>
            (revoke_castling_rights a1.1 a1.2 (s.board.get_piece_at_pos mv.get_dst) mv
              s.castling_rights).bind fun rights =>
              (ZHash.swap_castling_rights new1.zhash s.castling_rights rights).bind
                fun zh1 =>
                some { new1 with
                  castling_rights := rights
                  zhash := ZHash.toggle_side zh1
                  half_moves := if mv.is_capture ∨ a1.1 = ChessPiece.Pawn then 0
                    else (s.half_moves + 1) % 256
                  full_moves := (s.full_moves + 1) % 256
                  side := s.side.opposite }) = some s1 := by
    cases hep : s.en_passant_target with
    | none =>
      rw [hep] at h
      exact ⟨s.zhash, h⟩
    | some ep =>
      rw [hep] at h
      dsimp only [bind] at h
      rw [Option.bind_eq_some] at h
      obtain ⟨zh0, _, h⟩ := h
      exact ⟨zh0, h⟩
  obtain ⟨zh0, h2⟩ := hpeel
  rw [hsrc] at h2
  dsimp only [bind, Option.some_bind] at h2
  by_cases hside : sc ≠ s.side
  · rw [if_pos hside] at h2
    cases h2
  · rw [if_neg hside] at h2
    rw [Option.bind_eq_some] at h2
    obtain ⟨new1, _, h2⟩ := h2
    rw [Option.bind_eq_some] at h2
    obtain ⟨rights, hrev, h2⟩ := h2
    rw [Option.bind_eq_some] at h2
    obtain ⟨zh1, _, h2⟩ := h2
    injection h2 with h2
    subst h2
    exact ⟨rights, hrev, rfl⟩

/-- C6 counterexample: in `stateC6` a *Black* rook stands on A1 and White
still holds the queen-side right; the claim's rule "a rook move leaving A1
removes the right matching that corner" then demands that the silent rook
move a1a2 clears White's queen-side right, but `exec_move` revokes a corner
right only when the moving rook's color matches the corner
(`src_color == *pc` in the `combinations` loop), so the right survives. -/
theorem c6_cross_corner_counterexample :
    stateC6.board.get_piece_at_pos 56 = some (ChessPiece.Rook, PieceColor.Black) ∧
    mvC6.get_src = 56 ∧
    stateC6.castling_rights.white_queen_side = true ∧
    (stateC6.exec_move mvC6).map (fun st => st.castling_rights.white_queen_side) =
      some true := by
  refine ⟨by decide, by decide, by decide, by decide⟩

/-- C6 amended: for every position and every move that `exec_move` executes
without panicking, the four castling rights after the move are exactly the
old rights masked by the per-corner revocation conditions, where the rook
rules apply only when the corner belongs to the moving (resp. captured)
rook's own color: a king move removes both rights of the moving color, a rook
move leaving its own color's corner removes that corner's right, a
non-en-passant capture of a rook on its own color's corner removes that
corner's right, and nothing else changes any right. -/
theorem c6_castling_rights_amended (s : ChessBoardState) (mv : Move)
    (s1 : ChessBoardState) (sp : ChessPiece) (sc : PieceColor)
    (hsrc : s.board.get_piece_at_pos mv.get_src = some (sp, sc))
    (hexec : s.exec_move mv = some s1) :
    s1.castling_rights.white_queen_side = (s.castling_rights.white_queen_side &&
      !(revokesRight 56 PieceColor.White sp sc (s.board.get_piece_at_pos mv.get_dst) mv)) ∧
    s1.castling_rights.white_king_side = (s.castling_rights.white_king_side &&
      !(revokesRight 63 PieceColor.White sp sc (s.board.get_piece_at_pos mv.get_dst) mv)) ∧
    s1.castling_rights.black_queen_side = (s.castling_rights.black_queen_side &&
      !(revokesRight 0 PieceColor.Black sp sc (s.board.get_piece_at_pos mv.get_dst) mv)) ∧
    s1.castling_rights.black_king_side = (s.castling_rights.black_king_side &&
      !(revokesRight 7 PieceColor.Black sp sc (s.board.get_piece_at_pos mv.get_dst) mv)) := by
  obtain ⟨rf, hrev, hcr⟩ := exec_move_rights s mv s1 sp sc hsrc hexec
  rw [hcr]
  exact revoke_rights_eq sp sc _ mv s.castling_rights rf hrev

/-- C6 witness: the amended theorem applied to the concrete cross-corner
position. -/
theorem c6_castling_rights_amended_witness :
    stateC6after.castling_rights.white_queen_side =
      (stateC6.castling_rights.white_queen_side &&
        !(revokesRight 56 PieceColor.White ChessPiece.Rook PieceColor.Black
          (stateC6.board.get_piece_at_pos mvC6.get_dst) mvC6)) ∧
    stateC6after.castling_rights.white_king_side =
      (stateC6.castling_rights.white_king_side &&
        !(revokesRight 63 PieceColor.White ChessPiece.Rook PieceColor.Black
          (stateC6.board.get_piece_at_pos mvC6.get_dst) mvC6)) ∧
    stateC6after.castling_rights.black_queen_side =
      (stateC6.castling_rights.black_queen_side &&
        !(revokesRight 0 PieceColor.Black ChessPiece.Rook PieceColor.Black
          (stateC6.board.get_piece_at_pos mvC6.get_dst) mvC6)) ∧
    stateC6after.castling_rights.black_king_side =
      (stateC6.castling_rights.black_king_side &&
        !(revokesRight 7 PieceColor.Black ChessPiece.Rook PieceColor.Black
          (stateC6.board.get_piece_at_pos mvC6.get_dst) mvC6)) :=
  c6_castling_rights_amended stateC6 mvC6 stateC6after ChessPiece.Rook PieceColor.Black
    (by decide) (by decide)

/-! ## C5: killer moves -/

theorem minimaxF_eq_aux : ∀ fuel : Nat,
    (∀ cx bs r p α β e s, 2 * r + 2 * (MAX_EXTENSIONS - e) + 2 ≤ fuel →
      Searcher.minimaxF fuel cx bs r p α β e s = Searcher.minimax cx bs r p α β e s) ∧
    (∀ cx bs r p α β e s0 chk, 2 * r + 2 * (MAX_EXTENSIONS - e) + 1 ≤ fuel →
      Searcher.minimaxCoreF fuel cx bs r p α β e s0 chk =
        Searcher.minimaxCore cx bs r p α β e s0 chk) := by
  intro fuel
  induction fuel with
  | zero =>
    constructor
    · intro cx bs r p α β e s hb
      omega
    · intro cx bs r p α β e s0 chk hb
      omega
  | succ f ih =>
    constructor
    · intro cx bs r p α β e s hb
      rw [Searcher.minimax]
      simp only [Searcher.minimaxF]
      rcases hss : s.should_stop cx with ⟨stop, s0⟩
      cases stop
      · simp only [Bool.false_eq_true, if_false]
        cases hlk : s0.transposition_table.lookup bs.zhash r p α β with
        | some eval => rfl
        | none =>
          simp only []
          by_cases hext : cx.isInCheck bs ∧ e < MAX_EXTENSIONS
          · rw [if_pos hext, dif_pos hext]
            exact ih.2 cx bs (r + 1) p α β (e + 1) s0 (cx.isInCheck bs) (by
              have h2 := hext.2
              simp only [MAX_EXTENSIONS] at h2 hb ⊢
              omega)
          · rw [if_neg hext, dif_neg hext]
            exact ih.2 cx bs r p α β e s0 (cx.isInCheck bs) (by omega)
      · rfl
    · intro cx bs r p α β e s0 chk hb
      rw [Searcher.minimaxCore]
      simp only [Searcher.minimaxCoreF]
      by_cases h0 : r = 0
      · rw [if_pos h0, dif_pos h0]
      · rw [if_neg h0, dif_neg h0]
        have hfun : (fun nb a b st =>
            Searcher.minimaxF f cx nb (r - 1) (p + 1) a b e st) =
            (fun nb a b st => Searcher.minimax cx nb (r - 1) (p + 1) a b e st) := by
          funext nb a b st
          exact ih.1 cx nb (r - 1) (p + 1) a b e st (by omega)
        rw [hfun]

/-- The fuelled twin agrees with `minimax` whenever the fuel dominates the
termination measure. -/
theorem minimaxF_eq (fuel : Nat) (cx : SearchContext) (bs : ChessBoardState)
    (r p : Nat) (alpha beta : Int) (e : Nat) (s : Searcher)
    (h : 2 * r + 2 * (MAX_EXTENSIONS - e) + 2 ≤ fuel) :
    Searcher.minimaxF fuel cx bs r p alpha beta e s =
      Searcher.minimax cx bs r p alpha beta e s :=
  (minimaxF_eq_aux fuel).1 cx bs r p alpha beta e s h

set_option maxHeartbeats 4000000 in
/-- C5 counterexample: in `stateC5` the rook capture d1xd2 causes a beta
cutoff at the root of `minimax`, and the cutoff site stores the move as a
killer without any capture check — the primary killer slot of ply 0 ends up
holding a capturing move, which the claim forbids. -/
theorem c5_capture_stored_as_killer :
    (Searcher.minimax cxC5 stateC5 1 0 (-100) 100 0 searcherInit).map
      (fun x => (x.1, killersAt x.2 0 0)) = some (100, mvC5) ∧
    mvC5.is_capture = true := by
  constructor
  · rw [← minimaxF_eq 30 cxC5 stateC5 1 0 (-100) 100 0 searcherInit (by decide)]
    decide
  · decide

theorem should_stop_info (cx : SearchContext) (s : Searcher) :
    (s.should_stop cx).2.info = s.info := by
  unfold Searcher.should_stop
  by_cases h1 : s.stop = true
  · rw [if_pos h1]
  · rw [if_neg h1]
    by_cases h2 : s.info.nodes_searched % 4096 ≠ 0
    · rw [if_pos h2]
    · rw [if_neg h2]
      dsimp only
      by_cases h3 : cx.stopOracle s.info.nodes_searched = true
      · rw [if_pos h3]
      · rw [if_neg h3]

theorem getD_set_ne {α : Type} (l : List α) (i j : Nat) (a d : α) (h : i ≠ j) :
    (l.set i a).getD j d = l.getD j d := by
  induction l generalizing i j with
  | nil => rfl
  | cons x t ih =>
    cases i with
    | zero =>
      cases j with
      | zero => exact absurd rfl h
      | succ m => rfl
    | succ n =>
      cases j with
      | zero => rfl
      | succ m => exact ih n m (by omega)

theorem getD_set_self {α : Type} (l : List α) (i : Nat) (a d : α) (h : i < l.length) :
    (l.set i a).getD i d = a := by
  induction l generalizing i with
  | nil => simp at h
  | cons x t ih =>
    cases i with
    | zero => rfl
    | succ n => exact ih n (by simpa using h)

theorem store_killer_cells (info : SearchInfo) (mv : Move) (ply : Nat)
    (info2 : SearchInfo)
    (hlen : info.killer_moves.length = MAX_KILLER_MOVES)
    (hrow0 : (info.killer_moves.getD 0 []).length = MAX_PLY)
    (hrow1 : (info.killer_moves.getD 1 []).length = MAX_PLY)
    (h : info.store_killer_move mv ply = some info2) :
    info2.killer_moves.length = MAX_KILLER_MOVES ∧
    (info2.killer_moves.getD 0 []).length = MAX_PLY ∧
    (info2.killer_moves.getD 1 []).length = MAX_PLY ∧
    (∀ i q, q ≠ ply → (info2.killer_moves.getD i []).getD q Move.NULL_MOVE =
      (info.killer_moves.getD i []).getD q Move.NULL_MOVE) ∧
    (∀ i, 2 ≤ i → (info2.killer_moves.getD i []).getD ply Move.NULL_MOVE =
      (info.killer_moves.getD i []).getD ply Move.NULL_MOVE) ∧
    (info2.killer_moves = info.killer_moves ∨
      ((info2.killer_moves.getD 0 []).getD ply Move.NULL_MOVE = mv ∧
       (info2.killer_moves.getD 1 []).getD ply Move.NULL_MOVE =
         (info.killer_moves.getD 0 []).getD ply Move.NULL_MOVE)) := by
  unfold SearchInfo.store_killer_move at h
  by_cases hply : ply < MAX_PLY
  · rw [if_pos hply] at h
    by_cases hfk : (info.killer_moves.getD 0 []).getD ply Move.NULL_MOVE ≠ mv
    · rw [if_pos hfk] at h
      injection h with h
      subst h
      simp only [MAX_KILLER_MOVES, MAX_PLY] at hlen hrow0 hrow1 hply
      have hlen1 : (info.killer_moves.set 1
          ((info.killer_moves.getD 1 []).set ply
            ((info.killer_moves.getD 0 []).getD ply Move.NULL_MOVE))).length = 2 := by
        simpa using hlen
      have hget0 : ((info.killer_moves.set 1
          ((info.killer_moves.getD 1 []).set ply
            ((info.killer_moves.getD 0 []).getD ply Move.NULL_MOVE))).set 0
          ((info.killer_moves.getD 0 []).set ply mv)).getD 0 [] =
          (info.killer_moves.getD 0 []).set ply mv := by
        exact getD_set_self _ 0 _ _ (by omega)
      have hget1 : ((info.killer_moves.set 1
          ((info.killer_moves.getD 1 []).set ply
            ((info.killer_moves.getD 0 []).getD ply Move.NULL_MOVE))).set 0
          ((info.killer_moves.getD 0 []).set ply mv)).getD 1 [] =
          (info.killer_moves.getD 1 []).set ply
            ((info.killer_moves.getD 0 []).getD ply Move.NULL_MOVE) := by
        rw [getD_set_ne _ 0 1 _ _ (by omega)]
        exact getD_set_self _ 1 _ _ (by omega)
      refine ⟨by simpa using hlen, ?_, ?_, ?_, ?_, ?_⟩
      · rw [hget0]
        simpa using hrow0
      · rw [hget1]
        simpa using hrow1
      · intro i q hq
        match i with
        | 0 =>
          rw [hget0, getD_set_ne _ ply q _ _ (by omega)]
        | 1 =>
          rw [hget1, getD_set_ne _ ply q _ _ (by omega)]
        | (n + 2) =>
          rw [getD_set_ne _ 0 (n + 2) _ _ (by omega),
            getD_set_ne _ 1 (n + 2) _ _ (by omega)]
      · intro i hi
        match i, hi with
        | (n + 2), _ =>
          rw [getD_set_ne _ 0 (n + 2) _ _ (by omega),
            getD_set_ne _ 1 (n + 2) _ _ (by omega)]
      · right
        constructor
        · rw [hget0]
          exact getD_set_self _ ply _ _ (by omega)
        · rw [hget1]
          exact getD_set_self _ ply _ _ (by omega)
    · rw [if_neg hfk] at h
      injection h with h
      subst h
      exact ⟨hlen, hrow0, hrow1, fun i q _ => rfl, fun i _ => rfl, Or.inl rfl⟩
  · rw [if_neg hply] at h
    cases h

theorem quiescienceLoop_killers
    (recur : ChessBoardState → Int → Int → Searcher → Option (Int × Searcher) × Nat)
    (cx : SearchContext)
    (hrec : ∀ nb a b st out d, recur nb a b st = (some out, d) →
      out.2.info.killer_moves = st.info.killer_moves) :
    ∀ (ms : List Move) (bs : ChessBoardState) (alpha beta : Int) (s : Searcher)
      (dm : Nat) (v : Int) (s1 : Searcher),
      (quiescienceLoop recur cx ms bs alpha beta s dm).1 = some (v, s1) →
      s1.info.killer_moves = s.info.killer_moves := by
  intro ms
  induction ms with
  | nil =>
    intro bs alpha beta s dm v s1 h
    have h2 : s = s1 := congrArg Prod.snd (Option.some.inj h)
    rw [← h2]
  | cons mv rest ih =>
    intro bs alpha beta s dm v s1 h
    simp only [quiescienceLoop] at h
    cases hex : bs.exec_move mv with
    | none =>
      rw [hex] at h
      cases h
    | some nb =>
      rw [hex] at h
      dsimp only at h
      rcases hr : recur nb (-beta) (-alpha) s with ⟨ores, d⟩
      rw [hr] at h
      cases ores with
      | none => cases h
      | some vs =>
        rcases vs with ⟨sc0, st1⟩
        have hk1 : st1.info.killer_moves = s.info.killer_moves :=
          hrec nb (-beta) (-alpha) s (sc0, st1) d hr
        dsimp only at h
        by_cases hb : -sc0 ≥ beta
        · rw [if_pos hb] at h
          have h2 : st1 = s1 := congrArg Prod.snd (Option.some.inj h)
          rw [← h2]
          exact hk1
        · rw [if_neg hb] at h
          by_cases ha : -sc0 > alpha
          · rw [if_pos ha] at h
            rw [ih bs (-sc0) beta st1 (max dm (1 + d)) v s1 h]
            exact hk1
          · rw [if_neg ha] at h
            rw [ih bs alpha beta st1 (max dm (1 + d)) v s1 h]
            exact hk1

theorem quiescience_killers :
    ∀ (r : Nat) (cx : SearchContext) (bs : ChessBoardState) (p : Nat)
      (alpha beta : Int) (s : Searcher) (v : Int) (s1 : Searcher),
      (Searcher.quiescience_search cx bs r p alpha beta s).1 = some (v, s1) →
      s1.info.killer_moves = s.info.killer_moves := by
  intro r
  induction r with
  | zero =>
    intro cx bs p alpha beta s v s1 h
    simp only [Searcher.quiescience_search] at h
    rcases hss : s.should_stop cx with ⟨stop, s0⟩
    rw [hss] at h
    have hs0 : s0.info = s.info := by
      have hx := should_stop_info cx s
      rw [hss] at hx
      exact hx
    cases stop with
    | true =>
      dsimp only at h
      have h2 : s0 = s1 := congrArg Prod.snd (Option.some.inj h)
      rw [← h2, hs0]
    | false =>
      dsimp only at h
      have h2 : _ = s1 := congrArg Prod.snd (Option.some.inj h)
      rw [← h2, hs0]
  | succ n ih =>
    intro cx bs p alpha beta s v s1 h
    simp only [Searcher.quiescience_search] at h
    rcases hss : s.should_stop cx with ⟨stop, s0⟩
    rw [hss] at h
    have hs0 : s0.info = s.info := by
      have hx := should_stop_info cx s
      rw [hss] at hx
      exact hx
    cases stop with
    | true =>
      dsimp only at h
      have h2 : s0 = s1 := congrArg Prod.snd (Option.some.inj h)
      rw [← h2, hs0]
    | false =>
      dsimp only at h
      by_cases hp : p ≥ MAX_PLY
      · rw [if_pos hp] at h
        have h2 : _ = s1 := congrArg Prod.snd (Option.some.inj h)
        rw [← h2, hs0]
      · rw [if_neg hp] at h
        by_cases hdr : Searcher.is_draw
            { s0 with info := { s0.info with
              sel_depth := max s0.info.sel_depth p
              nodes_searched := s0.info.nodes_searched + 1 } } bs p
        · rw [if_pos hdr] at h
          have h2 : _ = s1 := congrArg Prod.snd (Option.some.inj h)
          rw [← h2, hs0]
        · rw [if_neg hdr] at h
          cases hlk : TranspositionTable.lookup
              { s0 with info := { s0.info with
                sel_depth := max s0.info.sel_depth p
                nodes_searched := s0.info.nodes_searched + 1 } }.transposition_table
              bs.zhash (n + 1) p alpha beta with
          | some score =>
            rw [hlk] at h
            have h2 : _ = s1 := congrArg Prod.snd (Option.some.inj h)
            rw [← h2, hs0]
          | none =>
            rw [hlk] at h
            dsimp only at h
            by_cases hsb : (if bs.side = PieceColor.White then (1 : Int) else -1) *
                cx.evalFn bs ≥ beta
            · rw [if_pos hsb] at h
              have h2 : _ = s1 := congrArg Prod.snd (Option.some.inj h)
              rw [← h2, hs0]
            · rw [if_neg hsb] at h
              have hloop := quiescienceLoop_killers
                (fun nb a b st =>
                  Searcher.quiescience_search cx nb n (p + 1) a b st) cx
                (fun nb a b st out d hcall => by
                  have hcall2 : Searcher.quiescience_search cx nb n (p + 1) a b st =
                      (some out, d) := hcall
                  exact ih cx nb (p + 1) a b st out.1 out.2 (by rw [hcall2]))
                _ bs _ beta _ 0 v s1 h
              rw [hloop, hs0]

theorem mapMoveEvals_mem (bs : ChessBoardState) (info : SearchInfo) (ply : Nat) :
    ∀ (moves : List Move) (l : List (Move × Nat)),
      mapMoveEvals bs info ply moves = some l → ∀ x ∈ l, x.1 ∈ moves := by
  intro moves
  induction moves with
  | nil =>
    intro l h x hx
    injection h with h
    subst h
    cases hx
  | cons a rest ih =>
    intro l h x hx
    simp only [mapMoveEvals] at h
    cases hfa : move_order_eval a bs info ply with
    | none =>
      rw [hfa] at h
      cases h
    | some e =>
      rw [hfa] at h
      cases hbs : mapMoveEvals bs info ply rest with
      | none =>
        rw [hbs] at h
        cases h
      | some l2 =>
        rw [hbs] at h
        injection h with h
        subst h
        rcases List.mem_cons.mp hx with hx1 | hx2
        · subst hx1
          show a ∈ a :: rest
          exact List.mem_cons_self a rest
        · exact List.mem_cons_of_mem a (ih l2 hbs x hx2)

theorem order_moves_mem (moves : List Move) (bs : ChessBoardState) (info : SearchInfo)
    (ply : Nat) (sorted : List Move) (h : order_moves moves bs info ply = some sorted) :
    ∀ mv ∈ sorted, mv ∈ moves := by
  unfold order_moves at h
  simp only [bind, Option.bind_eq_some] at h
  obtain ⟨evals, hm, h⟩ := h
  injection h with h
  subst h
  intro mv hmv
  rw [List.mem_map] at hmv
  obtain ⟨pair, hp, hfst⟩ := hmv
  have hp2 : pair ∈ evals :=
    (List.Perm.mem_iff (List.perm_insertionSort _ evals)).mp hp
  have hmem := mapMoveEvals_mem bs info ply moves evals hm pair hp2
  rw [← hfst]
  exact hmem

theorem killersAt_info_eq {s1 s2 : Searcher} (h : s1.info = s2.info) :
    ∀ i q, killersAt s1 i q = killersAt s2 i q := by
  intro i q
  simp only [killersAt, h]

theorem killersWF_info_eq {s1 s2 : Searcher} (h : s1.info = s2.info) :
    killersWF s2 → killersWF s1 := by
  intro hwf
  simp only [killersWF, h]
  exact hwf

theorem minimaxLoop_killers
    (recur : ChessBoardState → Int → Int → Searcher → Option (Int × Searcher))
    (cx : SearchContext) (bs : ChessBoardState) (r p : Nat) (beta : Int)
    (hrec : ∀ nb a b st v st1, recur nb a b st = some (v, st1) → killersWF st →
      killersWF st1 ∧ ∀ i q, q ≤ p → killersAt st1 i q = killersAt st i q) :
    ∀ (ms : List Move) (alpha : Int) (nt : NodeType) (s : Searcher) (out : MMLoopOut),
      minimaxLoop recur cx bs r p beta ms alpha nt s = some out →
      killersWF s →
      (match out with
       | .ret v s1 =>
         killersWF s1 ∧ (∀ i q, q < p → killersAt s1 i q = killersAt s i q) ∧
         ((∃ i, killersAt s1 i p ≠ killersAt s i p) →
           v = beta ∧ ∃ mv, mv ∈ ms ∧ killersAt s1 0 p = mv ∧
             killersAt s1 1 p = killersAt s 0 p)
       | .done _ _ s1 =>
         killersWF s1 ∧ ∀ i q, q ≤ p → killersAt s1 i q = killersAt s i q) := by
  intro ms
  induction ms with
  | nil =>
    intro alpha nt s out h hwf
    simp only [minimaxLoop] at h
    injection h with h
    subst h
    exact ⟨hwf, fun i q _ => rfl⟩
  | cons mv rest ih =>
    intro alpha nt s out h hwf
    simp only [minimaxLoop] at h
    cases hex : bs.exec_move mv with
    | none =>
      rw [hex] at h
      cases h
    | some nb =>
      rw [hex] at h
      dsimp only at h
      cases hr : recur nb (-beta) (-alpha) s with
      | none =>
        rw [hr] at h
        cases h
      | some vs =>
        rw [hr] at h
        rcases vs with ⟨sc0, st1⟩
        obtain ⟨hwf1, hpres1⟩ := hrec nb (-beta) (-alpha) s sc0 st1 hr hwf
        dsimp only at h
        rcases hss : st1.should_stop cx with ⟨stop, s2⟩
        rw [hss] at h
        have hinfo2 : s2.info = st1.info := by
          have hx := should_stop_info cx st1
          rw [hss] at hx
          exact hx
        have hwf2 : killersWF s2 := killersWF_info_eq hinfo2 hwf1
        have hAt2 : ∀ i q, q ≤ p → killersAt s2 i q = killersAt s i q := by
          intro i q hq
          rw [killersAt_info_eq hinfo2 i q]
          exact hpres1 i q hq
        cases stop with
        | true =>
          dsimp only at h
          injection h with h
          subst h
          refine ⟨hwf2, fun i q hq => hAt2 i q (by omega), ?_⟩
          intro hch
          exfalso
          obtain ⟨i, hi⟩ := hch
          exact hi (hAt2 i p (le_refl p))
        | false =>
          dsimp only at h
          by_cases hb : -sc0 ≥ beta
          · rw [if_pos hb] at h
            cases hsk : s2.info.store_killer_move mv p with
            | none =>
              rw [hsk] at h
              cases h
            | some info2 =>
              rw [hsk] at h
              dsimp only at h
              injection h with h
              subst h
              obtain ⟨hl, h0, h1, hother, _, hdis⟩ :=
                store_killer_cells s2.info mv p info2 hwf2.1 hwf2.2.1 hwf2.2.2 hsk
              refine ⟨⟨hl, h0, h1⟩, ?_, ?_⟩
              · intro i q hq
                show (info2.killer_moves.getD i []).getD q Move.NULL_MOVE =
                  killersAt s i q
                rw [hother i q (by omega)]
                exact hAt2 i q (by omega)
              · intro hch
                refine ⟨rfl, mv, List.mem_cons_self mv rest, ?_⟩
                cases hdis with
                | inl hunch =>
                  exfalso
                  obtain ⟨i, hi⟩ := hch
                  apply hi
                  show (info2.killer_moves.getD i []).getD p Move.NULL_MOVE =
                    killersAt s i p
                  rw [hunch]
                  exact hAt2 i p (le_refl p)
                | inr hchg =>
                  refine ⟨hchg.1, ?_⟩
                  show (info2.killer_moves.getD 1 []).getD p Move.NULL_MOVE =
                    killersAt s 0 p
                  rw [hchg.2]
                  exact hAt2 0 p (le_refl p)
          · rw [if_neg hb] at h
            by_cases ha : -sc0 > alpha
            · rw [if_pos ha] at h
              have hres := ih (-sc0) NodeType.Exact s2 out h hwf2
              cases out with
              | ret v s1 =>
                obtain ⟨hwf3, hfr3, hch3⟩ := hres
                refine ⟨hwf3, fun i q hq => (hfr3 i q hq).trans (hAt2 i q (by omega)), ?_⟩
                intro hch
                have hch2 : ∃ i, killersAt s1 i p ≠ killersAt s2 i p := by
                  obtain ⟨i, hi⟩ := hch
                  exact ⟨i, fun heq => hi (heq.trans (hAt2 i p (le_refl p)))⟩
                obtain ⟨hv, mv2, hmem, hc0, hc1⟩ := hch3 hch2
                exact ⟨hv, mv2, List.mem_cons_of_mem mv hmem, hc0,
                  hc1.trans (hAt2 0 p (le_refl p))⟩
              | done a nt2 s1 =>
                obtain ⟨hwf3, hfr3⟩ := hres
                exact ⟨hwf3, fun i q hq => (hfr3 i q hq).trans (hAt2 i q hq)⟩
            · rw [if_neg ha] at h
              have hres := ih alpha nt s2 out h hwf2
              cases out with
              | ret v s1 =>
                obtain ⟨hwf3, hfr3, hch3⟩ := hres
                refine ⟨hwf3, fun i q hq => (hfr3 i q hq).trans (hAt2 i q (by omega)), ?_⟩
                intro hch
                have hch2 : ∃ i, killersAt s1 i p ≠ killersAt s2 i p := by
                  obtain ⟨i, hi⟩ := hch
                  exact ⟨i, fun heq => hi (heq.trans (hAt2 i p (le_refl p)))⟩
                obtain ⟨hv, mv2, hmem, hc0, hc1⟩ := hch3 hch2
                exact ⟨hv, mv2, List.mem_cons_of_mem mv hmem, hc0,
                  hc1.trans (hAt2 0 p (le_refl p))⟩
              | done a nt2 s1 =>
                obtain ⟨hwf3, hfr3⟩ := hres
                exact ⟨hwf3, fun i q hq => (hfr3 i q hq).trans (hAt2 i q hq)⟩


theorem minimaxF_killers : ∀ fuel : Nat,
    (∀ cx bs r p alpha beta e s v s1,
      Searcher.minimaxF fuel cx bs r p alpha beta e s = some (v, s1) →
      killersWF s →
      killersWF s1 ∧ (∀ i q, q < p → killersAt s1 i q = killersAt s i q) ∧
      ((∃ i, killersAt s1 i p ≠ killersAt s i p) →
        v = beta ∧ ∃ mv, mv ∈ cx.genMoves bs false ∧ killersAt s1 0 p = mv ∧
          killersAt s1 1 p = killersAt s 0 p)) ∧
    (∀ cx bs r p alpha beta e s0 chk v s1,
      Searcher.minimaxCoreF fuel cx bs r p alpha beta e s0 chk = some (v, s1) →
      killersWF s0 →
      killersWF s1 ∧ (∀ i q, q < p → killersAt s1 i q = killersAt s0 i q) ∧
      ((∃ i, killersAt s1 i p ≠ killersAt s0 i p) →
        v = beta ∧ ∃ mv, mv ∈ cx.genMoves bs false ∧ killersAt s1 0 p = mv ∧
          killersAt s1 1 p = killersAt s0 0 p)) := by
  intro fuel
  induction fuel with
  | zero =>
    constructor
    · intro cx bs r p alpha beta e s v s1 h hwf
      rw [show Searcher.minimaxF 0 cx bs r p alpha beta e s = none from rfl] at h
      cases h
    · intro cx bs r p alpha beta e s0 chk v s1 h hwf
      rw [show Searcher.minimaxCoreF 0 cx bs r p alpha beta e s0 chk = none from rfl] at h
      cases h
  | succ n ih =>
    constructor
    · intro cx bs r p alpha beta e s v s1 h hwf
      simp only [Searcher.minimaxF] at h
      rcases hss : s.should_stop cx with ⟨stop, s0⟩
      rw [hss] at h
      have hinfo0 : s0.info = s.info := by
        have hx := should_stop_info cx s
        rw [hss] at hx
        exact hx
      have hwf0 : killersWF s0 := killersWF_info_eq hinfo0 hwf
      have hAt0 : ∀ i q, killersAt s0 i q = killersAt s i q := killersAt_info_eq hinfo0
      cases stop with
      | true =>
        dsimp only at h
        injection h with h
        have hs : s0 = s1 := congrArg Prod.snd h
        subst hs
        refine ⟨hwf0, fun i q _ => hAt0 i q, ?_⟩
        intro hch
        exfalso
        obtain ⟨i, hi⟩ := hch
        exact hi (hAt0 i p)
      | false =>
        dsimp only at h
        cases hlk : s0.transposition_table.lookup bs.zhash r p alpha beta with
        | some eval =>
          rw [hlk] at h
          injection h with h
          have hs : s0 = s1 := congrArg Prod.snd h
          subst hs
          refine ⟨hwf0, fun i q _ => hAt0 i q, ?_⟩
          intro hch
          exfalso
          obtain ⟨i, hi⟩ := hch
          exact hi (hAt0 i p)
        | none =>
          rw [hlk] at h
          dsimp only at h
          by_cases hext : cx.isInCheck bs ∧ e < MAX_EXTENSIONS
          · rw [if_pos hext] at h
            obtain ⟨hwf1, hfr1, hch1⟩ :=
              ih.2 cx bs (r + 1) p alpha beta (e + 1) s0 (cx.isInCheck bs) v s1 h hwf0
            refine ⟨hwf1, fun i q hq => (hfr1 i q hq).trans (hAt0 i q), ?_⟩
            intro hch
            have hch2 : ∃ i, killersAt s1 i p ≠ killersAt s0 i p := by
              obtain ⟨i, hi⟩ := hch
              exact ⟨i, fun heq => hi (heq.trans (hAt0 i p))⟩
            obtain ⟨hv, mv2, hmem, hc0, hc1⟩ := hch1 hch2
            exact ⟨hv, mv2, hmem, hc0, hc1.trans (hAt0 0 p)⟩
          · rw [if_neg hext] at h
            obtain ⟨hwf1, hfr1, hch1⟩ :=
              ih.2 cx bs r p alpha beta e s0 (cx.isInCheck bs) v s1 h hwf0
            refine ⟨hwf1, fun i q hq => (hfr1 i q hq).trans (hAt0 i q), ?_⟩
            intro hch
            have hch2 : ∃ i, killersAt s1 i p ≠ killersAt s0 i p := by
              obtain ⟨i, hi⟩ := hch
              exact ⟨i, fun heq => hi (heq.trans (hAt0 i p))⟩
            obtain ⟨hv, mv2, hmem, hc0, hc1⟩ := hch1 hch2
            exact ⟨hv, mv2, hmem, hc0, hc1.trans (hAt0 0 p)⟩
    · intro cx bs r p alpha beta e s0 chk v s1 h hwf
      simp only [Searcher.minimaxCoreF] at h
      by_cases h0 : r = 0
      · rw [if_pos h0] at h
        have hq := quiescience_killers MAX_QUISCIENCE_DEPTH cx bs p alpha beta s0 v s1 h
        have hAt : ∀ i q, killersAt s1 i q = killersAt s0 i q := by
          intro i q
          simp only [killersAt, hq]
        refine ⟨?_, fun i q _ => hAt i q, ?_⟩
        · simp only [killersWF, hq]
          exact hwf
        · intro hch
          exfalso
          obtain ⟨i, hi⟩ := hch
          exact hi (hAt i p)
      · rw [if_neg h0] at h
        by_cases hm : (cx.genMoves bs false).length = 0
        · rw [if_pos hm] at h
          injection h with h
          have hs : _ = s1 := congrArg Prod.snd h
          subst hs
          refine ⟨hwf, fun i q _ => rfl, ?_⟩
          intro hch
          exfalso
          obtain ⟨i, hi⟩ := hch
          exact hi rfl
        · rw [if_neg hm] at h
          by_cases hd : Searcher.is_draw
              { s0 with info := { s0.info with
                nodes_searched := s0.info.nodes_searched + 1
                sel_depth := max s0.info.sel_depth p } } bs r
          · rw [if_pos hd] at h
            injection h with h
            have hs : _ = s1 := congrArg Prod.snd h
            subst hs
            refine ⟨hwf, fun i q _ => rfl, ?_⟩
            intro hch
            exfalso
            obtain ⟨i, hi⟩ := hch
            exact hi rfl
          · rw [if_neg hd] at h
            cases hom : order_moves (cx.genMoves bs false) bs
                { s0.info with
                  nodes_searched := s0.info.nodes_searched + 1
                  sel_depth := max s0.info.sel_depth p } p with
            | none =>
              rw [hom] at h
              cases h
            | some sorted =>
              rw [hom] at h
              dsimp only at h
              have hrec : ∀ nb a b st vv st1,
                  (fun nb a b st =>
                    Searcher.minimaxF n cx nb (r - 1) (p + 1) a b e st) nb a b st =
                    some (vv, st1) → killersWF st →
                  killersWF st1 ∧ ∀ i q, q ≤ p → killersAt st1 i q = killersAt st i q := by
                intro nb a b st vv st1 hcall hst
                obtain ⟨hw, hfr, _⟩ :=
                  ih.1 cx nb (r - 1) (p + 1) a b e st vv st1 hcall hst
                exact ⟨hw, fun i q hq => hfr i q (by omega)⟩
              cases hml : minimaxLoop
                  (fun nb a b st =>
                    Searcher.minimaxF n cx nb (r - 1) (p + 1) a b e st)
                  cx bs r p beta sorted alpha NodeType.UpperBound
                  { s0 with info := { s0.info with
                    nodes_searched := s0.info.nodes_searched + 1
                    sel_depth := max s0.info.sel_depth p } } with
              | none =>
                rw [hml] at h
                cases h
              | some out =>
                rw [hml] at h
                have hwfb : killersWF
                    { s0 with info := { s0.info with
                      nodes_searched := s0.info.nodes_searched + 1
                      sel_depth := max s0.info.sel_depth p } } := hwf
                have hloop := minimaxLoop_killers _ cx bs r p beta hrec sorted alpha
                  NodeType.UpperBound _ out hml hwfb
                cases out with
                | ret v2 s2 =>
                  dsimp only at h
                  injection h with h
                  have hv : v2 = v := congrArg Prod.fst h
                  have hs : s2 = s1 := congrArg Prod.snd h
                  subst hv
                  subst hs
                  obtain ⟨hwf3, hfr3, hch3⟩ := hloop
                  refine ⟨hwf3, fun i q hq => hfr3 i q hq, ?_⟩
                  intro hch
                  obtain ⟨hv2, mv2, hmem, hc0, hc1⟩ := hch3 hch
                  exact ⟨hv2, mv2,
                    order_moves_mem (cx.genMoves bs false) bs _ p sorted hom mv2 hmem,
                    hc0, hc1⟩
                | done a nt2 s2 =>
                  dsimp only at h
                  injection h with h
                  have hv : a = v := congrArg Prod.fst h
                  have hs : _ = s1 := congrArg Prod.snd h
                  subst hv
                  subst hs
                  obtain ⟨hwf3, hfr3⟩ := hloop
                  refine ⟨hwf3, fun i q hq => hfr3 i q (by omega), ?_⟩
                  intro hch
                  exfalso
                  obtain ⟨i, hi⟩ := hch
                  exact hi (hfr3 i p (le_refl p))


/-- C5 (amended): a `minimax` call can change the killer table only at plies
at or beyond its own `ply_from_root`; if the cell at its own ply changed, the
call returned `beta` (a beta cutoff) and the primary killer of that ply is one
of the generated moves of the node — with no exclusion of captures — while
the previous primary killer was shifted to the secondary slot. -/
theorem c5_killer_only_on_cutoff (cx : SearchContext) (bs : ChessBoardState)
    (r p : Nat) (alpha beta : Int) (e : Nat) (s : Searcher) (v : Int) (s1 : Searcher)
    (h : Searcher.minimax cx bs r p alpha beta e s = some (v, s1))
    (hwf : killersWF s) :
    killersWF s1 ∧
    (∀ i q, q < p → killersAt s1 i q = killersAt s i q) ∧
    ((∃ i, killersAt s1 i p ≠ killersAt s i p) →
      v = beta ∧ ∃ mv, mv ∈ cx.genMoves bs false ∧ killersAt s1 0 p = mv ∧
        killersAt s1 1 p = killersAt s 0 p) := by
  have heq := minimaxF_eq (2 * r + 2 * MAX_EXTENSIONS + 2) cx bs r p alpha beta e s
    (by simp only [MAX_EXTENSIONS]; omega)
  rw [h] at heq
  exact (minimaxF_killers (2 * r + 2 * MAX_EXTENSIONS + 2)).1 cx bs r p alpha beta e s
    v s1 heq hwf

set_option maxHeartbeats 8000000 in
set_option maxRecDepth 100000 in
theorem c5_killer_only_on_cutoff_witness :
    killersWF searcherInit ∧
    (killersWF sC5out ∧
     (∀ i q, q < 0 → killersAt sC5out i q = killersAt searcherInit i q) ∧
     ((∃ i, killersAt sC5out i 0 ≠ killersAt searcherInit i 0) →
       (100 : Int) = 100 ∧ ∃ mv, mv ∈ cxC5.genMoves stateC5 false ∧
         killersAt sC5out 0 0 = mv ∧
         killersAt sC5out 1 0 = killersAt searcherInit 0 0)) :=
  ⟨⟨by decide, by decide, by decide⟩,
   c5_killer_only_on_cutoff cxC5 stateC5 1 0 (-100) 100 0 searcherInit 100 sC5out
     (by
       rw [← minimaxF_eq 30 cxC5 stateC5 1 0 (-100) 100 0 searcherInit (by decide)]
       decide)
     ⟨by decide, by decide, by decide⟩⟩


set_option maxHeartbeats 8000000 in
set_option maxRecDepth 100000 in
/-- C7: on the bare-kings position `stateC7`, `Searcher::search` returns the
move e1e2, but the hash it appends as the last element of the search history
is the hash of the *unchanged* position `stateC7` — the result of
`board_state.exec_move(best_move)` at search.rs:235 is discarded — and the
position after e1e2 has a different Zobrist hash, so the appended hash is not
`exec_move(p, m).zhash` as the claim requires. -/
theorem c7_history_holds_premove_hash :
    (Searcher.search cxC7 stateC7 (TimeControl.FixedDepth 1) searcherInit).map
        (fun x => (x.1, x.2.info.history.getLast?)) =
      some (mvC7, some stateC7.zhash) ∧
    (stateC7.exec_move mvC7).map ChessBoardState.zhash ≠ some stateC7.zhash := by
  have hmm : Searcher.minimax cxC7 childC7 1 0 (-INFINITY) INFINITY 0 s0C7 =
      some (0, sAC7) := by
    rw [← minimaxF_eq 30 cxC7 childC7 1 0 (-INFINITY) INFINITY 0 s0C7 (by decide)]
    decide
  have hms : Searcher.minimax_root cxC7 stateC7 [mvC7] 1 s0C7 =
      some ([mvC7], sAC7) := by
    simp only [Searcher.minimax_root, minimaxRootRatings]
    rw [show stateC7.exec_move mvC7 = some childC7 from by decide]
    dsimp only
    rw [hmm]
    decide
  have hid : iterativeDeepening cxC7 stateC7 [1] [mvC7] s0C7 =
      some ([mvC7], sAC7) := by
    simp only [iterativeDeepening]
    rw [hms]
  constructor
  · simp only [Searcher.search]
    rw [show order_moves (cxC7.genMoves stateC7 false) stateC7 searcherInit.info 0 =
      some [mvC7] from by decide]
    dsimp only
    rw [show List.range' 1 (depth_from_time_control (TimeControl.FixedDepth 1)) = [1]
      from by decide]
    rw [show ({ searcherInit with
        stop := false
        info := { searcherInit.info.reset with self_color := stateC7.side } } :
        Searcher) = s0C7 from rfl]
    rw [hid]
    decide
  · decide


theorem mem_getLast? : ∀ (l : List Char) (a : Char), l.getLast? = some a → a ∈ l := by
  intro l
  induction l with
  | nil =>
    intro a h
    cases h
  | cons x t ih =>
    intro a h
    cases t with
    | nil =>
      injection h with h
      subst h
      exact List.mem_cons_self x []
    | cons y s =>
      rw [List.getLast?_cons_cons] at h
      exact List.mem_cons_of_mem x (ih a h)

theorem getLast?_append_right (a b : List Char) (h : b ≠ []) :
    (a ++ b).getLast? = b.getLast? := by
  rw [List.getLast?_append]
  cases hb : b.getLast? with
  | none =>
    exfalso
    cases b with
    | nil => exact h rfl
    | cons y s =>
      rw [List.getLast?_eq_getLast (y :: s) (by simp)] at hb
      cases hb
  | some v => rfl

theorem rustTrim_eq_self (l : List Char)
    (h1 : ∀ c, l.head? = some c → c.isWhitespace = false)
    (h2 : ∀ c, l.getLast? = some c → c.isWhitespace = false) :
    rustTrim l = l := by
  unfold rustTrim
  have hd : l.dropWhile Char.isWhitespace = l := by
    cases l with
    | nil => rfl
    | cons a t =>
      rw [List.dropWhile_cons]
      simp [h1 a rfl]
  rw [hd]
  have hd2 : l.reverse.dropWhile Char.isWhitespace = l.reverse := by
    cases hrev : l.reverse with
    | nil => rfl
    | cons a t =>
      rw [List.dropWhile_cons]
      have ha : l.getLast? = some a := by
        rw [← List.head?_reverse, hrev]
        rfl
      simp [h2 a ha]
  rw [hd2, List.reverse_reverse]

theorem splitSpaces_nospace : ∀ (l : List Char), (∀ c ∈ l, c ≠ ' ') →
    splitSpaces l = [l] := by
  intro l
  induction l with
  | nil =>
    intro h
    rfl
  | cons a t ih =>
    intro h
    simp only [splitSpaces]
    rw [ih (fun c hc => h c (List.mem_cons_of_mem a hc))]
    simp [h a (List.mem_cons_self a t)]

theorem splitSpaces_append : ∀ (l r : List Char), (∀ c ∈ l, c ≠ ' ') →
    splitSpaces (l ++ ' ' :: r) = l :: splitSpaces r := by
  intro l
  induction l with
  | nil =>
    intro r h
    show splitSpaces (' ' :: r) = [] :: splitSpaces r
    simp only [splitSpaces]
    cases hs : splitSpaces r with
    | nil => rfl
    | cons f parts => simp
  | cons a t ih =>
    intro r h
    show splitSpaces (a :: (t ++ ' ' :: r)) = (a :: t) :: splitSpaces r
    simp only [splitSpaces]
    rw [ih r (fun c hc => h c (List.mem_cons_of_mem a hc))]
    simp [h a (List.mem_cons_self a t)]

theorem map_range_getD {α : Type} (l : List α) (d : α) :
    (List.range l.length).map (fun i => l.getD i d) = l := by
  induction l with
  | nil => rfl
  | cons a t ih =>
    rw [List.length_cons, List.range_succ_eq_map, List.map_cons, List.map_map]
    refine congrArg₂ List.cons rfl ?_
    rw [show ((fun i => (a :: t).getD i d) ∘ Nat.succ) = (fun i => t.getD i d) from rfl]
    exact ih

theorem intercalate_nil2 : List.intercalate ['/'] ([] : List (List Char)) = [] := by
  simp [List.intercalate]

theorem intercalate_single (a : List Char) : List.intercalate ['/'] [a] = a := by
  simp [List.intercalate]

theorem intercalate_cons2 (a b : List Char) (t : List (List Char)) :
    List.intercalate ['/'] (a :: b :: t) = a ++ '/' :: List.intercalate ['/'] (b :: t) := by
  simp [List.intercalate, List.intersperse]

theorem pieceChar_rt (c : Char) (h : isPieceChar c = true) : pieceCharRT c = true := by
  simp only [isPieceChar, Bool.or_eq_true, beq_iff_eq] at h
  rcases h with (((((((((((h|h)|h)|h)|h)|h)|h)|h)|h)|h)|h)|h) <;> subst h <;> decide

theorem notWS_ne_space (c : Char) (h : c.isWhitespace = false) : c ≠ ' ' := by
  intro hc
  rw [hc] at h
  exact absurd h (by decide)

theorem rankDigit_spec (c : Char) (h : isRankDigit c = true) :
    c.isDigit = true ∧ 1 ≤ c.toNat - 48 ∧ c.toNat - 48 ≤ 8 ∧
    natToChars (c.toNat - 48) = [c] ∧ isPieceChar c = false ∧
    c.isWhitespace = false := by
  simp only [isRankDigit, Bool.and_eq_true, decide_eq_true_eq] at h
  obtain ⟨n, hn, h1, h2⟩ : ∃ n, c = Char.ofNat n ∧ 49 ≤ n ∧ n ≤ 56 :=
    ⟨c.toNat, (Char.ofNat_toNat c).symm, h.1, h.2⟩
  subst hn
  interval_cases n <;> decide

theorem validRank_chars : ∀ (r : List Char) (rem : Nat) (L : Bool),
    validRankAux r rem L = true → ∀ c ∈ r, isPieceChar c = true ∨ isRankDigit c = true := by
  intro r
  induction r with
  | nil =>
    intro rem L h c hc
    cases hc
  | cons a t ih =>
    intro rem L h c hc
    simp only [validRankAux] at h
    by_cases hpc : isPieceChar a
    · rw [if_pos hpc, Bool.and_eq_true] at h
      rcases List.mem_cons.mp hc with rfl | hct
      · exact Or.inl hpc
      · exact ih (rem - 1) false h.2 c hct
    · rw [if_neg hpc] at h
      by_cases hrd : isRankDigit a
      · rw [if_pos hrd, Bool.and_eq_true] at h
        rcases List.mem_cons.mp hc with rfl | hct
        · exact Or.inr hrd
        · exact ih (rem - (a.toNat - 48)) true h.2 c hct
      · rw [if_neg hrd] at h
        cases h

theorem placement_chars : ∀ (rs : List (List Char)), (∀ r ∈ rs, validRank r = true) →
    ∀ c ∈ List.intercalate ['/'] rs,
      isPieceChar c = true ∨ isRankDigit c = true ∨ c = '/' := by
  intro rs
  induction rs with
  | nil =>
    intro hv c hc
    rw [intercalate_nil2] at hc
    cases hc
  | cons a t ih =>
    intro hv c hc
    cases t with
    | nil =>
      rw [intercalate_single] at hc
      rcases validRank_chars a 8 false (hv a (List.mem_cons_self a [])) c hc with h | h
      · exact Or.inl h
      · exact Or.inr (Or.inl h)
    | cons b s =>
      rw [intercalate_cons2] at hc
      rcases List.mem_append.mp hc with h | h
      · rcases validRank_chars a 8 false (hv a (List.mem_cons_self a (b :: s))) c h with
          h2 | h2
        · exact Or.inl h2
        · exact Or.inr (Or.inl h2)
      · rcases List.mem_cons.mp h with rfl | h2
        · exact Or.inr (Or.inr rfl)
        · exact ih (fun r hr => hv r (List.mem_cons_of_mem a hr)) c h2

theorem placementChar_notWS (c : Char)
    (h : isPieceChar c = true ∨ isRankDigit c = true ∨ c = '/') :
    c.isWhitespace = false := by
  rcases h with h | h | h
  · have h2 := pieceChar_rt c h
    unfold pieceCharRT at h2
    cases hcp : charToPiece c with
    | none =>
      rw [hcp] at h2
      cases h2
    | some pc =>
      rw [hcp] at h2
      rcases pc with ⟨p, col⟩
      simp only [Bool.and_eq_true, Bool.not_eq_true'] at h2
      exact h2.2
  · exact (rankDigit_spec c h).2.2.2.2.2
  · subst h
    decide

theorem castling_fields_ok : ∀ ca ∈ castlingFieldStrings,
    castlingFieldRT ca = true ∧ ca ≠ [] ∧ ∀ c ∈ ca, c.isWhitespace = false := by
  decide

set_option maxRecDepth 10000 in
theorem square_names_ok : ∀ s ∈ allSquareNames,
    s ≠ [] ∧ ∀ c ∈ s, c.isWhitespace = false := by
  decide

set_option maxRecDepth 10000 in
theorem square_names_rt : ∀ i ∈ List.range 64, squareNameRT i = true := by
  decide

set_option maxRecDepth 40000 in
theorem clock_fields_ok : ∀ n ∈ List.range 256,
    clockFieldRT n = true ∧ natToChars n ≠ [] ∧
      ∀ c ∈ natToChars n, c.isWhitespace = false := by
  decide

theorem applyRank_length : ∀ (content l : List (Option (ChessPiece × PieceColor)))
    (i : Nat), (applyRank l i content).length = l.length := by
  intro content
  induction content with
  | nil =>
    intro l i
    rfl
  | cons x t ih =>
    intro l i
    cases x with
    | none => exact ih l (i + 1)
    | some v =>
      show (applyRank (l.set i (some v)) (i + 1) t).length = l.length
      rw [ih, List.length_set]

theorem applyRank_getD_lt : ∀ (content l : List (Option (ChessPiece × PieceColor)))
    (i j : Nat), j < i → (applyRank l i content).getD j none = l.getD j none := by
  intro content
  induction content with
  | nil =>
    intro l i j _
    rfl
  | cons x t ih =>
    intro l i j hj
    cases x with
    | none => exact ih l (i + 1) j (by omega)
    | some v =>
      show (applyRank (l.set i (some v)) (i + 1) t).getD j none = l.getD j none
      rw [ih _ _ _ (by omega)]
      exact getD_set_ne l i j (some v) none (by omega)

theorem applyRank_getD_ge : ∀ (content l : List (Option (ChessPiece × PieceColor)))
    (i j : Nat), i + content.length ≤ j →
    (applyRank l i content).getD j none = l.getD j none := by
  intro content
  induction content with
  | nil =>
    intro l i j _
    rfl
  | cons x t ih =>
    intro l i j hj
    rw [List.length_cons] at hj
    cases x with
    | none => exact ih l (i + 1) j (by omega)
    | some v =>
      show (applyRank (l.set i (some v)) (i + 1) t).getD j none = l.getD j none
      rw [ih _ _ _ (by omega)]
      exact getD_set_ne l i j (some v) none (by omega)

theorem applyRank_getD_in : ∀ (content l : List (Option (ChessPiece × PieceColor)))
    (i x : Nat), x < content.length → i + x < l.length →
    l.getD (i + x) none = none →
    (applyRank l i content).getD (i + x) none = content.getD x none := by
  intro content
  induction content with
  | nil =>
    intro l i x hx _ _
    exact absurd hx (by simp)
  | cons c t ih =>
    intro l i x hx hlen hn
    cases x with
    | zero =>
      cases c with
      | none =>
        show (applyRank l (i + 1) t).getD (i + 0) none = none
        rw [applyRank_getD_lt t l (i + 1) (i + 0) (by omega)]
        exact hn
      | some v =>
        show (applyRank (l.set i (some v)) (i + 1) t).getD (i + 0) none = some v
        rw [applyRank_getD_lt t _ (i + 1) (i + 0) (by omega)]
        rw [show i + 0 = i from rfl]
        exact getD_set_self l i (some v) none (by omega)
    | succ x2 =>
      rw [List.length_cons] at hx
      cases c with
      | none =>
        show (applyRank l (i + 1) t).getD (i + (x2 + 1)) none = t.getD x2 none
        rw [show i + (x2 + 1) = (i + 1) + x2 from by omega]
        exact ih l (i + 1) x2 (by omega) (by omega) (by
          rw [show i + 1 + x2 = i + (x2 + 1) from by omega]
          exact hn)
      | some v =>
        show (applyRank (l.set i (some v)) (i + 1) t).getD (i + (x2 + 1)) none =
          t.getD x2 none
        rw [show i + (x2 + 1) = (i + 1) + x2 from by omega]
        refine ih (l.set i (some v)) (i + 1) x2 (by omega)
          (by rw [List.length_set]; omega) ?_
        rw [getD_set_ne l i _ (some v) none (by omega)]
        rw [show i + 1 + x2 = i + (x2 + 1) from by omega]
        exact hn

theorem applyRank_replicate : ∀ (k : Nat) (l : List (Option (ChessPiece × PieceColor)))
    (i : Nat) (xs : List (Option (ChessPiece × PieceColor))),
    applyRank l i (List.replicate k none ++ xs) = applyRank l (i + k) xs := by
  intro k
  induction k with
  | zero =>
    intro l i xs
    rfl
  | succ n ih =>
    intro l i xs
    show applyRank l (i + 1) (List.replicate n none ++ xs) = applyRank l (i + (n + 1)) xs
    rw [ih l (i + 1) xs]
    congr 1
    omega

theorem rankContent_length : ∀ (r : List Char) (rem : Nat) (L : Bool),
    validRankAux r rem L = true → (rankContent r).length = rem := by
  intro r
  induction r with
  | nil =>
    intro rem L h
    simp only [validRankAux, beq_iff_eq] at h
    subst h
    rfl
  | cons a t ih =>
    intro rem L h
    simp only [validRankAux] at h
    by_cases hpc : isPieceChar a
    · rw [if_pos hpc, Bool.and_eq_true] at h
      obtain ⟨hrem, h2⟩ := h
      rw [decide_eq_true_eq] at hrem
      simp only [rankContent]
      rw [if_pos hpc]
      rw [List.length_cons, ih (rem - 1) false h2]
      omega
    · rw [if_neg hpc] at h
      by_cases hrd : isRankDigit a
      · rw [if_pos hrd, Bool.and_eq_true] at h
        obtain ⟨hgate, h2⟩ := h
        rw [Bool.and_eq_true, decide_eq_true_eq] at hgate
        simp only [rankContent]
        rw [if_neg hpc]
        rw [List.length_append, List.length_replicate, ih (rem - (a.toNat - 48)) true h2]
        omega
      · rw [if_neg hrd] at h
        cases h

theorem encodeRank_replicate : ∀ (k : Nat)
    (xs : List (Option (ChessPiece × PieceColor))) (c : Nat),
    encodeRankAux (List.replicate k none ++ xs) c = encodeRankAux xs (c + k) := by
  intro k
  induction k with
  | zero =>
    intro xs c
    rfl
  | succ n ih =>
    intro xs c
    show encodeRankAux (List.replicate n none ++ xs) (c + 1) = encodeRankAux xs (c + (n + 1))
    rw [ih xs (c + 1)]
    congr 1
    omega

theorem encodeRank_inv : ∀ (r : List Char) (rem : Nat) (L : Bool) (c : Nat),
    validRankAux r rem L = true → (c ≠ 0 → L = true) →
    encodeRankAux (rankContent r) c = (if c ≠ 0 then natToChars c else []) ++ r := by
  intro r
  induction r with
  | nil =>
    intro rem L c _ _
    show (if c ≠ 0 then natToChars c else []) = (if c ≠ 0 then natToChars c else []) ++ []
    rw [List.append_nil]
  | cons a t ih =>
    intro rem L c hv hL
    simp only [validRankAux] at hv
    by_cases hpc : isPieceChar a
    · rw [if_pos hpc, Bool.and_eq_true] at hv
      obtain ⟨_, hv2⟩ := hv
      have hrt := pieceChar_rt a hpc
      unfold pieceCharRT at hrt
      cases hcp : charToPiece a with
      | none =>
        rw [hcp] at hrt
        cases hrt
      | some pc =>
        rcases pc with ⟨p, col⟩
        rw [hcp] at hrt
        simp only [Bool.and_eq_true, beq_iff_eq, bne_iff_ne, Bool.not_eq_true'] at hrt
        obtain ⟨⟨⟨hfen, _⟩, _⟩, _⟩ := hrt
        have hcont : rankContent (a :: t) = some (p, col) :: rankContent t := by
          simp only [rankContent]
          rw [if_pos hpc, hcp]
        rw [hcont]
        show (if c ≠ 0 then natToChars c else []) ++
            ChessBoardState.piece_to_fen_notation p col :: encodeRankAux (rankContent t) 0 =
          (if c ≠ 0 then natToChars c else []) ++ (a :: t)
        rw [ih (rem - 1) false 0 hv2 (fun h => absurd rfl h), hfen]
        rfl
    · rw [if_neg hpc] at hv
      by_cases hrd : isRankDigit a
      · rw [if_pos hrd, Bool.and_eq_true] at hv
        obtain ⟨hgate, hv2⟩ := hv
        rw [Bool.and_eq_true] at hgate
        obtain ⟨hnl, _⟩ := hgate
        have hc0 : c = 0 := by
          by_cases hc : c = 0
          · exact hc
          · rw [hL hc] at hnl
            cases hnl
        subst hc0
        obtain ⟨_, hd1, _, hnat, _, _⟩ := rankDigit_spec a hrd
        have hcont : rankContent (a :: t) =
            List.replicate (a.toNat - 48) none ++ rankContent t := by
          simp only [rankContent]
          rw [if_neg hpc]
        rw [hcont, encodeRank_replicate]
        rw [ih (rem - (a.toNat - 48)) true (0 + (a.toNat - 48)) hv2 (fun _ => rfl)]
        rw [if_pos (by omega : ¬(0 + (a.toNat - 48) = 0))]
        rw [show 0 + (a.toNat - 48) = a.toNat - 48 from by omega, hnat]
        rfl
      · rw [if_neg hrd] at hv
        cases hv

theorem place_piece_board (b : ChessBoard) (p : ChessPiece) (col : PieceColor)
    (cur zh : Nat) (h : cur < 64) :
    ∃ b2 zh2, b.place_piece_of_color p col cur zh = some (b2, zh2) ∧
      b2.piece_board = b.piece_board.set cur (some (p, col)) := by
  unfold ChessBoard.place_piece_of_color
  rw [if_pos h]
  cases col <;> exact ⟨_, _, rfl, rfl⟩

theorem parse_one_rank : ∀ (r : List Char) (rem : Nat) (L : Bool) (b : ChessBoard)
    (zh cur : Nat) (tail : List Char),
    validRankAux r rem L = true → cur + rem ≤ 64 → b.piece_board.length = 64 →
    ∃ b2 zh2,
      from_fen_notation_aux (r ++ tail) b zh cur =
        from_fen_notation_aux tail b2 zh2 (cur + rem) ∧
      b2.piece_board = applyRank b.piece_board cur (rankContent r) := by
  intro r
  induction r with
  | nil =>
    intro rem L b zh cur tail hv _ _
    simp only [validRankAux, beq_iff_eq] at hv
    subst hv
    exact ⟨b, zh, rfl, rfl⟩
  | cons a t ih =>
    intro rem L b zh cur tail hv hle hlen
    simp only [validRankAux] at hv
    by_cases hpc : isPieceChar a
    · rw [if_pos hpc, Bool.and_eq_true] at hv
      obtain ⟨hrem, hv2⟩ := hv
      rw [decide_eq_true_eq] at hrem
      have hrt := pieceChar_rt a hpc
      unfold pieceCharRT at hrt
      cases hcp : charToPiece a with
      | none =>
        rw [hcp] at hrt
        cases hrt
      | some pc =>
        rcases pc with ⟨p, col⟩
        rw [hcp] at hrt
        simp only [Bool.and_eq_true, beq_iff_eq, bne_iff_ne, Bool.not_eq_true'] at hrt
        obtain ⟨⟨⟨_, hdig⟩, hslash⟩, _⟩ := hrt
        obtain ⟨bp, zhp, hplace, hpb⟩ := place_piece_board b p col cur zh (by omega)
        have hstep : from_fen_notation_aux ((a :: t) ++ tail) b zh cur =
            from_fen_notation_aux (t ++ tail) bp zhp (cur + 1) := by
          show from_fen_notation_aux (a :: (t ++ tail)) b zh cur = _
          simp only [from_fen_notation_aux]
          rw [if_neg (by simp [hdig]), if_neg hslash, hcp]
          dsimp only
          rw [hplace]
        obtain ⟨b2, zh2, hrec, hrecb⟩ := ih (rem - 1) false bp zhp (cur + 1) tail hv2
          (by omega) (by rw [hpb, List.length_set, hlen])
        refine ⟨b2, zh2, ?_, ?_⟩
        · rw [hstep, hrec]
          congr 1
          omega
        · rw [hrecb, hpb]
          have hcont : rankContent (a :: t) = some (p, col) :: rankContent t := by
            simp only [rankContent]
            rw [if_pos hpc, hcp]
          rw [hcont]
          rfl
    · rw [if_neg hpc] at hv
      by_cases hrd : isRankDigit a
      · rw [if_pos hrd, Bool.and_eq_true] at hv
        obtain ⟨hgate, hv2⟩ := hv
        rw [Bool.and_eq_true, decide_eq_true_eq] at hgate
        obtain ⟨_, hdle⟩ := hgate
        obtain ⟨hdig, hd1, hd8, _, _, _⟩ := rankDigit_spec a hrd
        have hstep : from_fen_notation_aux ((a :: t) ++ tail) b zh cur =
            from_fen_notation_aux (t ++ tail) b zh (cur + (a.toNat - 48)) := by
          show from_fen_notation_aux (a :: (t ++ tail)) b zh cur = _
          simp only [from_fen_notation_aux]
          rw [if_pos hdig]
        obtain ⟨b2, zh2, hrec, hrecb⟩ := ih (rem - (a.toNat - 48)) true b zh
          (cur + (a.toNat - 48)) tail hv2 (by omega) hlen
        refine ⟨b2, zh2, ?_, ?_⟩
        · rw [hstep, hrec]
          congr 1
          omega
        · rw [hrecb]
          have hcont : rankContent (a :: t) =
              List.replicate (a.toNat - 48) none ++ rankContent t := by
            simp only [rankContent]
            rw [if_neg hpc]
          rw [hcont, applyRank_replicate]
      · rw [if_neg hrd] at hv
        cases hv

theorem parse_ranks : ∀ (rs : List (List Char)) (b : ChessBoard) (zh y : Nat),
    (∀ r ∈ rs, validRank r = true) → y + rs.length = 8 → b.piece_board.length = 64 →
    (∀ j, 8 * y ≤ j → b.piece_board.getD j none = none) →
    ∃ b2 zh2,
      from_fen_notation_aux (List.intercalate ['/'] rs) b zh (8 * y) =
        .ok (b2, zh2, 64) ∧
      b2.piece_board.length = 64 ∧
      (∀ j, j < 8 * y → b2.piece_board.getD j none = b.piece_board.getD j none) ∧
      (∀ q x, q < rs.length → x < 8 →
        b2.piece_board.getD (x + 8 * (y + q)) none =
          (rankContent (rs.getD q [])).getD x none) := by
  intro rs
  induction rs with
  | nil =>
    intro b zh y hv hy hlen hnone
    rw [intercalate_nil2]
    rw [show 8 * y = 64 from by simp only [List.length_nil] at hy; omega]
    exact ⟨b, zh, rfl, hlen, fun j _ => rfl, fun q x hq _ => absurd hq (by simp)⟩
  | cons r rest ih =>
    intro b zh y hv hy hlen hnone
    have hvr : validRank r = true := hv r (List.mem_cons_self r rest)
    unfold validRank at hvr
    cases rest with
    | nil =>
      rw [intercalate_single]
      obtain ⟨b2, zh2, hstep, hb2⟩ :=
        parse_one_rank r 8 false b zh (8 * y) [] hvr
          (by simp only [List.length_cons, List.length_nil] at hy; omega) hlen
      rw [List.append_nil] at hstep
      have hy1 : y = 7 := by simp only [List.length_cons, List.length_nil] at hy; omega
      refine ⟨b2, zh2, ?_, ?_, ?_, ?_⟩
      · rw [hstep]
        rw [show 8 * y + 8 = 64 from by omega]
        rfl
      · rw [hb2, applyRank_length]
        exact hlen
      · intro j hj
        rw [hb2]
        exact applyRank_getD_lt _ _ _ _ hj
      · intro q x hq hx
        have hq0 : q = 0 := by simp only [List.length_cons, List.length_nil] at hq; omega
        subst hq0
        rw [hb2]
        rw [show x + 8 * (y + 0) = 8 * y + x from by omega]
        have hcl : (rankContent r).length = 8 := rankContent_length r 8 false hvr
        exact applyRank_getD_in (rankContent r) b.piece_board (8 * y) x
          (by rw [hcl]; exact hx) (by rw [hlen]; omega) (hnone (8 * y + x) (by omega))
    | cons r2 rest2 =>
      rw [intercalate_cons2]
      obtain ⟨b2, zh2, hstep, hb2⟩ :=
        parse_one_rank r 8 false b zh (8 * y)
          ('/' :: List.intercalate ['/'] (r2 :: rest2)) hvr
          (by simp only [List.length_cons] at hy; omega) hlen
      have hslash : from_fen_notation_aux
          ('/' :: List.intercalate ['/'] (r2 :: rest2)) b2 zh2 (8 * y + 8) =
          from_fen_notation_aux (List.intercalate ['/'] (r2 :: rest2)) b2 zh2
            (8 * y + 8) := by
        simp only [from_fen_notation_aux]
        rw [if_neg (by decide)]
        simp
      have hlen2 : b2.piece_board.length = 64 := by
        rw [hb2, applyRank_length]
        exact hlen
      have hcl : (rankContent r).length = 8 := rankContent_length r 8 false hvr
      have hnone2 : ∀ j, 8 * (y + 1) ≤ j → b2.piece_board.getD j none = none := by
        intro j hj
        rw [hb2, applyRank_getD_ge _ _ _ _ (by rw [hcl]; omega)]
        exact hnone j (by omega)
      obtain ⟨b3, zh3, hrec, hlen3, hout, hin⟩ :=
        ih b2 zh2 (y + 1) (fun r2 hr2 => hv r2 (List.mem_cons_of_mem r hr2))
          (by simp only [List.length_cons] at hy ⊢; omega) hlen2 hnone2
      refine ⟨b3, zh3, ?_, hlen3, ?_, ?_⟩
      · rw [hstep, hslash, show 8 * y + 8 = 8 * (y + 1) from by omega]
        exact hrec
      · intro j hj
        rw [hout j (by omega), hb2]
        exact applyRank_getD_lt _ _ _ _ hj
      · intro q x hq hx
        cases q with
        | zero =>
          rw [hout (x + 8 * (y + 0)) (by omega), hb2]
          rw [show x + 8 * (y + 0) = 8 * y + x from by omega]
          exact applyRank_getD_in (rankContent r) b.piece_board (8 * y) x
            (by rw [hcl]; exact hx) (by rw [hlen]; omega) (hnone (8 * y + x) (by omega))
        | succ q2 =>
          have hq2 : q2 < (r2 :: rest2).length := by
            simp only [List.length_cons] at hq ⊢
            omega
          have := hin q2 x hq2 hx
          rw [show x + 8 * (y + (q2 + 1)) = x + 8 * ((y + 1) + q2) from by omega]
          exact this

theorem presult_bind_ok {A B : Type} (a : A) (f : A → PResult B) :
    (PResult.ok a >>= f) = f a := rfl

theorem getD_replicate_none : ∀ (n j : Nat),
    (List.replicate n (none : Option (ChessPiece × PieceColor))).getD j none = none := by
  intro n
  induction n with
  | zero =>
    intro j
    rfl
  | succ m ih =>
    intro j
    cases j with
    | zero => rfl
    | succ j2 => exact ih j2

theorem getLast?_seps (a b : List Char) (hb : b ≠ []) :
    (a ++ ' ' :: b).getLast? = b.getLast? := by
  rw [show a ++ ' ' :: b = (a ++ [' ']) ++ b from by simp]
  exact getLast?_append_right _ _ hb

theorem update_ep_hash_some (s : ChessBoardState) (side : PieceColor) (i : Nat)
    (h : i < 64) :
    ∃ s2, s.update_enpassant_hash side (some i) = some s2 ∧ s2.board = s.board ∧
      s2.side = s.side ∧ s2.castling_rights = s.castling_rights ∧
      s2.en_passant_target = s.en_passant_target ∧ s2.half_moves = s.half_moves ∧
      s2.full_moves = s.full_moves := by
  unfold ChessBoardState.update_enpassant_hash
  dsimp only
  by_cases ha : s.board.pawns_able_to_enpassant side i ≠ 0
  · rw [if_pos ha]
    unfold ZHash.toggle_enpassant
    rw [if_pos h]
    exact ⟨_, rfl, rfl, rfl, rfl, rfl, rfl, rfl⟩
  · rw [if_neg ha]
    exact ⟨s, rfl, rfl, rfl, rfl, rfl, rfl, rfl⟩

theorem castling_parse (ca : List Char) (h : ca ∈ castlingFieldStrings) :
    ∃ r : CastlingRights, CastlingRights.try_from ca = .ok r ∧ r.toChars = ca ∧
      r.val < 16 := by
  have h2 := (castling_fields_ok ca h).1
  unfold castlingFieldRT at h2
  cases hct : CastlingRights.try_from ca with
  | ok r =>
    rw [hct] at h2
    simp only [Bool.and_eq_true, beq_iff_eq, decide_eq_true_eq] at h2
    exact ⟨r, rfl, h2.1, h2.2⟩
  | err =>
    rw [hct] at h2
    cases h2
  | panic =>
    rw [hct] at h2
    cases h2

theorem square_parse (ep : List Char) (h : ep ∈ allSquareNames) :
    ∃ i, i < 64 ∧ Square.from_square_name ep = .ok (some i) ∧
      Square.to_square_name (some i) = ep := by
  unfold allSquareNames at h
  rw [List.mem_map] at h
  obtain ⟨i, hi, hix⟩ := h
  rw [List.mem_range] at hi
  have h2 := square_names_rt i (List.mem_range.mpr hi)
  unfold squareNameRT at h2
  cases hfs : Square.from_square_name (Square.to_square_name (some i)) with
  | ok v =>
    rw [hfs] at h2
    cases v with
    | none => cases h2
    | some j =>
      simp only [beq_iff_eq] at h2
      refine ⟨i, hi, ?_, hix⟩
      rw [← hix, hfs, h2]
  | err =>
    rw [hfs] at h2
    cases h2
  | panic =>
    rw [hfs] at h2
    cases h2

theorem clock_parse (n : Nat) (h : n ≤ 255) : parse_u8 (natToChars n) = .ok n := by
  have h2 := (clock_fields_ok n (List.mem_range.mpr (by omega))).1
  unfold clockFieldRT at h2
  cases hp : parse_u8 (natToChars n) with
  | ok m =>
    rw [hp] at h2
    simp only [beq_iff_eq] at h2
    subst h2
    rfl
  | err =>
    rw [hp] at h2
    cases h2
  | panic =>
    rw [hp] at h2
    cases h2

theorem swap_castling_ok (zh : Nat) (r : CastlingRights) (h : r.val < 16) :
    ZHash.swap_castling_rights zh ⟨0⟩ r =
      some (zh ^^^ CASTLING_HASHES.getD 0 0 ^^^ CASTLING_HASHES.getD r.index 0) := by
  unfold ZHash.swap_castling_rights
  have hc : ((⟨0⟩ : CastlingRights).index < 16 && r.index < 16) = true := by
    simp only [CastlingRights.index, Bool.and_eq_true, decide_eq_true_eq]
    exact ⟨by omega, h⟩
  rw [if_pos hc]
  rfl

/-- C2 counterexample: a §6.1-valid FEN (the clock fields of the spec grammar
are unbounded unsigned integers) whose full-move counter 256 does not fit the
`u8` of `str::parse::<u8>`, so `from_fen` rejects it and the round trip
fails. -/
theorem c2_fullmove_256_rejected :
    validFen fenC2 ∧ ChessBoardState.from_fen fenC2 = PResult.err := by
  constructor
  · refine ⟨"8/8/8/8/8/8/8/8".data, ['w'], ['-'], ['-'], ['0'], "256".data,
      by decide, ?_, ?_, ?_, ?_, ?_, ?_⟩
    · exact ⟨[['8'],['8'],['8'],['8'],['8'],['8'],['8'],['8']], by decide, by decide,
        by decide⟩
    · exact Or.inl rfl
    · decide
    · exact Or.inl rfl
    · exact ⟨0, by decide⟩
    · exact ⟨256, by decide⟩
  · decide

/-- C2 (amended): the FEN round trip holds for every §6.1-valid FEN whose two
clock fields fit the `u8` the implementation parses them into: parsing
succeeds and re-serialising returns the input unchanged. -/
theorem c2_fen_round_trip_amended (text : List Char) (h : validFen255 text) :
    ∃ st, ChessBoardState.from_fen text = PResult.ok st ∧ st.to_fen = text := by
  obtain ⟨pl, sd, ca, ep, hm, fm, htext, hpl, hsd, hca, hep, hhm, hfm⟩ := h
  obtain ⟨rs, hrs8, hrsv, hplrs⟩ := hpl
  obtain ⟨nh, hnh, hhmv⟩ := hhm
  obtain ⟨nf, hnf, hfmv⟩ := hfm
  subst htext
  subst hplrs
  subst hhmv
  subst hfmv
  have hplc : ∀ c ∈ List.intercalate ['/'] rs, c.isWhitespace = false :=
    fun c hc => placementChar_notWS c (placement_chars rs hrsv c hc)
  have hsd_ws : ∀ c ∈ sd, c.isWhitespace = false := by
    rcases hsd with rfl | rfl <;> decide
  have hca_ws : ∀ c ∈ ca, c.isWhitespace = false := (castling_fields_ok ca hca).2.2
  have hep_ws : ∀ c ∈ ep, c.isWhitespace = false := by
    rcases hep with rfl | hmem
    · decide
    · exact (square_names_ok ep hmem).2
  have hhm_ws : ∀ c ∈ natToChars nh, c.isWhitespace = false :=
    (clock_fields_ok nh (List.mem_range.mpr (by omega))).2.2
  have hfm_ws : ∀ c ∈ natToChars nf, c.isWhitespace = false :=
    (clock_fields_ok nf (List.mem_range.mpr (by omega))).2.2
  have hfm_ne : natToChars nf ≠ [] :=
    (clock_fields_ok nf (List.mem_range.mpr (by omega))).2.1
  have hPLne : List.intercalate ['/'] rs ≠ [] := by
    cases rs with
    | nil => simp at hrs8
    | cons r0 rs2 =>
      have hr0 : validRank r0 = true := hrsv r0 (List.mem_cons_self r0 rs2)
      have hr0ne : r0 ≠ [] := by
        intro he
        rw [he] at hr0
        exact absurd hr0 (by decide)
      cases rs2 with
      | nil =>
        rw [intercalate_single]
        exact hr0ne
      | cons r1 rs3 =>
        rw [intercalate_cons2]
        intro he
        exact hr0ne (List.append_eq_nil.mp he).1
  set T : List Char := List.intercalate ['/'] rs ++ ' ' :: (sd ++ ' ' :: (ca ++ ' ' ::
    (ep ++ ' ' :: (natToChars nh ++ ' ' :: natToChars nf)))) with hT
  have hhead : ∀ c, T.head? = some c → c.isWhitespace = false := by
    intro c hc
    rw [hT] at hc
    cases hI : List.intercalate ['/'] rs with
    | nil => exact absurd hI hPLne
    | cons p0 pt =>
      rw [hI, List.cons_append, List.head?_cons] at hc
      injection hc with hc
      subst hc
      exact hplc p0 (by rw [hI]; exact List.mem_cons_self p0 pt)
  have hlast : ∀ c, T.getLast? = some c → c.isWhitespace = false := by
    intro c hc
    rw [hT] at hc
    rw [getLast?_seps _ _ (by simp), getLast?_seps _ _ (by simp),
      getLast?_seps _ _ (by simp), getLast?_seps _ _ (by simp),
      getLast?_seps _ _ hfm_ne] at hc
    exact hfm_ws c (mem_getLast? _ c hc)
  have htrim : rustTrim T = T := rustTrim_eq_self T hhead hlast
  have hsplit : splitSpaces T =
      [List.intercalate ['/'] rs, sd, ca, ep, natToChars nh, natToChars nf] := by
    rw [hT]
    rw [splitSpaces_append _ _ (fun c hc => notWS_ne_space c (hplc c hc))]
    rw [splitSpaces_append _ _ (fun c hc => notWS_ne_space c (hsd_ws c hc))]
    rw [splitSpaces_append _ _ (fun c hc => notWS_ne_space c (hca_ws c hc))]
    rw [splitSpaces_append _ _ (fun c hc => notWS_ne_space c (hep_ws c hc))]
    rw [splitSpaces_append _ _ (fun c hc => notWS_ne_space c (hhm_ws c hc))]
    rw [splitSpaces_nospace _ (fun c hc => notWS_ne_space c (hfm_ws c hc))]
  obtain ⟨sidev, hside, hsdchars⟩ :
      ∃ v, PieceColor.try_from sd = .ok v ∧ v.toChars = sd := by
    rcases hsd with rfl | rfl
    · exact ⟨PieceColor.White, rfl, rfl⟩
    · exact ⟨PieceColor.Black, rfl, rfl⟩
  obtain ⟨rights, hrights, hrchars, hrval⟩ := castling_parse ca hca
  obtain ⟨epv, hepparse, hepchars, hepdisj⟩ :
      ∃ v, Square.from_square_name ep = .ok v ∧ Square.to_square_name v = ep ∧
        (v = none ∨ ∃ t, v = some t ∧ t < 64) := by
    rcases hep with rfl | hmem
    · exact ⟨none, rfl, rfl, Or.inl rfl⟩
    · obtain ⟨i, hi, hok, hname⟩ := square_parse ep hmem
      exact ⟨some i, hok, hname, Or.inr ⟨i, rfl, hi⟩⟩
  have hhmp : parse_u8 (natToChars nh) = .ok nh := clock_parse nh hnh
  have hfmp : parse_u8 (natToChars nf) = .ok nf := clock_parse nf hnf
  obtain ⟨bd, zhb, hparse, hblen, _, hcells⟩ := parse_ranks rs ChessBoard.default 0 0 hrsv
    (by omega) (by decide) (fun j _ => getD_replicate_none 64 j)
  rw [Nat.mul_zero] at hparse
  have hnot : ChessBoard.from_fen_notation (List.intercalate ['/'] rs) 0 =
      .ok (bd, zhb) := by
    unfold ChessBoard.from_fen_notation
    rw [hparse]
  have hswap := swap_castling_ok
    (if sidev = PieceColor.White then ZHash.toggle_side zhb else zhb) rights hrval
  obtain ⟨st2, hupd, hfb, hfs, hfc, hfe, hfh, hff⟩ :
      ∃ s2, ChessBoardState.update_enpassant_hash
          { board := bd, side := sidev, castling_rights := rights,
            en_passant_target := epv, half_moves := nh, full_moves := nf,
            zhash := (if sidev = PieceColor.White then ZHash.toggle_side zhb else zhb) ^^^
              CASTLING_HASHES.getD 0 0 ^^^ CASTLING_HASHES.getD rights.index 0 }
          sidev epv = some s2 ∧ s2.board = bd ∧
        s2.side = sidev ∧ s2.castling_rights = rights ∧
        s2.en_passant_target = epv ∧
        s2.half_moves = nh ∧ s2.full_moves = nf := by
    rcases hepdisj with rfl | ⟨t, rfl, ht⟩
    · exact ⟨_, rfl, rfl, rfl, rfl, rfl, rfl, rfl⟩
    · exact update_ep_hash_some _ sidev t ht
  have hranks : toFenRanks bd = List.intercalate ['/'] rs := by
    unfold toFenRanks
    have hmapeq : (List.range 8).map (fun y => encodeRankAux (bd.rankSquares y) 0) =
        (List.range 8).map (fun y => rs.getD y []) := by
      apply List.map_congr_left
      intro y hy
      rw [List.mem_range] at hy
      have hmem : rs.getD y [] ∈ rs := by
        rw [List.getD_eq_getElem rs [] (by omega)]
        exact List.getElem_mem (by omega)
      have hvr : validRank (rs.getD y []) = true := hrsv _ hmem
      unfold validRank at hvr
      have hcl8 : (rankContent (rs.getD y [])).length = 8 :=
        rankContent_length _ 8 false hvr
      have hrank : ChessBoard.rankSquares bd y = rankContent (rs.getD y []) := by
        unfold ChessBoard.rankSquares
        have h1 : (List.range 8).map (fun x => bd.piece_board.getD (x + 8 * y) none) =
            (List.range 8).map (fun x => (rankContent (rs.getD y [])).getD x none) := by
          apply List.map_congr_left
          intro x hx
          rw [List.mem_range] at hx
          have h2 := hcells y x (by omega) hx
          rw [show 0 + y = y from by omega] at h2
          exact h2
        rw [h1, ← hcl8]
        exact map_range_getD _ none
      rw [hrank]
      rw [encodeRank_inv _ 8 false 0 hvr (fun hh => absurd rfl hh)]
      rw [if_neg (by omega)]
      rw [List.nil_append]
    rw [hmapeq, show (8 : Nat) = rs.length from hrs8.symm]
    exact congrArg (List.intercalate ['/']) (map_range_getD rs [])
  refine ⟨st2, ?_, ?_⟩
  · unfold ChessBoardState.from_fen
    rw [htrim, hsplit]
    rw [if_neg (show ¬([List.intercalate ['/'] rs, sd, ca, ep, natToChars nh,
      natToChars nf].length ≠ 6) from by simp)]
    simp only [List.getD_cons_zero, List.getD_cons_succ]
    rw [hnot, hside, hrights, hepparse, hhmp, hfmp]
    simp only [presult_bind_ok]
    rw [hswap]
    dsimp only
    rw [hupd]
  · unfold ChessBoardState.to_fen
    rw [hfb, hfs, hfc, hfe, hfh, hff]
    rw [hranks, hsdchars, hrchars, hepchars]
    simp [hT]

set_option maxRecDepth 10000 in
theorem c2_fen_round_trip_amended_witness :
    validFen255 fenC2rt ∧
    ∃ st, ChessBoardState.from_fen fenC2rt = PResult.ok st ∧ st.to_fen = fenC2rt := by
  have hv : validFen255 fenC2rt := by
    refine ⟨"r3k2r/8/8/3pP3/8/8/8/R3K2R".data, ['w'], ['K','Q','k','q'],
      ['d','6'], ['0'], ['9','9'], by decide, ?_, ?_, ?_, ?_, ?_, ?_⟩
    · exact ⟨["r3k2r".data, ['8'], ['8'], "3pP3".data, ['8'], ['8'], ['8'],
        "R3K2R".data], by decide, by decide, by decide⟩
    · exact Or.inl rfl
    · decide
    · exact Or.inr (by decide)
    · exact ⟨0, by decide, by decide⟩
    · exact ⟨99, by decide, by decide⟩
  exact ⟨hv, c2_fen_round_trip_amended fenC2rt hv⟩

end Iglo
